import Mathlib

/-!
Verification of the hls compiler pipeline (alpha conversion, A-normalization,
Calyx code generation) against its natural-language specification.

The Rust sources are shallowly embedded: pure functions become Lean functions,
the mutable `Converter` (resp. `NormalizeState`, `AlphaContext`) becomes explicit
state passing, `anyhow::Result` becomes `Except`, and Rust panics (`unwrap` on
`None`, `todo!`, out-of-bounds indexing) are modelled as a distinct `crash`
failure constructor, separate from returned errors.

A note on the snapshot: the source files mix two revisions of the pipeline.
`ast.rs`, `parser.rs` and `a_normalize.rs` use a four-field `Reduce`
(array, two lambda parameters, body), while `alpha.rs`, `convert.rs` and the
specification use the five-field form that also carries an init-value operand;
likewise `calyx_ast.rs` predates the `is_ref` cell flag, the `StdLt` /
`FunInstance` circuits and the per-component `get_add_cell` / `get_mult_cell`
helpers that `convert.rs` calls.  The embedding follows the five-field /
extended form used by `alpha.rs`, `convert.rs` and the spec; the few pieces
whose definitions are absent from the sources are marked
`Modelled from the spec:` in their doc comments.
-/

namespace HLS

/-- Source-language types (`ast.rs` `Type`): scalar integers of a bit width,
or statically sized arrays. -/
inductive Ty where
  | i (width : Nat)
  | array (elem : Ty) (size : Nat)
  deriving DecidableEq

/-- True exactly on array types (used by the `Call` lowering's
`is_contain_array` check). -/
def Ty.isArrayTy : Ty → Bool
  | .i _ => false
  | .array _ _ => true

/-! ### The surface AST (as traversed by `alpha.rs`) -/

mutual

/-- Surface operand expressions (`ast.rs` `BaseExpr`, with the five-field
`Reduce` used by `alpha.rs` and the spec's data model). -/
inductive BaseExpr where
  | int (n : Int)
  | bool (b : Bool)
  | var (name : String)
  | add (l r : BaseExpr)
  | mul (l r : BaseExpr)
  | newArray (ty : Ty) (size : Nat)
  | map (arrays : List BaseExpr) (params : List String) (body : Expr)
  | reduce (array : BaseExpr) (init : BaseExpr) (p1 p2 : String) (body : Expr)
  | call (name : String) (args : List BaseExpr)
  | arraySet (array : String) (index : BaseExpr) (value : BaseExpr)

/-- A let binding (`ast.rs` `Let_`). -/
inductive LetB where
  | bindLet (name : String) (ty : Ty) (value : BaseExpr)
  | noBindLet (value : BaseExpr)

/-- An expression: ordered lets followed by a final operand (`ast.rs` `Expr_`). -/
inductive Expr where
  | mk (lets : List LetB) (body : BaseExpr)

end

/-- A function definition (`ast.rs` `FunDef_`), surface form. -/
structure FunDefS where
  name : String
  params : List (String × Ty)
  return_type : Option Ty
  body : Expr

/-- An external array declaration (`ast.rs` `ExternalDecl`). -/
structure ExternalDeclS where
  name : String
  ty : Ty

/-- A top-level item (`ast.rs` `TopLevel_`), surface form. -/
inductive TopLevelS where
  | externalDecl (d : ExternalDeclS)
  | funDef (fd : FunDefS)

/-- A program is an ordered list of top-level items (`ast.rs` `Program_`). -/
def ProgramS := List TopLevelS

/-! ### The ANF AST (as consumed by `convert.rs`) -/

mutual

/-- ANF operand expressions (`ast.rs` `ANormalBaseExpr`, with the five-field
`Reduce` that `convert.rs` pattern-matches). All operand positions are bare
identifiers. -/
inductive ABase where
  | int (n : Int)
  | bool (b : Bool)
  | var (name : String)
  | add (l r : String)
  | mul (l r : String)
  | newArray (ty : Ty) (size : Nat)
  | map (arrays : List String) (params : List String) (body : AExpr)
  | reduce (array : String) (init : String) (acm arg : String) (body : AExpr)
  | call (name : String) (args : List String)
  | arraySet (array : String) (index : String) (value : String)

/-- An ANF let binding (`ast.rs` `ANormalLet`). -/
inductive ALet where
  | bindLet (name : String) (ty : Ty) (value : ABase)
  | noBindLet (value : ABase)

/-- An ANF expression (`ast.rs` `ANormalExpr`). -/
inductive AExpr where
  | mk (lets : List ALet) (body : ABase)

end

/-- An ANF function definition. -/
structure FunDefA where
  name : String
  params : List (String × Ty)
  return_type : Option Ty
  body : AExpr

/-- An ANF top-level item. -/
inductive ATopLevel where
  | externalDecl (d : ExternalDeclS)
  | funDef (fd : FunDefA)

/-- An ANF program. -/
def AProgram := List ATopLevel

/-! ### The structural (Calyx) IR, `calyx_ast.rs` extended as used by `convert.rs` -/

/-- A cell port reference (`calyx_ast.rs` `Port`). -/
structure Port where
  cell : String
  port : String
  deriving DecidableEq

/-- A wire source: another port, or an immediate of a given width
(`calyx_ast.rs` `Src`). -/
inductive Src where
  | port (p : Port)
  | int (value : Int) (width : Nat)
  deriving DecidableEq

/-- A wire (`calyx_ast.rs` `Wire`). -/
structure Wire where
  dest : Port
  src : Src
  deriving DecidableEq

/-- A named control group; `done = none` marks a combinational group
(`calyx_ast.rs` `Group`). -/
structure Group where
  name : String
  done : Option Src
  wires : List Wire
  deriving DecidableEq

/-- Hardware primitives (`calyx_ast.rs` `Circuit`; the `stdLt` and
`funInstance` variants are constructed by `convert.rs` and listed in the
spec's data model, though absent from the stale `calyx_ast.rs` revision in
the snapshot). -/
inductive Circuit where
  | combMemD1 (dataWidth len addressWidth : Nat)
  | stdReg (width : Nat)
  | stdAdd (width : Nat)
  | stdMul (width : Nat)
  | stdLt (width : Nat)
  | funInstance (name : String)
  deriving DecidableEq

/-- An instantiated cell (`calyx_ast.rs` `Cell`; the `isRef` flag is used by
`convert.rs` and described in the spec's data model). -/
structure Cell where
  name : String
  isExternal : Bool
  isRef : Bool
  circuit : Circuit
  deriving DecidableEq

/-- Hierarchical control (`calyx_ast.rs` `Control`). -/
inductive Control where
  | seq (cs : List Control)
  | par (cs : List Control)
  | groupName (name : String)
  | whileC (condition : Port) (withGroup : Option String) (body : List Control)

/-- The empty control fragment (`Control::empty`). -/
def Control.empty : Control := .seq []

/-- `Control::is_empty`: only an empty `Seq` counts as empty. -/
def Control.isEmptyControl : Control → Bool
  | .seq cs => cs.isEmpty
  | _ => false

/-- Static wires plus named groups (`calyx_ast.rs` `Wires`). -/
structure Wires where
  static_wires : List Wire
  groups : List Group
  deriving DecidableEq

/-- A component (`calyx_ast.rs` `Component`). -/
structure Component where
  name : String
  params : List (String × Nat)
  result : List (String × Nat)
  cells : List Cell
  wires : Wires
  control : List Control

/-- `Component::new`: an empty component of the given signature. -/
def Component.new (name : String) (params result : List (String × Nat)) : Component :=
  { name := name, params := params, result := result, cells := [],
    wires := { static_wires := [], groups := [] }, control := [] }

/-- The output program (`calyx_ast.rs` `Program`). -/
structure CalyxProgram where
  import_names : List String
  main : Component
  components : List Component

/-- Modelled from the spec: `Component::get_add_cell` is called by `convert.rs`
but not defined in the snapshot's (stale) `calyx_ast.rs`.  Per the spec,
combinational operator cells are cached per component keyed by
(operator kind, width): an existing adder of the requested width is reused,
otherwise a new one is created and appended to the component's cells.  The
fresh cell's name is not fixed by the spec; a deterministic width-indexed name
is used, and no claim depends on it. -/
def Component.get_add_cell (comp : Component) (width : Nat) : Cell × Component :=
  match comp.cells.find? (fun c => c.circuit == Circuit.stdAdd width) with
  | some c => (c, comp)
  | none =>
    let c : Cell := ⟨"_add_" ++ Nat.repr width, false, false, .stdAdd width⟩
    (c, { comp with cells := comp.cells ++ [c] })

/-- Modelled from the spec: `Component::get_mult_cell`, the multiplier
counterpart of `Component.get_add_cell` (see its doc comment). -/
def Component.get_mult_cell (comp : Component) (width : Nat) : Cell × Component :=
  match comp.cells.find? (fun c => c.circuit == Circuit.stdMul width) with
  | some c => (c, comp)
  | none =>
    let c : Cell := ⟨"_mult_" ++ Nat.repr width, false, false, .stdMul width⟩
    (c, { comp with cells := comp.cells ++ [c] })

/-! ### The converter state and monad (`convert.rs` `Converter`) -/

/-- First-match lookup in an association list; models `HashMap::get` for the
insertion discipline used here (new entries are consed at the front, so the
most recent insertion for a key wins, as with `HashMap::insert`). -/
def lookupA {α : Type} : List (String × α) → String → Option α
  | [], _ => none
  | (k, v) :: rest, key => if k = key then some v else lookupA rest key

/-- The code generator's state (`convert.rs` `Converter`). -/
structure Converter where
  program : CalyxProgram
  fresh_idx : Nat
  current_func : Option String
  env : List (String × Src)
  type_env : List (String × Ty)
  fun_type_env : List (String × (List (String × Ty) × Option Ty))

/-- Failure channel of the generator: `err` models errors returned through
`anyhow::Result`; `crash` models Rust panics (`unwrap` on `None`, `todo!`,
out-of-bounds indexing), which abort the process instead of being returned. -/
inductive CErr where
  | err (msg : String)
  | crash (msg : String)
  deriving DecidableEq

/-- State-passing embedding of `&mut Converter` methods returning
`anyhow::Result`. -/
def Conv (α : Type) : Type := Converter → Except CErr (α × Converter)

/-- Monadic return for `Conv`. -/
def Conv.pure {α : Type} (a : α) : Conv α := fun c => .ok (a, c)

/-- Monadic bind for `Conv`: sequence two stateful steps, propagating failure. -/
def Conv.bind {α β : Type} (m : Conv α) (f : α → Conv β) : Conv β := fun c =>
  match m c with
  | .ok (a, c1) => f a c1
  | .error e => .error e

instance : Monad Conv where
  pure := Conv.pure
  bind := Conv.bind

/-- Abort with a failure. -/
def Conv.fail {α : Type} (e : CErr) : Conv α := fun _ => .error e

/-- `Converter::fresh_name`: `_tmp_N` from the shared counter. -/
def fresh_name : Conv String := fun c =>
  .ok ("_tmp_" ++ Nat.repr c.fresh_idx, { c with fresh_idx := c.fresh_idx + 1 })

/-- `Converter::new_group`: a new empty group named `_group_N` from the same
shared counter. -/
def new_group : Conv Group := fun c =>
  .ok (⟨"_group_" ++ Nat.repr c.fresh_idx, none, []⟩, { c with fresh_idx := c.fresh_idx + 1 })

/-- `Converter::find_src_by_var`. -/
def find_src_by_var (v : String) : Conv Src := fun c =>
  match lookupA c.env v with
  | some s => .ok (s, c)
  | none => .error (.err ("Variable " ++ v ++ " not found in cell map"))

/-- `Converter::get_current_func`, read side: `main` resolves to the program's
main component, other names are looked up among the pushed components. -/
def get_current_func : Conv Component := fun c =>
  match c.current_func with
  | none => .error (.err "No current function set or function not found")
  | some fname =>
    if fname = "main" then .ok (c.program.main, c)
    else
      match c.program.components.find? (fun comp => comp.name == fname) with
      | some comp => .ok (comp, c)
      | none => .error (.err "No current function set or function not found")

/-- Replace the first list element satisfying `p` by its image under `f`
(`iter_mut().find()` followed by mutation). -/
def updateFirst {α : Type} (p : α → Bool) (f : α → α) : List α → Option (List α)
  | [] => none
  | x :: xs => if p x then some (f x :: xs) else (updateFirst p f xs).map (x :: ·)

/-- `Converter::get_current_func`, write side: apply `f` to the component the
mutable borrow refers to (the first component with the current name). -/
def modify_current_func (f : Component → Component) : Conv Unit := fun c =>
  match c.current_func with
  | none => .error (.err "No current function set or function not found")
  | some fname =>
    if fname = "main" then
      .ok ((), { c with program := { c.program with main := f c.program.main } })
    else
      match updateFirst (fun comp => comp.name == fname) f c.program.components with
      | some comps => .ok ((), { c with program := { c.program with components := comps } })
      | none => .error (.err "No current function set or function not found")

/-- `self.get_current_func()?.cells.push(cell)`. -/
def push_cell (cell : Cell) : Conv Unit :=
  modify_current_func (fun comp => { comp with cells := comp.cells ++ [cell] })

/-- `self.get_current_func()?.wires.groups.push(g)`. -/
def push_group (g : Group) : Conv Unit :=
  modify_current_func (fun comp =>
    { comp with wires := { comp.wires with groups := comp.wires.groups ++ [g] } })

/-- `self.get_current_func()?.wires.static_wires.push(w)`. -/
def push_static_wire (w : Wire) : Conv Unit :=
  modify_current_func (fun comp =>
    { comp with wires := { comp.wires with static_wires := comp.wires.static_wires ++ [w] } })

/-- `self.get_current_func()?.control.push(ctl)` (unfiltered push). -/
def push_control_direct (ctl : Control) : Conv Unit :=
  modify_current_func (fun comp => { comp with control := comp.control ++ [ctl] })

/-- `Component::push_control`: push a control fragment unless it is empty. -/
def push_control_filtered (ctl : Control) : Conv Unit :=
  if ctl.isEmptyControl then Conv.pure () else push_control_direct ctl

/-- `self.env.insert(k, v)`. -/
def insert_env (k : String) (v : Src) : Conv Unit := fun c =>
  .ok ((), { c with env := (k, v) :: c.env })

/-- `self.type_env.insert(k, ty)`. -/
def insert_type_env (k : String) (ty : Ty) : Conv Unit := fun c =>
  .ok ((), { c with type_env := (k, ty) :: c.type_env })

/-- `self.fun_type_env.insert(k, sig)`. -/
def insert_fun_type_env (k : String) (sig : List (String × Ty) × Option Ty) : Conv Unit :=
  fun c => .ok ((), { c with fun_type_env := (k, sig) :: c.fun_type_env })

/-- `self.type_env.get(k)` (read only). -/
def read_type_env (k : String) : Conv (Option Ty) := fun c =>
  .ok (lookupA c.type_env k, c)

/-- `self.fun_type_env.get(k)` (read only). -/
def read_fun_type_env (k : String) : Conv (Option (List (String × Ty) × Option Ty)) := fun c =>
  .ok (lookupA c.fun_type_env k, c)

/-- `self.env.get(k)` (read only). -/
def read_env (k : String) : Conv (Option Src) := fun c =>
  .ok (lookupA c.env k, c)

/-- `self.current_func = Some(name)`. -/
def set_current_func (name : String) : Conv Unit := fun c =>
  .ok ((), { c with current_func := some name })

/-- `self.get_current_func()?.get_add_cell(w)`: fetch or create the cached
per-component adder and write the component back. -/
def get_add_cell_current (w : Nat) : Conv Cell := do
  let comp ← get_current_func
  let p := comp.get_add_cell w
  modify_current_func (fun _ => p.2)
  Conv.pure p.1

/-- `self.get_current_func()?.get_mult_cell(w)`: fetch or create the cached
per-component multiplier and write the component back. -/
def get_mult_cell_current (w : Nat) : Conv Cell := do
  let comp ← get_current_func
  let p := comp.get_mult_cell w
  modify_current_func (fun _ => p.2)
  Conv.pure p.1

/-! ### Loop helpers of the `Map` and `Call` lowerings -/

/-- The `vars → ports` collection of the `Map` arm: every input array variable
must be bound to a port in the environment. -/
def ports_of_vars : List String → Conv (List Port)
  | [] => Conv.pure []
  | v :: rest => do
    let s ← find_src_by_var v
    match s with
    | .port p => do
      let ps ← ports_of_vars rest
      Conv.pure (p :: ps)
    | _ => Conv.fail (.err ("Expected a port for variable " ++ v))

/-- The argument-source collection of the `Call` arm. -/
def srcs_of_vars : List String → Conv (List Src)
  | [] => Conv.pure []
  | v :: rest => do
    let s ← find_src_by_var v
    let ss ← srcs_of_vars rest
    Conv.pure (s :: ss)

/-- The `Map` arm's pre-closure loop inserting `I(width)` for each lambda
parameter into the type environment. -/
def insert_arg_types (args : List String) (w : Nat) : Conv Unit :=
  match args with
  | [] => Conv.pure ()
  | a :: rest => do
    insert_type_env a (.i w)
    insert_arg_types rest w

/-- The `Map` arm's loop creating one argument register per lambda parameter:
a fresh `std_reg(width)` cell is pushed and the parameter is bound to its
`out` port. -/
def mk_arg_regs (args : List String) (w : Nat) : Conv (List Cell) :=
  match args with
  | [] => Conv.pure []
  | a :: rest => do
    let name ← fresh_name
    let reg : Cell := ⟨name, false, false, .stdReg w⟩
    push_cell reg
    insert_env a (.port ⟨name, "out"⟩)
    let others ← mk_arg_regs rest w
    Conv.pure (reg :: others)

/-- The `Map` arm's loop creating one load-argument group per argument
register; the `i`-th register is paired with `vars[i]`, whose out-of-range
indexing would panic in Rust (modelled by `crash`). -/
def mk_init_args_groups (crName : String) : List Port → List Cell → Conv (List String)
  | _, [] => Conv.pure []
  | [], _ :: _ => Conv.fail (.crash "index out of bounds")
  | p :: ps, r :: rs => do
    let g ← new_group
    let g : Group :=
      { g with
        wires := [⟨⟨p.cell, "addr0"⟩, .port ⟨crName, "out"⟩⟩,
                  ⟨⟨r.name, "in"⟩, .port p⟩,
                  ⟨⟨r.name, "write_en"⟩, .int 1 1⟩],
        done := some (.port ⟨r.name, "done"⟩) }
    push_group g
    let rest ← mk_init_args_groups crName ps rs
    Conv.pure (g.name :: rest)

/-- The `Call` arm's loop wiring the `i`-th declared parameter port from
`args[i]`; in Rust a parameter list longer than the argument list would panic
on indexing (modelled by `crash`). -/
def mk_call_arg_wires (funName : String) : List (String × Ty) → List Src → Conv (List Wire)
  | [], _ => Conv.pure []
  | _ :: _, [] => Conv.fail (.crash "index out of bounds")
  | (pname, _) :: ps, s :: ss => do
    let rest ← mk_call_arg_wires funName ps ss
    Conv.pure (⟨⟨funName, pname⟩, s⟩ :: rest)

/-- The `self.env.get(&result_var).ok_or_else(internal error)` lookup shared
by the `Map` and `Reduce` arms. -/
def match_result_var (result_var : String) : Conv Src := fun c =>
  match lookupA c.env result_var with
  | some s => .ok (s, c)
  | none => .error (.err ("internal error: Expected result variable " ++ result_var ++
      " to be in environment"))

/-! ### The per-operator lowering (`Converter::convert_base_expr` etc.)

In `convert.rs`, `convert_base_expr` returns a `FnOnce(Option<String>)`
closure that every call site applies immediately to the destination; the
embedding fuses the two phases into one function taking the destination
directly, keeping the source's effect order (the pre-closure lookups and
type-environment insertions come first, then the destination-dependent
part). -/

mutual

/-- `Converter::convert_base_expr`, fused with its returned closure. -/
def convert_base_expr (e : ABase) (dst : Option String) : Conv Control :=
  match e with
  | .int n => do
    match dst with
    | some d => insert_env d (.int n 32)
    | none => Conv.pure ()
    Conv.pure Control.empty
  | .bool b => do
    match dst with
    | some d => insert_env d (.int (if b then 1 else 0) 1)
    | none => Conv.pure ()
    Conv.pure Control.empty
  | .var v => do
    let src ← find_src_by_var v
    match dst with
    | some d => insert_env d src
    | none => Conv.pure ()
    Conv.pure Control.empty
  | .add v1 v2 => do
    let s1 ← find_src_by_var v1
    let s2 ← find_src_by_var v2
    match dst with
    | none => Conv.pure Control.empty
    | some d => do
      let name ← fresh_name
      push_cell ⟨name, false, false, .stdAdd 32⟩
      push_static_wire ⟨⟨name, "left"⟩, s1⟩
      push_static_wire ⟨⟨name, "right"⟩, s2⟩
      insert_env d (.port ⟨name, "out"⟩)
      Conv.pure Control.empty
  | .mul v1 v2 => do
    let s1 ← find_src_by_var v1
    let s2 ← find_src_by_var v2
    match dst with
    | none => Conv.pure Control.empty
    | some d => do
      let mult_cell ← get_mult_cell_current 32
      insert_env d (.port ⟨d, "out"⟩)
      push_cell ⟨d, false, false, .stdReg 32⟩
      let g ← new_group
      let g : Group :=
        { g with
          wires := [⟨⟨mult_cell.name, "left"⟩, s1⟩,
                    ⟨⟨mult_cell.name, "right"⟩, s2⟩,
                    ⟨⟨mult_cell.name, "go"⟩, .int 1 1⟩,
                    ⟨⟨d, "in"⟩, .port ⟨mult_cell.name, "out"⟩⟩,
                    ⟨⟨d, "write_en"⟩, .port ⟨mult_cell.name, "done"⟩⟩],
          done := some (.port ⟨d, "done"⟩) }
      push_group g
      Conv.pure (Control.groupName g.name)
  | .newArray _ _ => Conv.fail (.crash "not yet implemented")
  | .map vars args body => do
    let v0 ← match vars with
      | [] => (Conv.fail (.crash "called Option.unwrap on a None value") : Conv String)
      | v :: _ => Conv.pure v
    let t ← read_type_env v0
    let wn ← match t with
      | some (.array (.i w) n) => Conv.pure (w, n)
      | some (.array (.array _ _) _) => Conv.fail (.err "Expected an integer type for map")
      | _ => Conv.fail (.err "Expected an array type for map")
    let ports ← ports_of_vars vars
    insert_arg_types args wn.1
    let add_cell ← get_add_cell_current 32
    let nvName ← fresh_name
    push_cell ⟨nvName, false, false, .combMemD1 wn.1 wn.2 32⟩
    let crName ← fresh_name
    push_cell ⟨crName, false, false, .stdReg 32⟩
    let arg_regs ← mk_arg_regs args wn.1
    let ltName ← fresh_name
    push_cell ⟨ltName, false, false, .stdLt 32⟩
    match dst with
    | some d => insert_env d (.port ⟨nvName, "read_data"⟩)
    | none => Conv.pure ()
    let g1 ← new_group
    let g1 : Group :=
      { g1 with
        wires := [⟨⟨crName, "in"⟩, .int 0 32⟩, ⟨⟨crName, "write_en"⟩, .int 1 1⟩],
        done := some (.port ⟨crName, "done"⟩) }
    push_group g1
    let gc ← new_group
    let gc : Group :=
      { gc with
        wires := [⟨⟨ltName, "left"⟩, .port ⟨crName, "out"⟩⟩,
                  ⟨⟨ltName, "right"⟩, .int (Int.ofNat wn.2) 32⟩] }
    push_group gc
    let initArgGroups ← mk_init_args_groups crName ports arg_regs
    let result_var ← fresh_name
    let body_control ← convert_expr body (some result_var)
    let result ← match_result_var result_var
    let gr ← new_group
    let gr : Group :=
      { gr with
        wires := [⟨⟨nvName, "addr0"⟩, .port ⟨crName, "out"⟩⟩,
                  ⟨⟨nvName, "write_data"⟩, result⟩,
                  ⟨⟨nvName, "write_en"⟩, .int 1 1⟩],
        done := some (.port ⟨nvName, "done"⟩) }
    push_group gr
    let gi ← new_group
    let gi : Group :=
      { gi with
        wires := [⟨⟨add_cell.name, "left"⟩, .port ⟨crName, "out"⟩⟩,
                  ⟨⟨add_cell.name, "right"⟩, .int 1 32⟩,
                  ⟨⟨crName, "in"⟩, .port ⟨add_cell.name, "out"⟩⟩,
                  ⟨⟨crName, "write_en"⟩, .int 1 1⟩],
        done := some (.port ⟨crName, "done"⟩) }
    push_group gi
    let loop_body := Control.seq (initArgGroups.map Control.groupName) ::
      ((if body_control.isEmptyControl then [] else [body_control]) ++
       [Control.groupName gr.name, Control.groupName gi.name])
    Conv.pure (Control.seq [Control.groupName g1.name,
      Control.whileC ⟨ltName, "out"⟩ (some gc.name) loop_body])
  | .reduce array iv acm arg body => do
    let t ← read_type_env array
    let wn ← match t with
      | some (.array (.i w) n) => Conv.pure (w, n)
      | some (.array (.array _ _) _) => Conv.fail (.err "Expected an integer type for reduction")
      | _ => Conv.fail (.err "Expected an array type for reduction")
    let s ← find_src_by_var array
    let arrayPort ← match s with
      | .port p => Conv.pure p
      | _ => Conv.fail (.err "Expected a port for array variable")
    let init_src ← find_src_by_var iv
    insert_type_env acm (.i wn.1)
    insert_type_env arg (.i wn.1)
    let add_cell ← get_add_cell_current wn.1
    let acmName ← fresh_name
    insert_env acm (.port ⟨acmName, "out"⟩)
    match dst with
    | some d => insert_env d (.port ⟨acmName, "out"⟩)
    | none => Conv.pure ()
    let crName ← fresh_name
    let argName ← fresh_name
    insert_env arg (.port ⟨argName, "out"⟩)
    let ltName ← fresh_name
    let g1 ← new_group
    let g1 : Group :=
      { g1 with
        wires := [⟨⟨crName, "in"⟩, .int 0 32⟩, ⟨⟨crName, "write_en"⟩, .int 1 1⟩],
        done := some (.port ⟨crName, "done"⟩) }
    let g2 ← new_group
    let g2 : Group :=
      { g2 with
        wires := [⟨⟨acmName, "in"⟩, init_src⟩, ⟨⟨acmName, "write_en"⟩, .int 1 1⟩],
        done := some (.port ⟨acmName, "done"⟩) }
    let init_control := Control.par [Control.groupName g1.name, Control.groupName g2.name]
    push_group g1
    push_group g2
    let gc ← new_group
    let gc : Group :=
      { gc with
        wires := [⟨⟨ltName, "left"⟩, .port ⟨crName, "out"⟩⟩,
                  ⟨⟨ltName, "right"⟩, .int (Int.ofNat wn.2) 32⟩] }
    push_group gc
    let gr ← new_group
    let gr : Group :=
      { gr with
        wires := [⟨⟨arrayPort.cell, "addr0"⟩, .port ⟨crName, "out"⟩⟩,
                  ⟨⟨argName, "in"⟩, .port ⟨arrayPort.cell, "read_data"⟩⟩,
                  ⟨⟨argName, "write_en"⟩, .int 1 1⟩],
        done := some (.port ⟨argName, "done"⟩) }
    let result_var ← fresh_name
    insert_type_env result_var (.i wn.1)
    let body_group ← convert_expr body (some result_var)
    let result ← match_result_var result_var
    let gres ← new_group
    let gres : Group :=
      { gres with
        wires := [⟨⟨acmName, "in"⟩, result⟩, ⟨⟨acmName, "write_en"⟩, .int 1 1⟩],
        done := some (.port ⟨acmName, "done"⟩) }
    let ginc ← new_group
    let ginc : Group :=
      { ginc with
        wires := [⟨⟨add_cell.name, "left"⟩, .port ⟨crName, "out"⟩⟩,
                  ⟨⟨add_cell.name, "right"⟩, .int 1 32⟩,
                  ⟨⟨crName, "in"⟩, .port ⟨add_cell.name, "out"⟩⟩,
                  ⟨⟨crName, "write_en"⟩, .int 1 1⟩],
        done := some (.port ⟨crName, "done"⟩) }
    let while_body := Control.groupName gr.name ::
      ((if body_group.isEmptyControl then [] else [body_group]) ++
       [Control.groupName gres.name, Control.groupName ginc.name])
    push_group gr
    push_group gres
    push_group ginc
    push_cell ⟨acmName, false, false, .stdReg wn.1⟩
    push_cell ⟨crName, false, false, .stdReg 32⟩
    push_cell ⟨argName, false, false, .stdReg wn.1⟩
    push_cell ⟨ltName, false, false, .stdLt 32⟩
    Conv.pure (Control.seq [init_control,
      Control.whileC ⟨ltName, "out"⟩ (some gc.name) while_body])
  | .call fname args => do
    let argSrcs ← srcs_of_vars args
    let ft ← read_fun_type_env fname
    let sig ← match ft with
      | some sig => Conv.pure sig
      | none => Conv.fail (.err ("Function " ++ fname ++ " not found in function environment"))
    if sig.1.any (fun p => p.2.isArrayTy) ||
       (match sig.2 with | some ty => ty.isArrayTy | none => false) then
      Conv.fail (.crash "not yet implemented")
    else do
      let funName ← fresh_name
      push_cell ⟨funName, false, false, .funInstance fname⟩
      let g ← new_group
      let argWires ← mk_call_arg_wires funName sig.1 argSrcs
      match dst with
      | some d => insert_env d (.port ⟨funName, "_out"⟩)
      | none => Conv.pure ()
      let g : Group :=
        { g with
          wires := argWires ++ [⟨⟨funName, "go"⟩, .int 1 1⟩],
          done := some (.port ⟨funName, "done"⟩) }
      push_group g
      Conv.pure (Control.groupName g.name)
  | .arraySet array idx val => do
    let s ← find_src_by_var array
    let arrayPort ← match s with
      | .port p => Conv.pure p
      | _ => Conv.fail (.err "Expected a port for array variable")
    let index ← find_src_by_var idx
    let value ← find_src_by_var val
    let g ← new_group
    let g : Group :=
      { g with
        wires := [⟨⟨arrayPort.cell, "addr0"⟩, index⟩,
                  ⟨⟨arrayPort.cell, "write_data"⟩, value⟩,
                  ⟨⟨arrayPort.cell, "write_en"⟩, .int 1 1⟩],
        done := some (.port ⟨arrayPort.cell, "done"⟩) }
    push_group g
    match dst with
    | some d => insert_env d value
    | none => Conv.pure ()
    Conv.pure (Control.groupName g.name)

/-- `Converter::convert_let`. -/
def convert_let (l : ALet) : Conv Control :=
  match l with
  | .bindLet name ty value => do
    insert_type_env name ty
    convert_base_expr value (some name)
  | .noBindLet value => convert_base_expr value none

/-- The let-folding loop of `Converter::convert_expr`: convert each binding
in order, keeping the non-empty control fragments. -/
def convert_lets (ls : List ALet) : Conv (List Control) :=
  match ls with
  | [] => Conv.pure []
  | l :: rest => do
    let ctl ← convert_let l
    let others ← convert_lets rest
    Conv.pure (if ctl.isEmptyControl then others else ctl :: others)

/-- `Converter::convert_expr`. -/
def convert_expr (e : AExpr) (out : Option String) : Conv Control :=
  match e with
  | .mk lets body => do
    let seq1 ← convert_lets lets
    let ctl ← convert_base_expr body out
    Conv.pure (Control.seq (if ctl.isEmptyControl then seq1 else seq1 ++ [ctl]))

end

/-- `self.program.components.push(comp)`. -/
def push_component (comp : Component) : Conv Unit := fun c =>
  .ok ((), { c with program := { c.program with components := c.program.components ++ [comp] } })

/-- `self.program.main.cells.push(cell)` (used by external declarations,
which write to `main` directly). -/
def push_main_cell (cell : Cell) : Conv Unit := fun c =>
  .ok ((), { c with program := { c.program with main :=
    { c.program.main with cells := c.program.main.cells ++ [cell] } } })

/-- The parameter loop of `Converter::convert_fundef` (non-`main` case):
scalar parameters become component ports bound directly in the environment,
array parameters become `ref` memory cells bound via their `read_data` port. -/
def process_params : List (String × Ty) → Conv (List (String × Nat) × List Cell)
  | [] => Conv.pure ([], [])
  | (pname, pty) :: rest => do
    insert_type_env pname pty
    match pty with
    | .i w => do
      insert_env pname (.port ⟨pname, ""⟩)
      let pc ← process_params rest
      Conv.pure ((pname, w) :: pc.1, pc.2)
    | .array (.i w) size => do
      insert_env pname (.port ⟨pname, "read_data"⟩)
      let pc ← process_params rest
      Conv.pure (pc.1, (⟨pname, false, true, .combMemD1 w size 32⟩ : Cell) :: pc.2)
    | .array (.array _ _) _ =>
      Conv.fail (.err "Expected an integer type for array parameter")

/-- The return-type handling of `Converter::convert_fundef` (non-`main` case):
a scalar return allocates the distinguished `_out` output port, an array
return allocates an owned memory cell named `_out`. -/
def process_return : Option Ty → Conv (List (String × Nat) × List Cell)
  | none => Conv.pure ([], [])
  | some (.i w) => do
    insert_type_env "_out" (.i w)
    insert_env "_out" (.port ⟨"_out", "out"⟩)
    Conv.pure ([("_out", w)], [])
  | some (.array (.i w) size) => do
    insert_env "_out" (.port ⟨"_out", "read_data"⟩)
    Conv.pure ([], [(⟨"_out", false, false, .combMemD1 w size 32⟩ : Cell)])
  | some (.array (.array _ _) _) =>
    Conv.fail (.err "Expected an integer type for array return type")

/-- `Converter::convert_fundef`. -/
def convert_fundef (fd : FunDefA) : Conv Unit := do
  insert_fun_type_env fd.name (fd.params, fd.return_type)
  set_current_func fd.name
  if fd.name == "main" && !(fd.params.isEmpty && fd.return_type.isNone) then
    Conv.fail (.err "Main function must have no parameters and no return type")
  else do
    if fd.name == "main" then Conv.pure ()
    else do
      let pc ← process_params fd.params
      let rc ← process_return fd.return_type
      push_component
        { name := fd.name, params := pc.1, result := rc.1, cells := pc.2 ++ rc.2,
          wires := { static_wires := [], groups := [] }, control := [] }
    let out ← match fd.return_type with
      | none => Conv.pure (none : Option String)
      | some (.array _ _) => Conv.pure (none : Option String)
      | some (.i _) => do
        let n ← fresh_name
        Conv.pure (some n)
    let control ← convert_expr fd.body out
    push_control_filtered control
    match fd.return_type with
    | some (.i w) => do
      let o ← match out with
        | some o => Conv.pure o
        | none => Conv.fail (.crash "called Option.unwrap on a None value")
      let result ← find_src_by_var o
      let ocName ← fresh_name
      push_cell ⟨ocName, false, false, .stdReg w⟩
      let g ← new_group
      let g : Group :=
        { g with
          wires := [⟨⟨ocName, "in"⟩, result⟩, ⟨⟨ocName, "write_en"⟩, .int 1 1⟩],
          done := some (.port ⟨ocName, "done"⟩) }
      push_control_direct (.groupName g.name)
      push_group g
      push_static_wire ⟨⟨"_out", ""⟩, .port ⟨ocName, "out"⟩⟩
    | _ => Conv.pure ()

/-- `Converter::convert_external_decl`: only arrays of scalars are allowed;
an external memory cell is pushed onto `main` and the name is bound to its
`read_data` port. -/
def convert_external_decl (d : ExternalDeclS) : Conv Unit :=
  match d.ty with
  | .array (.i w) size => do
    push_main_cell ⟨d.name, true, false, .combMemD1 w size 32⟩
    insert_env d.name (.port ⟨d.name, "read_data"⟩)
    insert_type_env d.name d.ty
  | _ => Conv.fail (.err "Unsupported type in external declaration")

/-- `Converter::convert`: process the top-level items in order. -/
def convert : List ATopLevel → Conv Unit
  | [] => Conv.pure ()
  | .externalDecl d :: rest => do
    convert_external_decl d
    convert rest
  | .funDef fd :: rest => do
    convert_fundef fd
    convert rest

/-- `Converter::init`. -/
def Converter.init : Converter :=
  { program :=
      { import_names := ["primitives/core.futil", "primitives/binary_operators.futil",
                         "primitives/memories/comb.futil"],
        main := Component.new "main" [] [], components := [] },
    fresh_idx := 0, current_func := none, env := [], type_env := [], fun_type_env := [] }

/-- Run the generator on a whole ANF program from the initial converter,
returning the final converter state (the driver's `converter.convert(...)`). -/
def convertProgram (prog : List ATopLevel) : Except CErr Converter :=
  match convert prog Converter.init with
  | .ok (_, c) => .ok c
  | .error e => .error e

/-! ### The ANF normalizer (`a_normalize.rs`) -/

/-- The normalizer's threaded state (`a_normalize.rs` `NormalizeState`). -/
structure NormalizeState where
  temp_counter : Nat
  type_env : List (String × Ty)
  deriving DecidableEq

/-- `NormalizeState::new`. -/
def NormalizeState.new : NormalizeState := ⟨0, []⟩

/-- `NormalizeState::fresh_temp`: `_tmp_N` from the per-function counter. -/
def NormalizeState.fresh_temp (st : NormalizeState) : String × NormalizeState :=
  ("_tmp_" ++ Nat.repr st.temp_counter, { st with temp_counter := st.temp_counter + 1 })

/-- `NormalizeState::insert_type`. -/
def NormalizeState.insert_type (st : NormalizeState) (name : String) (ty : Ty) :
    NormalizeState :=
  { st with type_env := (name, ty) :: st.type_env }

/-- `NormalizeState::get_type`: fails on names absent from the type
environment. -/
def NormalizeState.get_type (st : NormalizeState) (name : String) : Except String Ty :=
  match lookupA st.type_env name with
  | some t => .ok t
  | none => .error ("Variable " ++ name ++ " not found in type environment")

/-- `a_normalize.rs` `infer_anormal_type`.  The `reduce` arm ignores all
operands but the array, exactly as the source's four-field `Reduce` arm
does. -/
def infer_anormal_type (e : ABase) (st : NormalizeState) : Except String Ty :=
  match e with
  | .int _ => .ok (.i 32)
  | .bool _ => .ok (.i 1)
  | .var name => st.get_type name
  | .add l r => do
    let lt ← st.get_type l
    let rt ← st.get_type r
    match lt, rt with
    | .i w1, .i w2 => if w1 = w2 then .ok (.i w1) else .error "Cannot add types"
    | _, _ => .error "Cannot add types"
  | .mul l r => do
    let lt ← st.get_type l
    let rt ← st.get_type r
    match lt, rt with
    | .i w1, .i w2 => if w1 = w2 then .ok (.i w1) else .error "Cannot multiply types"
    | _, _ => .error "Cannot multiply types"
  | .newArray ty size => .ok (.array ty size)
  | .call _ _ => .ok (.i 32)
  | .arraySet a _ _ => do
    let t ← st.get_type a
    match t with
    | .array elem _ => .ok elem
    | _ => .error ("ArraySet: Variable " ++ a ++ " is not an array type")
  | .map arrays _ _ =>
    match arrays with
    | [] => .error "Map: Empty array list"
    | a :: _ => st.get_type a
  | .reduce a _ _ _ _ => do
    let t ← st.get_type a
    match t with
    | .array elem _ => .ok elem
    | _ => .error ("Reduce: Variable " ++ a ++ " is not an array type")

/-- The materialization block repeated at every operand position of
`normalize_base_expr`: a sub-result that is already a variable is used
directly; otherwise a fresh temp is allocated, its type inferred and recorded,
and a binding appended. -/
def bindAtom (res : ABase) (bindings : List ALet) (st : NormalizeState) :
    Except String ((List ALet × String) × NormalizeState) :=
  match res with
  | .var name => .ok ((bindings, name), st)
  | other => do
    let p := st.fresh_temp
    let ty ← infer_anormal_type other p.2
    .ok ((bindings ++ [.bindLet p.1 ty other], p.1), (p.2.insert_type p.1 ty))

mutual

/-- `a_normalize.rs` `normalize_base_expr`.  The `reduce` arm's init-value
operand is absent from the snapshot's four-field `a_normalize.rs`; it is
modelled from the spec's normalization rule (sub-operands are normalized
left-to-right and materialized when not already variables), matching the
handling of every other operand.  No claim is settled by that arm. -/
def normalize_base_expr (e : BaseExpr) (st : NormalizeState) :
    Except String ((List ALet × ABase) × NormalizeState) :=
  match e with
  | .int n => .ok (([], .int n), st)
  | .bool b => .ok (([], .bool b), st)
  | .var name => .ok (([], .var name), st)
  | .add l r => do
    let ((b1, r1), st1) ← normalize_base_expr l st
    let ((b2, r2), st2) ← normalize_base_expr r st1
    let ((b3, li), st3) ← bindAtom r1 (b1 ++ b2) st2
    let ((b4, ri), st4) ← bindAtom r2 b3 st3
    .ok ((b4, .add li ri), st4)
  | .mul l r => do
    let ((b1, r1), st1) ← normalize_base_expr l st
    let ((b2, r2), st2) ← normalize_base_expr r st1
    let ((b3, li), st3) ← bindAtom r1 (b1 ++ b2) st2
    let ((b4, ri), st4) ← bindAtom r2 b3 st3
    .ok ((b4, .mul li ri), st4)
  | .newArray ty size => .ok (([], .newArray ty size), st)
  | .call fname args => do
    let ((b, idents), st1) ← normalize_atom_list args [] st
    .ok ((b, .call fname idents), st1)
  | .arraySet name index value => do
    let ((b1, r1), st1) ← normalize_base_expr index st
    let ((b2, r2), st2) ← normalize_base_expr value st1
    let ((b3, ii), st3) ← bindAtom r1 (b1 ++ b2) st2
    let ((b4, vi), st4) ← bindAtom r2 b3 st3
    .ok ((b4, .arraySet name ii vi), st4)
  | .map arrays params body => do
    let ((b, idents), st1) ← normalize_atom_list arrays [] st
    let (nb, st2) ← normalize_expr_with_state body st1
    .ok ((b, .map idents params nb), st2)
  | .reduce array init p1 p2 body => do
    let ((b1, r1), st1) ← normalize_base_expr array st
    let ((b2, ai), st2) ← bindAtom r1 b1 st1
    let ((b3, r3), st3) ← normalize_base_expr init st2
    let ((b4, ii), st4) ← bindAtom r3 (b2 ++ b3) st3
    let (nb, st5) ← normalize_expr_with_state body st4
    .ok ((b4, .reduce ai ii p1 p2 nb), st5)

/-- The left-to-right operand loop of the `Call` and `Map` arms. -/
def normalize_atom_list (es : List BaseExpr) (bindings : List ALet)
    (st : NormalizeState) :
    Except String ((List ALet × List String) × NormalizeState) :=
  match es with
  | [] => .ok ((bindings, []), st)
  | e :: rest => do
    let ((b2, r), st1) ← normalize_base_expr e st
    let ((b3, ident), st2) ← bindAtom r (bindings ++ b2) st1
    let ((b4, idents), st3) ← normalize_atom_list rest b3 st2
    .ok ((b4, ident :: idents), st3)

/-- `a_normalize.rs` `normalize_let`: a `BindLet` records the declared type
for the bound name; a `NoBindLet` is normalized for effect only. -/
def normalize_let (l : LetB) (st : NormalizeState) :
    Except String (List ALet × NormalizeState) :=
  match l with
  | .bindLet name ty value => do
    let ((b, r), st1) ← normalize_base_expr value st
    .ok (b ++ [.bindLet name ty r], st1.insert_type name ty)
  | .noBindLet value => do
    let ((b, r), st1) ← normalize_base_expr value st
    .ok (b ++ [.noBindLet r], st1)

/-- The binding loop of `a_normalize.rs` `normalize_expr_with_state`. -/
def normalize_lets (ls : List LetB) (st : NormalizeState) :
    Except String (List ALet × NormalizeState) :=
  match ls with
  | [] => .ok ([], st)
  | l :: rest => do
    let (b1, st1) ← normalize_let l st
    let (b2, st2) ← normalize_lets rest st1
    .ok (b1 ++ b2, st2)

/-- `a_normalize.rs` `normalize_expr_with_state`. -/
def normalize_expr_with_state (e : Expr) (st : NormalizeState) :
    Except String (AExpr × NormalizeState) :=
  match e with
  | .mk lets body => do
    let (nb, st1) ← normalize_lets lets st
    let ((fb, fr), st2) ← normalize_base_expr body st1
    .ok (.mk (nb ++ fb) fr, st2)

end

/-- The parameter-type seeding loop of `normalize_fundef`. -/
def seed_params : List (String × Ty) → NormalizeState → NormalizeState
  | [], st => st
  | (n, t) :: rest, st => seed_params rest (st.insert_type n t)

/-- `a_normalize.rs` `normalize_fundef`: a fresh state per function, seeded
with the declared parameter types. -/
def normalize_fundef (fd : FunDefS) : Except String FunDefA := do
  let st := seed_params fd.params NormalizeState.new
  let (nb, _) ← normalize_expr_with_state fd.body st
  .ok ⟨fd.name, fd.params, fd.return_type, nb⟩

/-- `a_normalize.rs` `normalize_top_level`. -/
def normalize_top_level : TopLevelS → Except String ATopLevel
  | .externalDecl d => .ok (.externalDecl d)
  | .funDef fd => do
    let nfd ← normalize_fundef fd
    .ok (.funDef nfd)

/-- `a_normalize.rs` `normalize_program`. -/
def normalize_program : List TopLevelS → Except String (List ATopLevel)
  | [] => .ok []
  | item :: rest => do
    let ni ← normalize_top_level item
    let nrest ← normalize_program rest
    .ok (ni :: nrest)

/-! ### The alpha converter (`alpha.rs`) -/

/-- The renaming environment plus the program-wide counter
(`alpha.rs` `AlphaContext`). -/
structure AlphaContext where
  env : List (String × String)
  counter : Nat

/-- `AlphaContext::fresh_name`: `original ++ "_" ++ counter`, incrementing the
shared counter. -/
def AlphaContext.fresh_name (ctx : AlphaContext) (original : String) :
    String × AlphaContext :=
  (original ++ "_" ++ Nat.repr ctx.counter, { ctx with counter := ctx.counter + 1 })

/-- `AlphaContext::bind`: generate a fresh name for `original` and record the
mapping. -/
def AlphaContext.bindName (ctx : AlphaContext) (original : String) :
    String × AlphaContext :=
  let p := ctx.fresh_name original
  (p.1, { p.2 with env := (original, p.1) :: p.2.env })

/-- `AlphaContext::lookup`: names absent from the environment are returned
unchanged (the silent fallback flagged in the spec). -/
def AlphaContext.lookupName (ctx : AlphaContext) (name : String) : String :=
  match lookupA ctx.env name with
  | some n => n
  | none => name

/-- The parameter-binding loop of `alpha_convert_fundef`. -/
def bind_params : List (String × Ty) → AlphaContext → List (String × Ty) × AlphaContext
  | [], ctx => ([], ctx)
  | (n, t) :: rest, ctx =>
    let (nn, ctx1) := ctx.bindName n
    let (nrest, ctx2) := bind_params rest ctx1
    ((nn, t) :: nrest, ctx2)

/-- The lambda-parameter-binding loop of the `Map` arm of
`alpha_convert_base_expr`. -/
def bind_all : List String → AlphaContext → List String × AlphaContext
  | [], ctx => ([], ctx)
  | p :: rest, ctx =>
    let (np, ctx1) := ctx.bindName p
    let (nrest, ctx2) := bind_all rest ctx1
    (np :: nrest, ctx2)

mutual

/-- `AlphaContext::alpha_convert_base_expr`. -/
def alpha_convert_base_expr (ctx : AlphaContext) (e : BaseExpr) :
    BaseExpr × AlphaContext :=
  match e with
  | .int n => (.int n, ctx)
  | .bool b => (.bool b, ctx)
  | .var name => (.var (ctx.lookupName name), ctx)
  | .add l r =>
    let (nl, ctx1) := alpha_convert_base_expr ctx l
    let (nr, ctx2) := alpha_convert_base_expr ctx1 r
    (.add nl nr, ctx2)
  | .mul l r =>
    let (nl, ctx1) := alpha_convert_base_expr ctx l
    let (nr, ctx2) := alpha_convert_base_expr ctx1 r
    (.mul nl nr, ctx2)
  | .newArray ty size => (.newArray ty size, ctx)
  | .map arrays params body =>
    let (narrays, ctx1) := alpha_convert_list ctx arrays
    let saved := ctx1.env
    let (nparams, ctx2) := bind_all params ctx1
    let (nbody, ctx3) := alpha_convert_expr ctx2 body
    (.map narrays nparams nbody, { ctx3 with env := saved })
  | .reduce array init p1 p2 body =>
    let (na, ctx1) := alpha_convert_base_expr ctx array
    let (ni, ctx2) := alpha_convert_base_expr ctx1 init
    let saved := ctx2.env
    let (np1, ctx3) := ctx2.bindName p1
    let (np2, ctx4) := ctx3.bindName p2
    let (nbody, ctx5) := alpha_convert_expr ctx4 body
    (.reduce na ni np1 np2 nbody, { ctx5 with env := saved })
  | .call name args =>
    let nn := ctx.lookupName name
    let (nargs, ctx1) := alpha_convert_list ctx args
    (.call nn nargs, ctx1)
  | .arraySet name index value =>
    let nn := ctx.lookupName name
    let (ni, ctx1) := alpha_convert_base_expr ctx index
    let (nv, ctx2) := alpha_convert_base_expr ctx1 value
    (.arraySet nn ni nv, ctx2)

/-- The array-operand loop of the `Map` arm. -/
def alpha_convert_list (ctx : AlphaContext) (es : List BaseExpr) :
    List BaseExpr × AlphaContext :=
  match es with
  | [] => ([], ctx)
  | e :: rest =>
    let (ne, ctx1) := alpha_convert_base_expr ctx e
    let (nrest, ctx2) := alpha_convert_list ctx1 rest
    (ne :: nrest, ctx2)

/-- `AlphaContext::alpha_convert_let`: the value is converted before the
name is bound. -/
def alpha_convert_let (ctx : AlphaContext) (l : LetB) : LetB × AlphaContext :=
  match l with
  | .bindLet name ty value =>
    let (nv, ctx1) := alpha_convert_base_expr ctx value
    let (nn, ctx2) := ctx1.bindName name
    (.bindLet nn ty nv, ctx2)
  | .noBindLet value =>
    let (nv, ctx1) := alpha_convert_base_expr ctx value
    (.noBindLet nv, ctx1)

/-- The binding loop of `alpha_convert_expr`. -/
def alpha_convert_lets (ctx : AlphaContext) (ls : List LetB) :
    List LetB × AlphaContext :=
  match ls with
  | [] => ([], ctx)
  | l :: rest =>
    let (nl, ctx1) := alpha_convert_let ctx l
    let (nrest, ctx2) := alpha_convert_lets ctx1 rest
    (nl :: nrest, ctx2)

/-- `AlphaContext::alpha_convert_expr`. -/
def alpha_convert_expr (ctx : AlphaContext) (e : Expr) : Expr × AlphaContext :=
  match e with
  | .mk lets body =>
    let (nlets, ctx1) := alpha_convert_lets ctx lets
    let (nbody, ctx2) := alpha_convert_base_expr ctx1 body
    (.mk nlets nbody, ctx2)

end

/-- `AlphaContext::alpha_convert_fundef`: `main` is never renamed; the
function's own name is bound before the environment snapshot, parameters are
bound inside it, and the mapping for the function is re-inserted after the
restore. -/
def alpha_convert_fundef (ctx : AlphaContext) (fd : FunDefS) :
    FunDefS × AlphaContext :=
  let (new_name, ctx1) :=
    if fd.name = "main" then (fd.name, ctx) else ctx.bindName fd.name
  let saved := ctx1.env
  let (nparams, ctx2) := bind_params fd.params ctx1
  let (nbody, ctx3) := alpha_convert_expr ctx2 fd.body
  let ctx4 : AlphaContext := { ctx3 with env := saved }
  let ctx5 : AlphaContext :=
    if fd.name = "main" then ctx4
    else { ctx4 with env := (fd.name, new_name) :: ctx4.env }
  ({ name := new_name, params := nparams, return_type := fd.return_type,
     body := nbody }, ctx5)

/-- `AlphaContext::alpha_convert_top`: external declarations pass through
unchanged. -/
def alpha_convert_top (ctx : AlphaContext) : TopLevelS → TopLevelS × AlphaContext
  | .externalDecl d => (.externalDecl d, ctx)
  | .funDef fd =>
    let (nfd, ctx1) := alpha_convert_fundef ctx fd
    (.funDef nfd, ctx1)

/-- The external-declaration pre-seeding loop of `alpha_convert_program`:
external names are self-mapped before conversion begins. -/
def seed_externals : List TopLevelS → AlphaContext → AlphaContext
  | [], ctx => ctx
  | .externalDecl d :: rest, ctx =>
    seed_externals rest { ctx with env := (d.name, d.name) :: ctx.env }
  | .funDef _ :: rest, ctx => seed_externals rest ctx

/-- The item loop of `alpha_convert_program`. -/
def alpha_convert_items (ctx : AlphaContext) : List TopLevelS →
    List TopLevelS × AlphaContext
  | [] => ([], ctx)
  | item :: rest =>
    let (ni, ctx1) := alpha_convert_top ctx item
    let (nrest, ctx2) := alpha_convert_items ctx1 rest
    (ni :: nrest, ctx2)

/-- `alpha.rs` `alpha_convert_program`. -/
def alpha_convert_program (p : List TopLevelS) : List TopLevelS :=
  let ctx := seed_externals p ⟨[], 0⟩
  (alpha_convert_items ctx p).1

/-! ### Syntactic name collections used by the claims -/

mutual

/-- The binding-site names of a surface operand expression, in binding order:
`Map` / `Reduce` lambda parameters, plus binders in sub-expressions. -/
def boundB : BaseExpr → List String
  | .int _ => []
  | .bool _ => []
  | .var _ => []
  | .add l r => boundB l ++ boundB r
  | .mul l r => boundB l ++ boundB r
  | .newArray _ _ => []
  | .map arrays params body => boundBList arrays ++ params ++ boundE body
  | .reduce array init p1 p2 body =>
    boundB array ++ boundB init ++ [p1, p2] ++ boundE body
  | .call _ args => boundBList args
  | .arraySet _ index value => boundB index ++ boundB value

/-- Binding-site names of a list of operand expressions. -/
def boundBList : List BaseExpr → List String
  | [] => []
  | e :: rest => boundB e ++ boundBList rest

/-- Binding-site names of a let binding (the bound name comes after the names
bound inside its value, matching the order the alpha converter allocates
fresh names in). -/
def boundLet : LetB → List String
  | .bindLet name _ value => boundB value ++ [name]
  | .noBindLet value => boundB value

/-- Binding-site names of a list of lets. -/
def boundLets : List LetB → List String
  | [] => []
  | l :: rest => boundLet l ++ boundLets rest

/-- Binding-site names of an expression. -/
def boundE : Expr → List String
  | .mk lets body => boundLets lets ++ boundB body

end

/-- Binding-site names of a function definition: its own name, its
parameters, and the binders of its body. -/
def boundFunDef (fd : FunDefS) : List String :=
  fd.name :: fd.params.map Prod.fst ++ boundE fd.body

/-- Binding-site names of a top-level item (external declarations declare
rather than bind, and are not among the claim's binding-site classes). -/
def boundTop : TopLevelS → List String
  | .externalDecl _ => []
  | .funDef fd => boundFunDef fd

/-- All binding-site names of a program. -/
def boundProgram : List TopLevelS → List String
  | [] => []
  | item :: rest => boundTop item ++ boundProgram rest

/-- The number of function definitions named `main` in a program. -/
def mainCount : List TopLevelS → Nat
  | [] => 0
  | .externalDecl _ :: rest => mainCount rest
  | .funDef fd :: rest => (if fd.name = "main" then 1 else 0) + mainCount rest

mutual

/-- The environment keys the generator may write while lowering an ANF
operand expression, besides the requested destination and generator-fresh
`_tmp_N` names: lambda parameters of `Map` / `Reduce` and let-bound names
inside lambda bodies. -/
def envKeysB : ABase → List String
  | .int _ => []
  | .bool _ => []
  | .var _ => []
  | .add _ _ => []
  | .mul _ _ => []
  | .newArray _ _ => []
  | .map _ params body => params ++ envKeysE body
  | .reduce _ _ acm arg body => acm :: arg :: envKeysE body
  | .call _ _ => []
  | .arraySet _ _ _ => []

/-- Environment keys written while lowering a let binding. -/
def envKeysLet : ALet → List String
  | .bindLet name _ value => name :: envKeysB value
  | .noBindLet value => envKeysB value

/-- Environment keys written while lowering a list of lets. -/
def envKeysLets : List ALet → List String
  | [] => []
  | l :: rest => envKeysLet l ++ envKeysLets rest

/-- Environment keys written while lowering an ANF expression. -/
def envKeysE : AExpr → List String
  | .mk lets body => envKeysLets lets ++ envKeysB body

end

/-- Names of the shape `_tmp_N` produced by the generator's fresh-name
counter. -/
def isTmpName (x : String) : Prop := ∃ k : Nat, x = "_tmp_" ++ Nat.repr k

/-- The name `fresh_name` produces at counter value `k`. -/
def tmpName (k : Nat) : String := "_tmp_" ++ Nat.repr k

/-- The name `new_group` produces at counter value `k`. -/
def grpName (k : Nat) : String := "_group_" ++ Nat.repr k

/-- The five ANF arms whose lowering is purely combinational bookkeeping:
literals, variable aliasing, and the statically wired `Add` / `Mul`
preparations. -/
def isScalarPureArm : ABase → Prop
  | .int _ => True
  | .bool _ => True
  | .var _ => True
  | .add _ _ => True
  | .mul _ _ => True
  | _ => False

/-- The environment keys the generator may write while lowering `e` to the
destination `dst`: keys named by the expression itself (lambda parameters,
let binders), the destination, and generator-fresh `_tmp_N` names. -/
def wkeysB (e : ABase) (dst : Option String) (x : String) : Prop :=
  x ∈ envKeysB e ∨ (∃ d, dst = some d ∧ x = d) ∨ isTmpName x

/-- Environment keys writable while lowering a let binding. -/
def wkeysLet (l : ALet) (x : String) : Prop :=
  x ∈ envKeysLet l ∨ isTmpName x

/-- Environment keys writable while lowering a list of lets. -/
def wkeysLets (ls : List ALet) (x : String) : Prop :=
  x ∈ envKeysLets ls ∨ isTmpName x

/-- Environment keys writable while lowering an expression with result
destination `out`. -/
def wkeysE (e : AExpr) (out : Option String) (x : String) : Prop :=
  x ∈ envKeysE e ∨ (∃ d, out = some d ∧ x = d) ∨ isTmpName x

/-- What a successful generator step preserves, outside the keys `ks` it is
allowed to write: the current-function marker, the bindings of all other
environment keys, and (monotonically) the groups and cells already present in
the current component. -/
structure Pres (ks : String → Prop) (c c' : Converter) : Prop where
  cf : c'.current_func = c.current_func
  envp : ∀ x, ¬ ks x → lookupA c'.env x = lookupA c.env x
  comp : ∀ comp, get_current_func c = .ok (comp, c) →
    ∃ comp', get_current_func c' = .ok (comp', c') ∧
      (∀ g, g ∈ comp.wires.groups → g ∈ comp'.wires.groups) ∧
      (∀ cl, cl ∈ comp.cells → cl ∈ comp'.cells)

/-- The control and state shape claimed for a `Reduce` lowered to destination
`d` from converter state `c`: a `Par` initializing the counter register to 0
and the accumulator register from the init source, then a `While` whose body
is the load-element group, the lambda body's control (when non-empty), the
store-into-accumulator group and the increment group, with `d` bound to the
accumulator's `out` port. -/
def ReduceShape (c : Converter) (iv d : String) (ctl : Control) (c₂ : Converter) : Prop :=
  ∃ (bctl : Control) (j : Nat) (comp : Component) (siv : Src),
    lookupA c.env iv = some siv ∧
    ctl = Control.seq
      [Control.par [Control.groupName (grpName (c.fresh_idx + 4)),
                    Control.groupName (grpName (c.fresh_idx + 5))],
       Control.whileC ⟨tmpName (c.fresh_idx + 3), "out"⟩ (some (grpName (c.fresh_idx + 6)))
         (Control.groupName (grpName (c.fresh_idx + 7)) ::
          ((if bctl.isEmptyControl then [] else [bctl]) ++
           [Control.groupName (grpName j), Control.groupName (grpName (j + 1))]))] ∧
    get_current_func c₂ = .ok (comp, c₂) ∧
    (⟨grpName (c.fresh_idx + 4), some (.port ⟨tmpName (c.fresh_idx + 1), "done"⟩),
      [⟨⟨tmpName (c.fresh_idx + 1), "in"⟩, .int 0 32⟩,
       ⟨⟨tmpName (c.fresh_idx + 1), "write_en"⟩, .int 1 1⟩]⟩ : Group) ∈ comp.wires.groups ∧
    (⟨grpName (c.fresh_idx + 5), some (.port ⟨tmpName c.fresh_idx, "done"⟩),
      [⟨⟨tmpName c.fresh_idx, "in"⟩, siv⟩,
       ⟨⟨tmpName c.fresh_idx, "write_en"⟩, .int 1 1⟩]⟩ : Group) ∈ comp.wires.groups ∧
    lookupA c₂.env d = some (.port ⟨tmpName c.fresh_idx, "out"⟩)

/-! ### Decimal-digit machinery for reasoning about `Nat.repr`-based fresh names -/

/-- Recursive specification of the decimal digit list of `n` (most
significant first), matching what `Nat.toDigitsCore` computes. -/
def digitsRec (n : Nat) : List Char :=
  if _h : n / 10 = 0 then [Nat.digitChar (n % 10)]
  else digitsRec (n / 10) ++ [Nat.digitChar (n % 10)]
decreasing_by exact Nat.div_lt_self (Nat.pos_of_ne_zero (by omega)) (by omega)

/-- Numeric value of a decimal digit character. -/
def digitVal (ch : Char) : Nat := ch.toNat - '0'.toNat

/-- Evaluate a decimal digit string back to a number. -/
def undigits (l : List Char) : Nat := l.foldl (fun a ch => a * 10 + digitVal ch) 0

/-- A name of the alpha converter's fresh form `o ++ "_" ++ repr c` with
counter `c` in the interval `[lo, hi)`. -/
def GoodName (lo hi : Nat) (n : String) : Prop :=
  ∃ (o : String) (cnt : Nat), lo ≤ cnt ∧ cnt < hi ∧ n = o ++ "_" ++ Nat.repr cnt

/-- The invariant carried through the alpha-conversion uniqueness proof: the
produced binding-site names are pairwise distinct, contain at most `k`
occurrences of the unrenamed `"main"`, and are otherwise fresh names with
counters in `[lo, hi)`. -/
def BoundOk (lo hi k : Nat) (l : List String) : Prop :=
  l.Nodup ∧ l.count "main" ≤ k ∧ ∀ n ∈ l, n = "main" ∨ GoodName lo hi n

mutual

/-- All `BindLet` binder names occurring in an ANF operand expression. -/
def aBindersB : ABase → List String
  | .map _ _ body => aBindersE body
  | .reduce _ _ _ _ body => aBindersE body
  | _ => []

/-- All `BindLet` binder names of an ANF let. -/
def aBindersLet : ALet → List String
  | .bindLet name _ value => name :: aBindersB value
  | .noBindLet value => aBindersB value

/-- All `BindLet` binder names of a list of ANF lets. -/
def aBindersLets : List ALet → List String
  | [] => []
  | l :: rest => aBindersLet l ++ aBindersLets rest

/-- All `BindLet` binder names of an ANF expression. -/
def aBindersE : AExpr → List String
  | .mk lets body => aBindersLets lets ++ aBindersB body

end

/-- All `BindLet` binder names of an ANF program. -/
def aProgBinders : List ATopLevel → List String
  | [] => []
  | .externalDecl _ :: rest => aProgBinders rest
  | .funDef fd :: rest => aBindersE fd.body ++ aProgBinders rest

/-! ### Concrete inputs used by the claims -/

/-- An empty `main` component. -/
def mainEmpty : Component := Component.new "main" [] []

/-- A converter mid-generation inside `main`, with an array `a` and two scalar
sources bound. -/
def exConvArr : Converter :=
  { program := { import_names := [], main := mainEmpty, components := [] },
    fresh_idx := 0, current_func := some "main",
    env := [("a", .port ⟨"a", "read_data"⟩), ("i", .int 0 32), ("v", .int 5 32)],
    type_env := [], fun_type_env := [] }

/-- A `main` component that already contains an adder cell of width 32. -/
def compWithAdder : Component :=
  { name := "main", params := [], result := [],
    cells := [⟨"a0", false, false, .stdAdd 32⟩],
    wires := { static_wires := [], groups := [] }, control := [] }

/-- A converter mid-generation inside `main`, whose component already holds a
width-32 adder, with two scalar sources bound. -/
def exConvAdd : Converter :=
  { program := { import_names := [], main := compWithAdder, components := [] },
    fresh_idx := 0, current_func := some "main",
    env := [("x", .int 1 32), ("y", .int 2 32)],
    type_env := [], fun_type_env := [] }

/-- The spec's running example: `external out: i32[1]; fn main() =
let x: i32 = 1 in let y: i32 = 2 in out[0] := x + y * 3`. -/
def exProgXY : List TopLevelS :=
  [.externalDecl ⟨"out", .array (.i 32) 1⟩,
   .funDef ⟨"main", [], none,
     .mk [.bindLet "x" (.i 32) (.int 1), .bindLet "y" (.i 32) (.int 2)]
        (.arraySet "out" (.int 0) (.add (.var "x") (.mul (.var "y") (.int 3))))⟩]

/-- An ANF program whose `main` evaluates a `Map` with an empty array list
for effect. -/
def exProgEmptyMap : List ATopLevel :=
  [.funDef ⟨"main", [], none, .mk [] (.map [] [] (.mk [] (.int 0)))⟩]

/-- A normalizer state binding `a` to an array of 8-bit elements. -/
def exStI8 : NormalizeState := ⟨0, [("a", .array (.i 8) 4)]⟩

/-- A normalizer state binding `a` to an array of 32-bit elements. -/
def exStI32 : NormalizeState := ⟨0, [("a", .array (.i 32) 2)]⟩

/-- A `Map` whose lambda body forces materialization of a sub-expression that
refers only to the lambda parameter `x`. -/
def exMapNested : BaseExpr :=
  .map [.var "a"] ["x"] (.mk [] (.add (.var "x") (.add (.var "x") (.var "x"))))

/-- A program with two function definitions named `main`. -/
def exProgTwoMains : List TopLevelS :=
  [.funDef ⟨"main", [], none, .mk [] (.int 0)⟩,
   .funDef ⟨"main", [], none, .mk [] (.int 0)⟩]

/-- A single-`main` program exercising every binding-site class: a helper
function with a parameter and a let, and a `main` whose map and reduce bind
lambda parameters. -/
def exProgOneMain : List TopLevelS :=
  [.externalDecl ⟨"out", .array (.i 32) 4⟩,
   .funDef ⟨"f", [("n", .i 32)], some (.i 32),
     .mk [.bindLet "m" (.i 32) (.mul (.var "n") (.var "n"))] (.var "m")⟩,
   .funDef ⟨"main", [], none,
     .mk [.bindLet "s" (.array (.i 32) 4)
            (.map [.var "out"] ["x"] (.mk [] (.call "f" [.var "x"])))]
        (.reduce (.var "s") (.int 0) "acc" "x" (.mk [] (.add (.var "acc") (.var "x"))))⟩]

/-- An ANF program whose `main` has a parameter (a non-conforming entry-point
signature). -/
def exProgBadMain : List ATopLevel :=
  [.funDef ⟨"main", [("a", .i 32)], none, .mk [] (.int 0)⟩]

/-- A converter prepared for lowering a `Reduce` over `arr` with init source
`z`. -/
def exConvReduce : Converter :=
  { program := { import_names := [], main := mainEmpty, components := [] },
    fresh_idx := 0, current_func := some "main",
    env := [("arr", .port ⟨"arr", "read_data"⟩), ("z", .int 0 32)],
    type_env := [("arr", .array (.i 32) 4)], fun_type_env := [] }

/-- A `Reduce` whose lambda body just returns the accumulator. -/
def exReduce : ABase := .reduce "arr" "z" "acc" "x" (.mk [] (.var "acc"))

/-- The control fragment produced by lowering `exReduce` to `d` from
`exConvReduce` (the lowering is proved to produce exactly this fragment where
it is used). -/
def exReduceCtl : Control :=
  Control.seq
    [Control.par [Control.groupName "_group_4", Control.groupName "_group_5"],
     Control.whileC ⟨"_tmp_3", "out"⟩ (some "_group_6")
       [Control.groupName "_group_7", Control.groupName "_group_9",
        Control.groupName "_group_10"]]

/-- The `main` component after lowering `exReduce` to `d` from
`exConvReduce`. -/
def exRedCompAfter : Component :=
  { name := "main", params := [], result := [],
    cells := [⟨"_add_32", false, false, .stdAdd 32⟩,
              ⟨"_tmp_0", false, false, .stdReg 32⟩,
              ⟨"_tmp_1", false, false, .stdReg 32⟩,
              ⟨"_tmp_2", false, false, .stdReg 32⟩,
              ⟨"_tmp_3", false, false, .stdLt 32⟩],
    wires := { static_wires := [],
               groups := [⟨"_group_4", some (.port ⟨"_tmp_1", "done"⟩),
                            [⟨⟨"_tmp_1", "in"⟩, .int 0 32⟩,
                             ⟨⟨"_tmp_1", "write_en"⟩, .int 1 1⟩]⟩,
                          ⟨"_group_5", some (.port ⟨"_tmp_0", "done"⟩),
                            [⟨⟨"_tmp_0", "in"⟩, .int 0 32⟩,
                             ⟨⟨"_tmp_0", "write_en"⟩, .int 1 1⟩]⟩,
                          ⟨"_group_6", none,
                            [⟨⟨"_tmp_3", "left"⟩, .port ⟨"_tmp_1", "out"⟩⟩,
                             ⟨⟨"_tmp_3", "right"⟩, .int 4 32⟩]⟩,
                          ⟨"_group_7", some (.port ⟨"_tmp_2", "done"⟩),
                            [⟨⟨"arr", "addr0"⟩, .port ⟨"_tmp_1", "out"⟩⟩,
                             ⟨⟨"_tmp_2", "in"⟩, .port ⟨"arr", "read_data"⟩⟩,
                             ⟨⟨"_tmp_2", "write_en"⟩, .int 1 1⟩]⟩,
                          ⟨"_group_9", some (.port ⟨"_tmp_0", "done"⟩),
                            [⟨⟨"_tmp_0", "in"⟩, .port ⟨"_tmp_0", "out"⟩⟩,
                             ⟨⟨"_tmp_0", "write_en"⟩, .int 1 1⟩]⟩,
                          ⟨"_group_10", some (.port ⟨"_tmp_1", "done"⟩),
                            [⟨⟨"_add_32", "left"⟩, .port ⟨"_tmp_1", "out"⟩⟩,
                             ⟨⟨"_add_32", "right"⟩, .int 1 32⟩,
                             ⟨⟨"_tmp_1", "in"⟩, .port ⟨"_add_32", "out"⟩⟩,
                             ⟨⟨"_tmp_1", "write_en"⟩, .int 1 1⟩]⟩] },
    control := [] }

/-- The environment shared by the late intermediate states of the `exReduce`
lowering. -/
def exRedEnvAfter : List (String × Src) :=
  [("_tmp_8", .port ⟨"_tmp_0", "out"⟩),
   ("x", .port ⟨"_tmp_2", "out"⟩),
   ("d", .port ⟨"_tmp_0", "out"⟩),
   ("acc", .port ⟨"_tmp_0", "out"⟩),
   ("arr", .port ⟨"arr", "read_data"⟩),
   ("z", .int 0 32)]

/-- The type environment shared by the late intermediate states of the
`exReduce` lowering. -/
def exRedTypeEnvAfter : List (String × Ty) :=
  [("_tmp_8", .i 32), ("x", .i 32), ("acc", .i 32), ("arr", .array (.i 32) 4)]

/-- The converter state after lowering `exReduce` to `d` from
`exConvReduce`. -/
def exConvReduceAfter : Converter :=
  { program := { import_names := [], main := exRedCompAfter, components := [] },
    fresh_idx := 11, current_func := some "main",
    env := exRedEnvAfter, type_env := exRedTypeEnvAfter, fun_type_env := [] }

/-- The `exReduce` lowering midway: after the shared adder has been ensured
(three steps in). -/
def exRedSt3 : Converter :=
  { program :=
      { import_names := [],
        main := { name := "main", params := [], result := [],
                  cells := [⟨"_add_32", false, false, .stdAdd 32⟩],
                  wires := { static_wires := [], groups := [] }, control := [] },
        components := [] },
    fresh_idx := 0, current_func := some "main",
    env := [("arr", .port ⟨"arr", "read_data"⟩), ("z", .int 0 32)],
    type_env := [("x", .i 32), ("acc", .i 32), ("arr", .array (.i 32) 4)],
    fun_type_env := [] }

/-- The `exReduce` lowering midway: after the lambda parameter has been bound
to its register. -/
def exRedSt9 : Converter :=
  { exRedSt3 with
      fresh_idx := 3,
      env := [("x", .port ⟨"_tmp_2", "out"⟩),
              ("d", .port ⟨"_tmp_0", "out"⟩),
              ("acc", .port ⟨"_tmp_0", "out"⟩),
              ("arr", .port ⟨"arr", "read_data"⟩),
              ("z", .int 0 32)] }

/-- The `main` component of the `exReduce` lowering once the three pre-body
groups have been pushed. -/
def exRedComp16 : Component :=
  { name := "main", params := [], result := [],
    cells := [⟨"_add_32", false, false, .stdAdd 32⟩],
    wires := { static_wires := [],
               groups := [⟨"_group_4", some (.port ⟨"_tmp_1", "done"⟩),
                            [⟨⟨"_tmp_1", "in"⟩, .int 0 32⟩,
                             ⟨⟨"_tmp_1", "write_en"⟩, .int 1 1⟩]⟩,
                          ⟨"_group_5", some (.port ⟨"_tmp_0", "done"⟩),
                            [⟨⟨"_tmp_0", "in"⟩, .int 0 32⟩,
                             ⟨⟨"_tmp_0", "write_en"⟩, .int 1 1⟩]⟩,
                          ⟨"_group_6", none,
                            [⟨⟨"_tmp_3", "left"⟩, .port ⟨"_tmp_1", "out"⟩⟩,
                             ⟨⟨"_tmp_3", "right"⟩, .int 4 32⟩]⟩] },
    control := [] }

/-- The `exReduce` lowering midway: after the condition group has been
pushed. -/
def exRedSt16 : Converter :=
  { exRedSt9 with
      program := { import_names := [], main := exRedComp16, components := [] },
      fresh_idx := 7 }

/-- The `exReduce` lowering midway: after the lambda body has been
converted. -/
def exRedSt20 : Converter :=
  { exRedSt16 with
      fresh_idx := 9,
      env := ("_tmp_8", .port ⟨"_tmp_0", "out"⟩) :: exRedSt9.env,
      type_env := ("_tmp_8", .i 32) :: exRedSt9.type_env }

/-- The `exReduce` lowering midway: after the while-body groups have been
pushed. -/
def exRedSt25 : Converter :=
  { exRedSt20 with
      program :=
        { import_names := [],
          main := { exRedComp16 with
            wires := { static_wires := [],
                       groups := exRedComp16.wires.groups ++
                         [⟨"_group_7", some (.port ⟨"_tmp_2", "done"⟩),
                            [⟨⟨"arr", "addr0"⟩, .port ⟨"_tmp_1", "out"⟩⟩,
                             ⟨⟨"_tmp_2", "in"⟩, .port ⟨"arr", "read_data"⟩⟩,
                             ⟨⟨"_tmp_2", "write_en"⟩, .int 1 1⟩]⟩,
                          ⟨"_group_9", some (.port ⟨"_tmp_0", "done"⟩),
                            [⟨⟨"_tmp_0", "in"⟩, .port ⟨"_tmp_0", "out"⟩⟩,
                             ⟨⟨"_tmp_0", "write_en"⟩, .int 1 1⟩]⟩,
                          ⟨"_group_10", some (.port ⟨"_tmp_1", "done"⟩),
                            [⟨⟨"_add_32", "left"⟩, .port ⟨"_tmp_1", "out"⟩⟩,
                             ⟨⟨"_add_32", "right"⟩, .int 1 32⟩,
                             ⟨⟨"_tmp_1", "in"⟩, .port ⟨"_add_32", "out"⟩⟩,
                             ⟨⟨"_tmp_1", "write_en"⟩, .int 1 1⟩]⟩] } },
          components := [] },
      fresh_idx := 11 }

/-- The ANF form of `exProgXY` after alpha conversion and normalization
(the pipeline is proved to produce exactly this program where it is used). -/
def exAnfXY : List ATopLevel :=
  [.externalDecl ⟨"out", .array (.i 32) 1⟩,
   .funDef ⟨"main", [], none,
     .mk [.bindLet "x_0" (.i 32) (.int 1),
          .bindLet "y_1" (.i 32) (.int 2),
          .bindLet "_tmp_0" (.i 32) (.int 3),
          .bindLet "_tmp_1" (.i 32) (.mul "y_1" "_tmp_0"),
          .bindLet "_tmp_2" (.i 32) (.int 0),
          .bindLet "_tmp_3" (.i 32) (.add "x_0" "_tmp_1")]
        (.arraySet "out" "_tmp_2" "_tmp_3")⟩]

/-- A minimal program whose normalizer output binds a temporary `_tmp_0` while
the generator also coins a cell named `_tmp_0`. -/
def exProgC6 : List TopLevelS :=
  [.externalDecl ⟨"out", .array (.i 32) 1⟩,
   .funDef ⟨"main", [], none,
     .mk [.bindLet "s" (.i 32) (.add (.int 1) (.int 2))]
        (.arraySet "out" (.int 0) (.var "s"))⟩]

/-- The `main` function of the ANF form of `exProgC6`. -/
def c6Main : FunDefA :=
  ⟨"main", [], none,
     .mk [.bindLet "_tmp_0" (.i 32) (.int 1),
          .bindLet "_tmp_1" (.i 32) (.int 2),
          .bindLet "s_0" (.i 32) (.add "_tmp_0" "_tmp_1"),
          .bindLet "_tmp_2" (.i 32) (.int 0)]
        (.arraySet "out" "_tmp_2" "s_0")⟩

/-- The ANF form of `exProgC6` after alpha conversion and normalization
(the pipeline is proved to produce exactly this program where it is used). -/
def exAnfC6 : List ATopLevel :=
  [.externalDecl ⟨"out", .array (.i 32) 1⟩, .funDef c6Main]

/-- The converter state of the `exAnfC6` run after its external declaration. -/
def c6StExt : Converter :=
  { program :=
      { import_names := ["primitives/core.futil", "primitives/binary_operators.futil",
                         "primitives/memories/comb.futil"],
        main := { name := "main", params := [], result := [],
                  cells := [⟨"out", true, false, .combMemD1 32 1 32⟩],
                  wires := { static_wires := [], groups := [] }, control := [] },
        components := [] },
    fresh_idx := 0, current_func := none,
    env := [("out", .port ⟨"out", "read_data"⟩)],
    type_env := [("out", .array (.i 32) 1)], fun_type_env := [] }

/-- The converter state of the `exAnfC6` run on entering the body of
`main`. -/
def c6StPre : Converter :=
  { c6StExt with fun_type_env := [("main", ([], none))], current_func := some "main" }

/-- The converter state of the `exAnfC6` run after `let _tmp_0 = 1`. -/
def c6St1 : Converter :=
  { c6StPre with env := ("_tmp_0", .int 1 32) :: c6StPre.env,
                 type_env := ("_tmp_0", .i 32) :: c6StPre.type_env }

/-- The converter state of the `exAnfC6` run after `let _tmp_1 = 2`. -/
def c6St2 : Converter :=
  { c6St1 with env := ("_tmp_1", .int 2 32) :: c6St1.env,
               type_env := ("_tmp_1", .i 32) :: c6St1.type_env }

/-- The `main` component of the `exAnfC6` run once the adder for `s_0` has
been created: the freshly named cell `_tmp_0` collides with the normalizer
temporary `_tmp_0`. -/
def c6CompAdd : Component :=
  { name := "main", params := [], result := [],
    cells := [⟨"out", true, false, .combMemD1 32 1 32⟩,
              ⟨"_tmp_0", false, false, .stdAdd 32⟩],
    wires := { static_wires := [⟨⟨"_tmp_0", "left"⟩, .int 1 32⟩,
                                ⟨⟨"_tmp_0", "right"⟩, .int 2 32⟩],
               groups := [] },
    control := [] }

/-- The converter state of the `exAnfC6` run after `let s_0 = _tmp_0 + _tmp_1`. -/
def c6St3 : Converter :=
  { c6St2 with program := { c6St2.program with main := c6CompAdd },
               fresh_idx := 1,
               env := ("s_0", .port ⟨"_tmp_0", "out"⟩) :: c6St2.env,
               type_env := ("s_0", .i 32) :: c6St2.type_env }

/-- The converter state of the `exAnfC6` run after `let _tmp_2 = 0`. -/
def c6St4 : Converter :=
  { c6St3 with env := ("_tmp_2", .int 0 32) :: c6St3.env,
               type_env := ("_tmp_2", .i 32) :: c6St3.type_env }

/-- The store group emitted for the final `out[_tmp_2] := s_0` of
`exAnfC6`. -/
def c6Grp : Group :=
  { name := "_group_1",
    done := some (.port ⟨"out", "done"⟩),
    wires := [⟨⟨"out", "addr0"⟩, .int 0 32⟩,
              ⟨⟨"out", "write_data"⟩, .port ⟨"_tmp_0", "out"⟩⟩,
              ⟨⟨"out", "write_en"⟩, .int 1 1⟩] }

/-- The `main` component of the `exAnfC6` run after the array store group. -/
def c6CompGrp : Component :=
  { c6CompAdd with wires := { c6CompAdd.wires with groups := [c6Grp] } }

/-- The converter state of the `exAnfC6` run after lowering the final array
store. -/
def c6StAS : Converter :=
  { c6St4 with program := { c6St4.program with main := c6CompGrp }, fresh_idx := 2 }

/-- The final converter state of the `exAnfC6` run. -/
def c6StFinal : Converter :=
  { c6StAS with program := { c6StAS.program with main :=
      { c6CompGrp with control := [Control.seq [.groupName "_group_1"]] } } }

/-- The converter state after lowering `x + y` to `d` from `exConvAdd`. -/
def exConvAddAfter : Converter :=
  match convert_base_expr (.add "x" "y") (some "d") exConvAdd with
  | .ok (_, c) => c
  | .error _ => exConvAdd

/-- The converter state after lowering `x * y` to `d` from `exConvAdd`. -/
def exConvMulAfter : Converter :=
  match convert_base_expr (.mul "x" "y") (some "d") exConvAdd with
  | .ok (_, c) => c
  | .error _ => exConvAdd

/-- The converter state after lowering the literal `7` to `d` from
`exConvAdd`. -/
def exConvIntAfter : Converter :=
  match convert_base_expr (.int 7) (some "d") exConvAdd with
  | .ok (_, c) => c
  | .error _ => exConvAdd

/-- The converter obtained by overwriting the component the current-function
borrow refers to (no-op when there is no current function). -/
def replaceCurrent (c : Converter) (newComp : Component) : Converter :=
  match c.current_func with
  | none => c
  | some fname =>
    if fname = "main" then { c with program := { c.program with main := newComp } }
    else
      match updateFirst (fun comp => comp.name == fname) (fun _ => newComp)
          c.program.components with
      | some comps => { c with program := { c.program with components := comps } }
      | none => c

/-- A lambda body that rebinds the generator-temporary name `_tmp_0` before
returning the accumulator: `{ let _tmp_0: i32 = 1; acc }`.  Such bodies are
reachable, since the normalizer itself mints `_tmp_N` names. -/
def exReduceClashBody : AExpr := .mk [.bindLet "_tmp_0" (.i 32) (.int 1)] (.var "acc")

/-- A `Reduce` whose lambda body rebinds `_tmp_0`; lowered to destination
`_tmp_0` (the name a materialized reduce receives from `fresh_name` at
counter 0), the body's binding shadows the destination's. -/
def exReduceClash : ABase := .reduce "arr" "z" "acc" "x" exReduceClashBody

/-- The clashing `Reduce` lowering midway: after the lambda parameter has
been bound to its register.  At this point the destination `_tmp_0` is still
bound to the accumulator's `out` port. -/
def exClashSt9 : Converter :=
  { exRedSt3 with
      fresh_idx := 3,
      env := [("x", .port ⟨"_tmp_2", "out"⟩),
              ("_tmp_0", .port ⟨"_tmp_0", "out"⟩),
              ("acc", .port ⟨"_tmp_0", "out"⟩),
              ("arr", .port ⟨"arr", "read_data"⟩),
              ("z", .int 0 32)] }

/-- The clashing `Reduce` lowering midway: after the condition group has been
pushed. -/
def exClashSt16 : Converter :=
  { exClashSt9 with
      program := { import_names := [], main := exRedComp16, components := [] },
      fresh_idx := 7 }

/-- The clashing `Reduce` lowering midway: after the lambda body has been
converted — its `let _tmp_0` has shadowed the destination binding. -/
def exClashSt20 : Converter :=
  { exClashSt16 with
      fresh_idx := 9,
      env := ("_tmp_8", .port ⟨"_tmp_0", "out"⟩) ::
             ("_tmp_0", .int 1 32) :: exClashSt9.env,
      type_env := ("_tmp_0", .i 32) :: ("_tmp_8", .i 32) :: exClashSt9.type_env }

/-- The clashing `Reduce` lowering midway: after the while-body groups have
been pushed (the structural output coincides with the `exReduce` lowering's,
so the component is the one of `exRedSt25`). -/
def exClashSt25 : Converter :=
  { exClashSt20 with program := exRedSt25.program, fresh_idx := 11 }

/-- The converter state after lowering `exReduceClash` to `_tmp_0` from
`exConvReduce`: the cells, groups and control equal the `exReduce` lowering's,
but the most recent binding of `_tmp_0` is the immediate `1` — the lambda
body's value — not the accumulator register's `out` port. -/
def exConvReduceClash : Converter :=
  { program := { import_names := [], main := exRedCompAfter, components := [] },
    fresh_idx := 11, current_func := some "main",
    env := [("_tmp_8", .port ⟨"_tmp_0", "out"⟩),
            ("_tmp_0", .int 1 32),
            ("x", .port ⟨"_tmp_2", "out"⟩),
            ("_tmp_0", .port ⟨"_tmp_0", "out"⟩),
            ("acc", .port ⟨"_tmp_0", "out"⟩),
            ("arr", .port ⟨"arr", "read_data"⟩),
            ("z", .int 0 32)],
    type_env := [("_tmp_0", .i 32), ("_tmp_8", .i 32), ("x", .i 32),
                 ("acc", .i 32), ("arr", .array (.i 32) 4)],
    fun_type_env := [] }

end HLS
namespace HLS

theorem bind_eq {α β : Type} : (Bind.bind : Conv α → (α → Conv β) → Conv β) = Conv.bind := rfl

theorem pure_eq {α : Type} : (Pure.pure : α → Conv α) = Conv.pure := rfl

theorem Conv.bind_ok {α β : Type} {m : Conv α} {f : α → Conv β} {c : Converter} {b : β}
    {c₂ : Converter} :
    Conv.bind m f c = .ok (b, c₂) ↔ ∃ a c₁, m c = .ok (a, c₁) ∧ f a c₁ = .ok (b, c₂) := by
  unfold Conv.bind
  cases h : m c with
  | ok p => cases p with
    | mk a c1 =>
      constructor
      · intro hf
        exact ⟨a, c1, rfl, hf⟩
      · rintro ⟨a', c1', ha, hf⟩
        cases ha
        exact hf
  | error e =>
    constructor
    · intro hf
      cases hf
    · rintro ⟨a', c1', ha, _⟩
      cases ha

theorem Conv.pure_ok {α : Type} {a b : α} {c c₂ : Converter} :
    Conv.pure a c = .ok (b, c₂) ↔ b = a ∧ c₂ = c := by
  unfold Conv.pure
  constructor
  · intro h
    injection h with h
    injection h with h1 h2
    exact ⟨h1.symm, h2.symm⟩
  · rintro ⟨rfl, rfl⟩
    rfl

/-- Stepping a successful first action through `Conv.bind`. -/
theorem Conv.bind_step {α β : Type} {m : Conv α} {f : α → Conv β} {c c1 : Converter}
    {a : α} (h : m c = .ok (a, c1)) : Conv.bind m f c = f a c1 := by
  unfold Conv.bind
  rw [h]

/-- One `cons` step of the let-folding loop, from successful runs of the head
binding and of the remaining bindings. -/
theorem convert_lets_cons {l : ALet} {ls : List ALet} {c c1 c2 : Converter} {ctl : Control}
    {rest : List Control} (h1 : convert_let l c = .ok (ctl, c1))
    (h2 : convert_lets ls c1 = .ok (rest, c2)) :
    convert_lets (l :: ls) c =
      .ok (if ctl.isEmptyControl then rest else ctl :: rest, c2) := by
  simp only [convert_lets, bind_eq]
  exact Conv.bind_ok.mpr ⟨ctl, c1, h1, Conv.bind_ok.mpr ⟨rest, c2, h2, rfl⟩⟩

/-- `convert_expr` from successful runs of its let loop and of its final base
expression. -/
theorem convert_expr_mk {lets : List ALet} {body : ABase} {out : Option String}
    {c c1 c2 : Converter} {seq1 : List Control} {ctl : Control}
    (h1 : convert_lets lets c = .ok (seq1, c1))
    (h2 : convert_base_expr body out c1 = .ok (ctl, c2)) :
    convert_expr (.mk lets body) out c =
      .ok (Control.seq (if ctl.isEmptyControl then seq1 else seq1 ++ [ctl]), c2) := by
  simp only [convert_expr, bind_eq]
  exact Conv.bind_ok.mpr ⟨seq1, c1, h1, Conv.bind_ok.mpr ⟨ctl, c2, h2, rfl⟩⟩

/-- `convert_fundef` on a conforming `main` definition: the signature check
passes, no component is pushed, and the body is converted with no output
destination from the state extended with the `main` signature. -/
theorem convert_fundef_main {body : AExpr} {c c1 c2 : Converter} {ctl : Control}
    (h1 : convert_expr body none
        { c with fun_type_env := ("main", ([], none)) :: c.fun_type_env,
                 current_func := some "main" } = .ok (ctl, c1))
    (h2 : push_control_filtered ctl c1 = .ok ((), c2)) :
    convert_fundef ⟨"main", [], none, body⟩ c = .ok ((), c2) := by
  simp only [convert_fundef, bind_eq]
  refine Conv.bind_ok.mpr ⟨(), _, rfl, ?_⟩
  refine Conv.bind_ok.mpr ⟨(), _, rfl, ?_⟩
  rw [if_neg (by decide), if_pos (by decide)]
  refine Conv.bind_ok.mpr ⟨(), _, rfl, ?_⟩
  refine Conv.bind_ok.mpr ⟨none, _, rfl, ?_⟩
  refine Conv.bind_ok.mpr ⟨ctl, c1, h1, ?_⟩
  exact Conv.bind_ok.mpr ⟨(), c2, h2, rfl⟩

/-- One external-declaration step of the top-level loop. -/
theorem convert_ext_cons {d : ExternalDeclS} {rest : List ATopLevel} {c c1 c2 : Converter}
    (h1 : convert_external_decl d c = .ok ((), c1)) (h2 : convert rest c1 = .ok ((), c2)) :
    convert (.externalDecl d :: rest) c = .ok ((), c2) := by
  simp only [convert, bind_eq]
  exact Conv.bind_ok.mpr ⟨(), c1, h1, h2⟩

/-- One function-definition step of the top-level loop. -/
theorem convert_fd_cons {fd : FunDefA} {rest : List ATopLevel} {c c1 c2 : Converter}
    (h1 : convert_fundef fd c = .ok ((), c1)) (h2 : convert rest c1 = .ok ((), c2)) :
    convert (.funDef fd :: rest) c = .ok ((), c2) := by
  simp only [convert, bind_eq]
  exact Conv.bind_ok.mpr ⟨(), c1, h1, h2⟩


theorem lookupA_cons {α : Type} (k : String) (v : α) (l : List (String × α)) (x : String) :
    lookupA ((k, v) :: l) x = if k = x then some v else lookupA l x := rfl

theorem updateFirst_eq_none {α : Type} (p : α → Bool) (f : α → α) :
    ∀ l : List α, updateFirst p f l = none ↔ l.find? p = none := by
  intro l
  induction l with
  | nil => simp [updateFirst]
  | cons x xs ih =>
    by_cases hx : p x
    · simp [updateFirst, List.find?_cons_of_pos _ hx, hx]
    · simp [updateFirst, List.find?_cons_of_neg _ hx, hx, Option.map_eq_none', ih]

theorem find?_some_split {α : Type} (p : α → Bool) :
    ∀ (l : List α) (x : α), l.find? p = some x →
      ∃ l1 l2, l = l1 ++ x :: l2 ∧ (∀ y ∈ l1, p y = false) ∧ p x = true ∧
        ∀ f : α → α, updateFirst p f l = some (l1 ++ f x :: l2) := by
  intro l
  induction l with
  | nil => intro x h; cases h
  | cons z zs ih =>
    intro x h
    by_cases hz : p z
    · rw [List.find?_cons_of_pos _ hz] at h
      injection h with h
      subst h
      exact ⟨[], zs, rfl, by simp, hz, fun f => by simp [updateFirst, hz]⟩
    · rw [List.find?_cons_of_neg _ hz] at h
      obtain ⟨l1, l2, hsplit, hall, hx, hupd⟩ := ih x h
      refine ⟨z :: l1, l2, by simp [hsplit], ?_, hx, fun f => ?_⟩
      · intro y hy
        rcases List.mem_cons.1 hy with rfl | hy
        · simpa using hz
        · exact hall y hy
      · simp [updateFirst, hz, hupd f]

theorem find?_on_replaced {α : Type} (p : α → Bool) (l1 l2 : List α) (z : α)
    (h1 : ∀ y ∈ l1, p y = false) (h2 : p z = true) :
    (l1 ++ z :: l2).find? p = some z := by
  induction l1 with
  | nil => simp [List.find?_cons_of_pos _ h2]
  | cons w ws ih =>
    have hw : ¬ (p w = true) := by simp [h1 w (by simp)]
    rw [List.cons_append, List.find?_cons_of_neg _ hw]
    exact ih (fun y hy => h1 y (by simp [hy]))

theorem replaceCurrent_state (c : Converter) (comp : Component) :
    (replaceCurrent c comp).env = c.env ∧
    (replaceCurrent c comp).type_env = c.type_env ∧
    (replaceCurrent c comp).fun_type_env = c.fun_type_env ∧
    (replaceCurrent c comp).fresh_idx = c.fresh_idx ∧
    (replaceCurrent c comp).current_func = c.current_func := by
  unfold replaceCurrent
  split
  · exact ⟨rfl, rfl, rfl, rfl, rfl⟩
  · split
    · exact ⟨rfl, rfl, rfl, rfl, rfl⟩
    · split
      · exact ⟨rfl, rfl, rfl, rfl, rfl⟩
      · exact ⟨rfl, rfl, rfl, rfl, rfl⟩

theorem modify_ok_elim {f : Component → Component} {c : Converter} {u : Unit} {c' : Converter}
    (h : modify_current_func f c = .ok (u, c')) :
    ∃ comp, get_current_func c = .ok (comp, c) ∧ c' = replaceCurrent c (f comp) ∧
      ((f comp).name = comp.name → get_current_func c' = .ok (f comp, c')) := by
  cases hc : c.current_func with
  | none =>
    unfold modify_current_func at h
    rw [hc] at h
    cases h
  | some fname =>
    unfold modify_current_func at h
    rw [hc] at h
    dsimp only at h
    by_cases hm : fname = "main"
    · rw [if_pos hm] at h
      injection h with h
      injection h with _ h2
      refine ⟨c.program.main, ?_, ?_, ?_⟩
      · unfold get_current_func
        rw [hc]
        dsimp only
        rw [if_pos hm]
      · rw [← h2]
        unfold replaceCurrent
        rw [hc]
        dsimp only
        rw [if_pos hm]
      · intro _
        unfold get_current_func
        rw [← h2]
        dsimp only [hc]
        rw [if_pos hm]
    · rw [if_neg hm] at h
      cases hu : updateFirst (fun comp => comp.name == fname) f c.program.components with
      | none => rw [hu] at h; cases h
      | some comps =>
        rw [hu] at h
        injection h with h
        injection h with _ h2
        cases hfind : c.program.components.find? (fun comp => comp.name == fname) with
        | none =>
          rw [(updateFirst_eq_none _ _ _).2 hfind] at hu
          cases hu
        | some comp =>
          obtain ⟨l1, l2, hsplit, hall, hx, hupd⟩ := find?_some_split _ _ _ hfind
          rw [hupd f] at hu
          injection hu with hu
          have hrepl : replaceCurrent c (f comp) =
              { c with program := { c.program with components := l1 ++ f comp :: l2 } } := by
            unfold replaceCurrent
            rw [hc]
            dsimp only
            rw [if_neg hm, hupd (fun _ => f comp)]
          refine ⟨comp, ?_, ?_, ?_⟩
          · unfold get_current_func
            rw [hc]
            dsimp only
            rw [if_neg hm, hfind]
          · rw [← h2, ← hu, hrepl, hc]
          · intro hn
            have hpf : ((f comp).name == fname) = true := by
              rw [hn]
              exact hx
            rw [← h2, ← hu]
            unfold get_current_func
            dsimp only
            rw [if_neg hm, find?_on_replaced _ l1 l2 (f comp) hall hpf]

end HLS

namespace HLS

theorem get_state_eq {c : Converter} {comp : Component} {c₁ : Converter}
    (h : get_current_func c = .ok (comp, c₁)) : c₁ = c := by
  unfold get_current_func at h
  cases hcf : c.current_func with
  | none => rw [hcf] at h; cases h
  | some fname =>
    rw [hcf] at h
    dsimp only at h
    by_cases hm : fname = "main"
    · rw [if_pos hm] at h
      injection h with h
      injection h with _ h2
      exact h2.symm
    · rw [if_neg hm] at h
      cases hfind : c.program.components.find? (fun comp => comp.name == fname) with
      | none => rw [hfind] at h; cases h
      | some comp0 =>
        rw [hfind] at h
        injection h with h
        injection h with _ h2
        exact h2.symm

theorem get_current_congr {c c' : Converter} {comp : Component}
    (hc : get_current_func c = .ok (comp, c))
    (h1 : c'.program = c.program) (h2 : c'.current_func = c.current_func) :
    get_current_func c' = .ok (comp, c') := by
  unfold get_current_func at hc ⊢
  rw [h1, h2]
  cases hcf : c.current_func with
  | none => rw [hcf] at hc; cases hc
  | some fname =>
    rw [hcf] at hc
    dsimp only at hc ⊢
    by_cases hm : fname = "main"
    · rw [if_pos hm] at hc ⊢
      injection hc with hc
      injection hc with hc1 _
      rw [hc1]
    · rw [if_neg hm] at hc ⊢
      cases hfind : c.program.components.find? (fun comp => comp.name == fname) with
      | none =>
        rw [hfind] at hc
        cases hc
      | some comp0 =>
        rw [hfind] at hc
        dsimp only at hc
        injection hc with hc
        injection hc with hc1 _
        rw [hc1]

theorem Pres.same {ks : String → Prop} {c : Converter} : Pres ks c c :=
  ⟨rfl, fun _ _ => rfl, fun comp h => ⟨comp, h, fun _ hg => hg, fun _ hcl => hcl⟩⟩

theorem Pres.trans {ks : String → Prop} {c c₁ c₂ : Converter}
    (h1 : Pres ks c c₁) (h2 : Pres ks c₁ c₂) : Pres ks c c₂ := by
  refine ⟨h2.cf.trans h1.cf, fun x hx => (h2.envp x hx).trans (h1.envp x hx),
    fun comp hc => ?_⟩
  obtain ⟨comp', hg', hgm, hcm⟩ := h1.comp comp hc
  obtain ⟨comp'', hg'', hgm', hcm'⟩ := h2.comp comp' hg'
  exact ⟨comp'', hg'', fun g hg => hgm' g (hgm g hg), fun cl hcl => hcm' cl (hcm cl hcl)⟩

theorem Pres.mono {ks ks' : String → Prop} {c c' : Converter}
    (hsub : ∀ x, ks x → ks' x) (h : Pres ks c c') : Pres ks' c c' :=
  ⟨h.cf, fun x hx => h.envp x (fun hk => hx (hsub x hk)), h.comp⟩

theorem Pres.of_eq {ks : String → Prop} {c c' : Converter} (h : c' = c) : Pres ks c c' :=
  h ▸ Pres.same

theorem pres_same_program {ks : String → Prop} {c c' : Converter}
    (h1 : c'.program = c.program) (h2 : c'.current_func = c.current_func)
    (h3 : ∀ x, ¬ ks x → lookupA c'.env x = lookupA c.env x) : Pres ks c c' :=
  ⟨h2, h3, fun comp hc => ⟨comp, get_current_congr hc h1 h2, fun _ hg => hg, fun _ hcl => hcl⟩⟩

theorem fresh_name_eq (c : Converter) :
    fresh_name c = .ok (tmpName c.fresh_idx, { c with fresh_idx := c.fresh_idx + 1 }) := rfl

theorem new_group_eq (c : Converter) :
    new_group c = .ok (⟨grpName c.fresh_idx, none, []⟩,
      { c with fresh_idx := c.fresh_idx + 1 }) := rfl

theorem insert_env_eq (k : String) (v : Src) (c : Converter) :
    insert_env k v c = .ok ((), { c with env := (k, v) :: c.env }) := rfl

theorem insert_type_env_eq (k : String) (ty : Ty) (c : Converter) :
    insert_type_env k ty c = .ok ((), { c with type_env := (k, ty) :: c.type_env }) := rfl

theorem pres_fresh {ks : String → Prop} (c : Converter) :
    Pres ks c { c with fresh_idx := c.fresh_idx + 1 } :=
  pres_same_program rfl rfl (fun _ _ => rfl)

theorem pres_insert_env {ks : String → Prop} (c : Converter) {k : String} (v : Src)
    (hk : ks k) : Pres ks c { c with env := (k, v) :: c.env } := by
  refine pres_same_program rfl rfl (fun x hx => ?_)
  rw [lookupA_cons, if_neg]
  intro hkx
  exact hx (by rw [← hkx]; exact hk)

theorem pres_insert_type_env {ks : String → Prop} (c : Converter) (k : String) (ty : Ty) :
    Pres ks c { c with type_env := (k, ty) :: c.type_env } :=
  pres_same_program rfl rfl (fun _ _ => rfl)

theorem find_src_ok {v : String} {c : Converter} {s : Src} {c' : Converter}
    (h : find_src_by_var v c = .ok (s, c')) :
    lookupA c.env v = some s ∧ c' = c := by
  unfold find_src_by_var at h
  cases hl : lookupA c.env v with
  | none => rw [hl] at h; cases h
  | some s0 =>
    rw [hl] at h
    injection h with h
    injection h with h1 h2
    exact ⟨by rw [h1], h2.symm⟩

theorem read_type_env_eq (k : String) (c : Converter) :
    read_type_env k c = .ok (lookupA c.type_env k, c) := rfl

theorem read_fun_type_env_eq (k : String) (c : Converter) :
    read_fun_type_env k c = .ok (lookupA c.fun_type_env k, c) := rfl

theorem match_result_var_ok {rv : String} {c : Converter} {s : Src} {c' : Converter}
    (h : match_result_var rv c = .ok (s, c')) :
    lookupA c.env rv = some s ∧ c' = c := by
  unfold match_result_var at h
  cases hl : lookupA c.env rv with
  | none => rw [hl] at h; cases h
  | some s0 =>
    rw [hl] at h
    injection h with h
    injection h with h1 h2
    exact ⟨by rw [h1], h2.symm⟩

/-- Elimination for a successful `push_group`. -/
theorem push_group_ok {g : Group} {c : Converter} {u : Unit} {c' : Converter}
    (h : push_group g c = .ok (u, c')) :
    ∃ comp, get_current_func c = .ok (comp, c) ∧
      c' = replaceCurrent c
        { comp with wires := { comp.wires with groups := comp.wires.groups ++ [g] } } ∧
      get_current_func c' = .ok
        ({ comp with wires := { comp.wires with groups := comp.wires.groups ++ [g] } }, c') := by
  obtain ⟨comp, hc, hrepl, hget⟩ := modify_ok_elim h
  exact ⟨comp, hc, hrepl, hget rfl⟩

/-- Elimination for a successful `push_cell`. -/
theorem push_cell_ok {cl : Cell} {c : Converter} {u : Unit} {c' : Converter}
    (h : push_cell cl c = .ok (u, c')) :
    ∃ comp, get_current_func c = .ok (comp, c) ∧
      c' = replaceCurrent c { comp with cells := comp.cells ++ [cl] } ∧
      get_current_func c' = .ok ({ comp with cells := comp.cells ++ [cl] }, c') := by
  obtain ⟨comp, hc, hrepl, hget⟩ := modify_ok_elim h
  exact ⟨comp, hc, hrepl, hget rfl⟩

/-- Elimination for a successful `push_static_wire`. -/
theorem push_static_wire_ok {w : Wire} {c : Converter} {u : Unit} {c' : Converter}
    (h : push_static_wire w c = .ok (u, c')) :
    ∃ comp, get_current_func c = .ok (comp, c) ∧
      c' = replaceCurrent c
        { comp with wires := { comp.wires with static_wires := comp.wires.static_wires ++ [w] } } ∧
      get_current_func c' = .ok
        ({ comp with wires :=
            { comp.wires with static_wires := comp.wires.static_wires ++ [w] } }, c') := by
  obtain ⟨comp, hc, hrepl, hget⟩ := modify_ok_elim h
  exact ⟨comp, hc, hrepl, hget rfl⟩

theorem get_ok_unique {c : Converter} {comp comp' : Component}
    (h1 : get_current_func c = .ok (comp, c)) (h2 : get_current_func c = .ok (comp', c)) :
    comp = comp' := by
  rw [h1] at h2
  exact congrArg Prod.fst (Except.ok.inj h2)

/-- A state reached by replacing the current component with one that keeps all
existing groups and cells preserves everything `Pres` tracks. -/
theorem pres_replace {ks : String → Prop} {c : Converter} {comp comp' : Component}
    (hc : get_current_func c = .ok (comp, c))
    (hg : ∀ g ∈ comp.wires.groups, g ∈ comp'.wires.groups)
    (hcl : ∀ cl ∈ comp.cells, cl ∈ comp'.cells)
    (hget' : get_current_func (replaceCurrent c comp') =
      .ok (comp', replaceCurrent c comp')) :
    Pres ks c (replaceCurrent c comp') := by
  have hst := replaceCurrent_state c comp'
  refine ⟨hst.2.2.2.2, fun x _ => by rw [hst.1], fun comp0 hc0 => ?_⟩
  have : comp0 = comp := get_ok_unique hc0 hc
  subst this
  exact ⟨comp', hget', hg, hcl⟩

theorem push_group_pres {ks : String → Prop} {g : Group} {c : Converter} {u : Unit}
    {c' : Converter} (h : push_group g c = .ok (u, c')) : Pres ks c c' := by
  obtain ⟨comp, hc, rfl, hget⟩ := push_group_ok h
  exact pres_replace hc (fun g2 hg2 => by simp [hg2]) (fun cl hcl => hcl) hget

theorem push_cell_pres {ks : String → Prop} {cl : Cell} {c : Converter} {u : Unit}
    {c' : Converter} (h : push_cell cl c = .ok (u, c')) : Pres ks c c' := by
  obtain ⟨comp, hc, rfl, hget⟩ := push_cell_ok h
  exact pres_replace hc (fun g2 hg2 => hg2) (fun cl2 hcl2 => by simp [hcl2]) hget

theorem push_static_wire_pres {ks : String → Prop} {w : Wire} {c : Converter} {u : Unit}
    {c' : Converter} (h : push_static_wire w c = .ok (u, c')) : Pres ks c c' := by
  obtain ⟨comp, hc, rfl, hget⟩ := push_static_wire_ok h
  exact pres_replace hc (fun g2 hg2 => hg2) (fun cl2 hcl2 => hcl2) hget

theorem get_add_cell_state (comp : Component) (w : Nat) :
    (comp.get_add_cell w).2.name = comp.name ∧
    (comp.get_add_cell w).2.wires = comp.wires ∧
    (∀ cl ∈ comp.cells, cl ∈ (comp.get_add_cell w).2.cells) := by
  unfold Component.get_add_cell
  cases hf : comp.cells.find? (fun c => c.circuit == Circuit.stdAdd w) with
  | some c0 => exact ⟨rfl, rfl, fun cl hcl => hcl⟩
  | none => exact ⟨rfl, rfl, fun cl hcl => by simp [hcl]⟩

theorem get_mult_cell_state (comp : Component) (w : Nat) :
    (comp.get_mult_cell w).2.name = comp.name ∧
    (comp.get_mult_cell w).2.wires = comp.wires ∧
    (∀ cl ∈ comp.cells, cl ∈ (comp.get_mult_cell w).2.cells) := by
  unfold Component.get_mult_cell
  cases hf : comp.cells.find? (fun c => c.circuit == Circuit.stdMul w) with
  | some c0 => exact ⟨rfl, rfl, fun cl hcl => hcl⟩
  | none => exact ⟨rfl, rfl, fun cl hcl => by simp [hcl]⟩

theorem get_add_cell_current_ok {w : Nat} {c : Converter} {cl : Cell} {c' : Converter}
    (h : get_add_cell_current w c = .ok (cl, c')) :
    ∃ comp, get_current_func c = .ok (comp, c) ∧
      cl = (comp.get_add_cell w).1 ∧
      c' = replaceCurrent c (comp.get_add_cell w).2 ∧
      get_current_func c' = .ok ((comp.get_add_cell w).2, c') ∧
      Pres (fun _ => False) c c' := by
  unfold get_add_cell_current at h
  rw [bind_eq, Conv.bind_ok] at h
  obtain ⟨compA, c1, hget, h⟩ := h
  have hc1 : c1 = c := get_state_eq hget
  subst hc1
  rw [bind_eq, Conv.bind_ok] at h
  obtain ⟨u, c2, hmod, h⟩ := h
  rw [Conv.pure_ok] at h
  obtain ⟨rfl, rfl⟩ := h
  obtain ⟨compB, hget0, hrepl, hget'⟩ := modify_ok_elim hmod
  have hco : compB = compA := get_ok_unique hget0 hget
  rw [hco] at hget'
  have hname : (compA.get_add_cell w).2.name = compA.name := (get_add_cell_state compA w).1
  have hg := hget' hname
  subst hrepl
  refine ⟨compA, hget, rfl, rfl, hg, ?_⟩
  exact pres_replace hget
    (fun g2 hg2 => by rw [(get_add_cell_state compA w).2.1]; exact hg2)
    ((get_add_cell_state compA w).2.2) hg

theorem get_mult_cell_current_ok {w : Nat} {c : Converter} {cl : Cell} {c' : Converter}
    (h : get_mult_cell_current w c = .ok (cl, c')) :
    ∃ comp, get_current_func c = .ok (comp, c) ∧
      cl = (comp.get_mult_cell w).1 ∧
      c' = replaceCurrent c (comp.get_mult_cell w).2 ∧
      get_current_func c' = .ok ((comp.get_mult_cell w).2, c') ∧
      Pres (fun _ => False) c c' := by
  unfold get_mult_cell_current at h
  rw [bind_eq, Conv.bind_ok] at h
  obtain ⟨compA, c1, hget, h⟩ := h
  have hc1 : c1 = c := get_state_eq hget
  subst hc1
  rw [bind_eq, Conv.bind_ok] at h
  obtain ⟨u, c2, hmod, h⟩ := h
  rw [Conv.pure_ok] at h
  obtain ⟨rfl, rfl⟩ := h
  obtain ⟨compB, hget0, hrepl, hget'⟩ := modify_ok_elim hmod
  have hco : compB = compA := get_ok_unique hget0 hget
  rw [hco] at hget'
  have hname : (compA.get_mult_cell w).2.name = compA.name := (get_mult_cell_state compA w).1
  have hg := hget' hname
  subst hrepl
  refine ⟨compA, hget, rfl, rfl, hg, ?_⟩
  exact pres_replace hget
    (fun g2 hg2 => by rw [(get_mult_cell_state compA w).2.1]; exact hg2)
    ((get_mult_cell_state compA w).2.2) hg

end HLS

namespace HLS

/-- Projection lemmas for `replaceCurrent`. -/
@[simp] theorem replaceCurrent_env (c : Converter) (comp : Component) :
    (replaceCurrent c comp).env = c.env := (replaceCurrent_state c comp).1

@[simp] theorem replaceCurrent_type_env (c : Converter) (comp : Component) :
    (replaceCurrent c comp).type_env = c.type_env := (replaceCurrent_state c comp).2.1

@[simp] theorem replaceCurrent_fun_type_env (c : Converter) (comp : Component) :
    (replaceCurrent c comp).fun_type_env = c.fun_type_env := (replaceCurrent_state c comp).2.2.1

@[simp] theorem replaceCurrent_fresh (c : Converter) (comp : Component) :
    (replaceCurrent c comp).fresh_idx = c.fresh_idx := (replaceCurrent_state c comp).2.2.2.1

@[simp] theorem replaceCurrent_cf (c : Converter) (comp : Component) :
    (replaceCurrent c comp).current_func = c.current_func := (replaceCurrent_state c comp).2.2.2.2

/-- Full characterization of a successful `Add` lowering with a destination:
a brand-new width-32 adder cell named from the fresh counter is appended
unconditionally, the operands are wired statically, no control is emitted,
and the destination aliases the adder's `out` port. -/
theorem convert_add_some {c : Converter} {v1 v2 d : String} {ctl : Control} {c' : Converter}
    (h : convert_base_expr (.add v1 v2) (some d) c = .ok (ctl, c')) :
    ∃ s1 s2 comp,
      lookupA c.env v1 = some s1 ∧ lookupA c.env v2 = some s2 ∧
      get_current_func c = .ok (comp, c) ∧
      ctl = Control.empty ∧
      (∃ comp', get_current_func c' = .ok (comp', c') ∧
        comp'.cells = comp.cells ++ [⟨tmpName c.fresh_idx, false, false, .stdAdd 32⟩] ∧
        comp'.wires.static_wires = comp.wires.static_wires ++
          [⟨⟨tmpName c.fresh_idx, "left"⟩, s1⟩, ⟨⟨tmpName c.fresh_idx, "right"⟩, s2⟩] ∧
        comp'.wires.groups = comp.wires.groups) ∧
      lookupA c'.env d = some (.port ⟨tmpName c.fresh_idx, "out"⟩) ∧
      (∀ x, x ≠ d → lookupA c'.env x = lookupA c.env x) ∧
      c'.current_func = c.current_func ∧ c'.fresh_idx = c.fresh_idx + 1 := by
  simp only [convert_base_expr] at h
  simp only [bind_eq] at h
  rw [Conv.bind_ok] at h
  obtain ⟨s1, c1, hf1, h⟩ := h
  obtain ⟨hl1, hc1⟩ := find_src_ok hf1
  rw [hc1] at h
  rw [Conv.bind_ok] at h
  obtain ⟨s2, c2, hf2, h⟩ := h
  obtain ⟨hl2, hc2⟩ := find_src_ok hf2
  rw [hc2] at h
  rw [Conv.bind_ok] at h
  obtain ⟨name, cf, hfresh, h⟩ := h
  rw [fresh_name_eq] at hfresh
  injection hfresh with hfresh
  injection hfresh with hname hcf
  subst hname
  subst hcf
  rw [Conv.bind_ok] at h
  obtain ⟨u1, cA, hpush, h⟩ := h
  obtain ⟨compF, hgetF, hreplA, hgetA⟩ := push_cell_ok hpush
  subst hreplA
  rw [Conv.bind_ok] at h
  obtain ⟨u2, cB, hw1, h⟩ := h
  obtain ⟨compA2, hgetA2, hreplB, hgetB⟩ := push_static_wire_ok hw1
  have hcA : compA2 = _ := get_ok_unique hgetA2 hgetA
  subst hcA
  subst hreplB
  rw [Conv.bind_ok] at h
  obtain ⟨u3, cC, hw2, h⟩ := h
  obtain ⟨compB2, hgetB2, hreplC, hgetC⟩ := push_static_wire_ok hw2
  have hcB : compB2 = _ := get_ok_unique hgetB2 hgetB
  subst hcB
  subst hreplC
  rw [Conv.bind_ok] at h
  obtain ⟨u4, cD, hins, h⟩ := h
  rw [insert_env_eq] at hins
  injection hins with hins
  injection hins with _ hcD
  subst hcD
  rw [Conv.pure_ok] at h
  obtain ⟨rfl, rfl⟩ := h
  have hgetc : get_current_func c = .ok (compF, c) := get_current_congr hgetF rfl rfl
  refine ⟨s1, s2, compF, hl1, hl2, hgetc, rfl, ?_, ?_, ?_, ?_, ?_⟩
  · refine ⟨_, get_current_congr hgetC (by simp) (by simp), by simp, by simp, by simp⟩
  · simp [lookupA_cons]
  · intro x hx
    simp only [lookupA_cons]
    rw [if_neg (fun hdx => hx hdx.symm)]
    simp
  · simp
  · simp

end HLS

namespace HLS

theorem get_same_program {c1 c2 : Converter} {comp1 comp2 : Component}
    (h1 : get_current_func c1 = .ok (comp1, c1)) (h2 : get_current_func c2 = .ok (comp2, c2))
    (hp : c1.program = c2.program) (hcf : c1.current_func = c2.current_func) :
    comp1 = comp2 :=
  get_ok_unique h1 (get_current_congr h2 hp hcf)

theorem get_add_cell_reuse {comp : Component} {w : Nat} {cl : Cell}
    (hm : cl ∈ comp.cells) (hw : cl.circuit = .stdAdd w) :
    (comp.get_add_cell w).2 = comp := by
  unfold Component.get_add_cell
  cases hf : comp.cells.find? (fun c => c.circuit == Circuit.stdAdd w) with
  | some c0 => rfl
  | none =>
    have := List.find?_eq_none.1 hf cl hm
    rw [hw] at this
    simp at this

theorem get_mult_cell_reuse {comp : Component} {w : Nat} {cl : Cell}
    (hm : cl ∈ comp.cells) (hw : cl.circuit = .stdMul w) :
    (comp.get_mult_cell w).2 = comp := by
  unfold Component.get_mult_cell
  cases hf : comp.cells.find? (fun c => c.circuit == Circuit.stdMul w) with
  | some c0 => rfl
  | none =>
    have := List.find?_eq_none.1 hf cl hm
    rw [hw] at this
    simp at this

theorem get_add_cell_found {comp : Component} {w : Nat} {cl : Cell}
    (hm : cl ∈ comp.cells) (hw : cl.circuit = .stdAdd w) :
    (comp.get_add_cell w).1 ∈ comp.cells ∧ (comp.get_add_cell w).1.circuit = .stdAdd w := by
  unfold Component.get_add_cell
  cases hf : comp.cells.find? (fun c => c.circuit == Circuit.stdAdd w) with
  | some c0 =>
    refine ⟨List.mem_of_find?_eq_some hf, ?_⟩
    have := List.find?_some hf
    simpa using this
  | none =>
    have := List.find?_eq_none.1 hf cl hm
    rw [hw] at this
    simp at this

theorem get_mult_cell_circuit (comp : Component) (w : Nat) :
    (comp.get_mult_cell w).1.circuit = .stdMul w := by
  unfold Component.get_mult_cell
  cases hf : comp.cells.find? (fun c => c.circuit == Circuit.stdMul w) with
  | some c0 =>
    have := List.find?_some hf
    simpa using this
  | none => rfl

theorem get_mult_cell_mem (comp : Component) (w : Nat) :
    (comp.get_mult_cell w).1 ∈ (comp.get_mult_cell w).2.cells := by
  unfold Component.get_mult_cell
  cases hf : comp.cells.find? (fun c => c.circuit == Circuit.stdMul w) with
  | some c0 => exact List.mem_of_find?_eq_some hf
  | none => simp

/-- Full characterization of a successful `Mul` lowering with a destination:
the shared width-32 multiplier is fetched (or created), the destination
becomes a fresh width-32 register cell named after the destination itself,
and a single group is emitted. -/
theorem convert_mul_some {c : Converter} {v1 v2 d : String} {ctl : Control} {c' : Converter}
    (h : convert_base_expr (.mul v1 v2) (some d) c = .ok (ctl, c')) :
    ∃ s1 s2 comp,
      lookupA c.env v1 = some s1 ∧ lookupA c.env v2 = some s2 ∧
      get_current_func c = .ok (comp, c) ∧
      ctl = Control.groupName (grpName c.fresh_idx) ∧
      (∃ comp', get_current_func c' = .ok (comp', c') ∧
        (⟨d, false, false, .stdReg 32⟩ : Cell) ∈ comp'.cells ∧
        (∃ mc ∈ comp'.cells, mc.circuit = .stdMul 32) ∧
        (⟨grpName c.fresh_idx, some (.port ⟨d, "done"⟩),
          [⟨⟨(comp.get_mult_cell 32).1.name, "left"⟩, s1⟩,
           ⟨⟨(comp.get_mult_cell 32).1.name, "right"⟩, s2⟩,
           ⟨⟨(comp.get_mult_cell 32).1.name, "go"⟩, .int 1 1⟩,
           ⟨⟨d, "in"⟩, .port ⟨(comp.get_mult_cell 32).1.name, "out"⟩⟩,
           ⟨⟨d, "write_en"⟩, .port ⟨(comp.get_mult_cell 32).1.name, "done"⟩⟩]⟩ : Group)
          ∈ comp'.wires.groups) ∧
      lookupA c'.env d = some (.port ⟨d, "out"⟩) := by
  simp only [convert_base_expr] at h
  simp only [bind_eq] at h
  rw [Conv.bind_ok] at h
  obtain ⟨s1, c1, hf1, h⟩ := h
  obtain ⟨hl1, hc1⟩ := find_src_ok hf1
  rw [hc1] at h
  rw [Conv.bind_ok] at h
  obtain ⟨s2, c2, hf2, h⟩ := h
  obtain ⟨hl2, hc2⟩ := find_src_ok hf2
  rw [hc2] at h
  rw [Conv.bind_ok] at h
  obtain ⟨mc, cM, hmc, h⟩ := h
  obtain ⟨compM, hgetM, hmcval, hreplM, hgetM', _⟩ := get_mult_cell_current_ok hmc
  subst hreplM
  rw [Conv.bind_ok] at h
  obtain ⟨u1, cI, hins, h⟩ := h
  rw [insert_env_eq] at hins
  injection hins with hins
  injection hins with _ hcI
  subst hcI
  rw [Conv.bind_ok] at h
  obtain ⟨u2, cA, hpush, h⟩ := h
  obtain ⟨compI, hgetI, hreplA, hgetA⟩ := push_cell_ok hpush
  subst hreplA
  rw [Conv.bind_ok] at h
  obtain ⟨g0, cG, hng, h⟩ := h
  rw [new_group_eq] at hng
  injection hng with hng
  injection hng with hg0 hcG
  subst hg0
  subst hcG
  rw [Conv.bind_ok] at h
  obtain ⟨u3, cB, hpg, h⟩ := h
  obtain ⟨compG, hgetG, hreplB, hgetB⟩ := push_group_ok hpg
  subst hreplB
  rw [Conv.pure_ok] at h
  obtain ⟨rfl, rfl⟩ := h
  have hcompI : compI = (compM.get_mult_cell 32).2 :=
    get_same_program hgetI hgetM' rfl rfl
  subst hcompI
  have hcompG : compG = _ := get_same_program hgetG hgetA rfl rfl
  subst hcompG
  subst hmcval
  refine ⟨s1, s2, compM, hl1, hl2, hgetM, by simp, ⟨_, hgetB, ?_, ?_, ?_⟩, ?_⟩
  · simp
  · refine ⟨(compM.get_mult_cell 32).1, ?_, get_mult_cell_circuit _ _⟩
    simp [List.mem_append, get_mult_cell_mem]
  · simp [List.mem_append]
  · simp [lookupA_cons]

end HLS

namespace HLS

/-- The `Int` lowering with a destination: no control, no hardware; the
destination is bound to a 32-bit immediate. -/
theorem convert_int_some {c : Converter} {n : Int} {d : String} {ctl : Control} {c' : Converter}
    (h : convert_base_expr (.int n) (some d) c = .ok (ctl, c')) :
    ctl = Control.empty ∧ c' = { c with env := (d, .int n 32) :: c.env } ∧
    lookupA c'.env d = some (.int n 32) := by
  have h3 : (Except.ok (Control.empty, { c with env := (d, Src.int n 32) :: c.env })
      : Except CErr (Control × Converter)) = .ok (ctl, c') := h
  injection h3 with h3
  injection h3 with h1 h2
  subst h1
  subst h2
  exact ⟨rfl, rfl, by rw [show ({ c with env := (d, Src.int n 32) :: c.env } : Converter).env =
    (d, Src.int n 32) :: c.env from rfl, lookupA_cons, if_pos rfl]⟩

/-- C1 (amended): the `Int`, `Bool`, `Var`, `Add` and `Mul` arms return the
empty control fragment and leave the converter completely unchanged when no
destination is requested. -/
theorem c1_scalar_pure_no_dest (e : ABase) (c c' : Converter) (ctl : Control)
    (h1 : isScalarPureArm e) (h2 : convert_base_expr e none c = .ok (ctl, c')) :
    ctl = Control.empty ∧ c' = c := by
  cases e with
  | int n =>
    have h3 : (Except.ok (Control.empty, c) : Except CErr (Control × Converter))
        = .ok (ctl, c') := h2
    injection h3 with h3
    injection h3 with ha hb
    exact ⟨ha.symm, hb.symm⟩
  | bool b =>
    have h3 : (Except.ok (Control.empty, c) : Except CErr (Control × Converter))
        = .ok (ctl, c') := h2
    injection h3 with h3
    injection h3 with ha hb
    exact ⟨ha.symm, hb.symm⟩
  | var v =>
    simp only [convert_base_expr, bind_eq] at h2
    rw [Conv.bind_ok] at h2
    obtain ⟨s, c1, hf, h2⟩ := h2
    obtain ⟨_, hc1⟩ := find_src_ok hf
    subst hc1
    have h3 : (Except.ok (Control.empty, c1) : Except CErr (Control × Converter))
        = .ok (ctl, c') := h2
    injection h3 with h3
    injection h3 with ha hb
    exact ⟨ha.symm, hb.symm⟩
  | add v1 v2 =>
    simp only [convert_base_expr, bind_eq] at h2
    rw [Conv.bind_ok] at h2
    obtain ⟨s1, c1, hf1, h2⟩ := h2
    obtain ⟨_, hc1⟩ := find_src_ok hf1
    subst hc1
    rw [Conv.bind_ok] at h2
    obtain ⟨s2, c2, hf2, h2⟩ := h2
    obtain ⟨_, hc2⟩ := find_src_ok hf2
    subst hc2
    have h3 : (Except.ok (Control.empty, c2) : Except CErr (Control × Converter))
        = .ok (ctl, c') := h2
    injection h3 with h3
    injection h3 with ha hb
    exact ⟨ha.symm, hb.symm⟩
  | mul v1 v2 =>
    simp only [convert_base_expr, bind_eq] at h2
    rw [Conv.bind_ok] at h2
    obtain ⟨s1, c1, hf1, h2⟩ := h2
    obtain ⟨_, hc1⟩ := find_src_ok hf1
    subst hc1
    rw [Conv.bind_ok] at h2
    obtain ⟨s2, c2, hf2, h2⟩ := h2
    obtain ⟨_, hc2⟩ := find_src_ok hf2
    subst hc2
    have h3 : (Except.ok (Control.empty, c2) : Except CErr (Control × Converter))
        = .ok (ctl, c') := h2
    injection h3 with h3
    injection h3 with ha hb
    exact ⟨ha.symm, hb.symm⟩
  | newArray ty size => cases h1
  | map arrays params body => cases h1
  | reduce a iv acm arg body => cases h1
  | call f args => cases h1
  | arraySet a i v => cases h1

end HLS

namespace HLS

theorem eb_ok {ε α β : Type} (a : α) (k : α → Except ε β) :
    (Bind.bind (Except.ok a) k : Except ε β) = k a := rfl

theorem eb_error {ε α β : Type} (e : ε) (k : α → Except ε β) :
    (Bind.bind (Except.error e) k : Except ε β) = .error e := rfl

theorem normalize_atom_list_vars (vs : List String) :
    ∀ (b : List ALet) (st : NormalizeState),
      normalize_atom_list (vs.map BaseExpr.var) b st = .ok ((b, vs), st) := by
  induction vs with
  | nil => intro b st; rfl
  | cons v rest ih =>
    intro b st
    rw [List.map_cons]
    have step : normalize_atom_list (BaseExpr.var v :: List.map BaseExpr.var rest) b st =
        Bind.bind (normalize_atom_list (List.map BaseExpr.var rest) (b ++ []) st)
          (fun z => .ok ((z.1.1, v :: z.1.2), z.2)) := rfl
    rw [step, ih (b ++ []) st, eb_ok]
    simp

theorem ty_array_ne_self (t : Ty) (n : Nat) : Ty.array t n ≠ t := by
  intro h
  have h2 := congrArg SizeOf.sizeOf h
  simp only [Ty.array.sizeOf_spec] at h2
  omega

/-- C2 (counterexample): for a state typing `a : Array(I(8), 4)`, the
normalizer's type inference assigns a `Map` over `a` the whole array type
`Array(I(8), 4)`, not the element type `I(8)` the claim states. -/
theorem c2_counterexample :
    infer_anormal_type (.map ["a"] [] (.mk [] (.int 0))) exStI8 = .ok (.array (.i 8) 4) ∧
    infer_anormal_type (.map ["a"] [] (.mk [] (.int 0))) exStI8 ≠ .ok (.i 8) := by
  refine ⟨rfl, fun hx => ?_⟩
  have h2 : (Except.ok (Ty.array (.i 8) 4) : Except String Ty) = .ok (.i 8) := hx
  injection h2 with h2
  cases h2

/-- C2 (amended): the normalizer's type inference assigns a `Map` whose first
input array has type `Array(t, n)` that whole array type — never the bare
element type `t` — and fails with the `Map: Empty array list` error when the
array list is empty. -/
theorem c2_map_type (arrays : List String) (a : String) (rest : List String)
    (ps : List String) (b : AExpr) (st : NormalizeState) (t : Ty) (n : Nat)
    (h1 : arrays = a :: rest) (h2 : st.get_type a = .ok (.array t n)) :
    infer_anormal_type (.map arrays ps b) st = .ok (.array t n) ∧
    infer_anormal_type (.map arrays ps b) st ≠ .ok t ∧
    infer_anormal_type (.map [] ps b) st = .error "Map: Empty array list" := by
  subst h1
  refine ⟨?_, ?_, rfl⟩
  · simp only [infer_anormal_type]
    exact h2
  · simp only [infer_anormal_type]
    rw [h2]
    intro hx
    injection hx with hx
    exact ty_array_ne_self t n hx

/-- C2 (witness): the amended statement applied to the concrete state typing
`a : Array(I(8), 4)`. -/
theorem c2_witness :
    (["a"] = "a" :: ([] : List String)) ∧
    exStI8.get_type "a" = .ok (.array (.i 8) 4) ∧
    (infer_anormal_type (.map ["a"] [] (.mk [] (.int 0))) exStI8 = .ok (.array (.i 8) 4) ∧
     infer_anormal_type (.map ["a"] [] (.mk [] (.int 0))) exStI8 ≠ .ok (.i 8) ∧
     infer_anormal_type (.map [] [] (.mk [] (.int 0))) exStI8 =
       .error "Map: Empty array list") :=
  ⟨rfl, rfl, c2_map_type ["a"] "a" [] [] (.mk [] (.int 0)) exStI8 (.i 8) 4 rfl rfl⟩

/-- C3 (counterexample): normalizing a `Map` whose lambda body must
materialize a temporary for a sub-expression built from the lambda parameter
`x` fails with an unresolved-variable error, because the parameter's type was
never inserted into the threaded type environment. -/
theorem c3_counterexample :
    normalize_base_expr exMapNested exStI32 =
      .error "Variable x not found in type environment" := rfl

/-- C3 (amended): the normalizer does not insert the lambda parameters' types
before normalizing a `Map` body: when the input arrays are bare variables the
body is normalized in exactly the unchanged outer environment, so
materializing a sub-expression that refers only to a lambda parameter fails
unless that name happens to be bound outside. -/
theorem c3_no_param_insertion (vs ps : List String) (body : Expr) (st : NormalizeState) :
    normalize_base_expr (.map (vs.map BaseExpr.var) ps body) st =
      match normalize_expr_with_state body st with
      | .ok (nb, st2) => .ok (([], .map vs ps nb), st2)
      | .error e => .error e := by
  have step : normalize_base_expr (.map (vs.map BaseExpr.var) ps body) st =
      Bind.bind (normalize_atom_list (vs.map BaseExpr.var) [] st)
        (fun x => Bind.bind (normalize_expr_with_state body x.2)
          (fun y => .ok ((x.1.1, .map x.1.2 ps y.1), y.2))) := rfl
  rw [step, normalize_atom_list_vars vs [] st, eb_ok]
  cases hb : normalize_expr_with_state body st with
  | ok p => rw [eb_ok]
  | error e => rw [eb_error]

/-- C1 (counterexample): lowering an `ArraySet` with no requested destination
still pushes a group onto the current component and returns a non-empty
control fragment, contradicting the claim that every operator variant
synthesizes no hardware and returns no control when no destination is
requested. -/
theorem c1_counterexample :
    (match convert_base_expr (.arraySet "a" "i" "v") none exConvArr with
     | .ok (ctl, c') =>
       ctl = Control.groupName "_group_0" ∧ ctl ≠ Control.empty ∧
       c'.program.main.wires.groups.length = 1 ∧
       exConvArr.program.main.wires.groups.length = 0
     | .error _ => False) :=
  ⟨rfl, fun hx => Control.noConfusion hx, rfl, rfl⟩

/-- C1 (witness): the amended statement applied to `x + y` lowered with no
destination from a concrete converter. -/
theorem c1_witness :
    isScalarPureArm (.add "x" "y") ∧
    (Control.empty = Control.empty ∧ exConvAdd = exConvAdd) :=
  ⟨trivial, c1_scalar_pure_no_dest (.add "x" "y") exConvAdd exConvAdd Control.empty
    trivial rfl⟩

/-- C9 (counterexample): an ANF program whose `main` evaluates a `Map` with an
empty array list makes the whole generation abort with a Rust panic (the
`unwrap` of `vars.first()`), not with a returned error value as the claim
states. -/
theorem c9_counterexample :
    convertProgram exProgEmptyMap = .error (.crash "called Option.unwrap on a None value") ∧
    ∀ msg, convertProgram exProgEmptyMap ≠ .error (.err msg) := by
  refine ⟨rfl, fun msg hx => ?_⟩
  have h2 : (Except.error (CErr.crash "called Option.unwrap on a None value")
      : Except CErr Converter) = .error (.err msg) := hx
  injection h2 with h2
  cases h2

/-- C9 (amended): for every destination and converter state, lowering a `Map`
with an empty array list aborts generation with a panic (modelling the Rust
`unwrap` on `None`), rather than returning an error value. -/
theorem c9_empty_map_panics (ps : List String) (body : AExpr) (dst : Option String)
    (c : Converter) :
    convert_base_expr (.map [] ps body) dst c =
      .error (.crash "called Option.unwrap on a None value") := rfl

/-- C6 (counterexample): running the full pipeline on a minimal program, the
normalizer introduces the temporary `_tmp_0`, and code generation freshly
creates an adder cell that is also named `_tmp_0` in the `main` component —
the two naming counters share the `_tmp_N` namespace. -/
theorem c6_counterexample :
    normalize_program (alpha_convert_program exProgC6) = .ok exAnfC6 ∧
    "_tmp_0" ∈ aProgBinders exAnfC6 ∧
    convertProgram exAnfC6 = .ok c6StFinal ∧
    (⟨"_tmp_0", false, false, .stdAdd 32⟩ : Cell) ∈ c6StFinal.program.main.cells := by
  refine ⟨rfl, by decide, ?_, by decide⟩
  have hL1 : convert_let (.bindLet "_tmp_0" (.i 32) (.int 1)) c6StPre =
      .ok (Control.seq [], c6St1) := rfl
  have hL2 : convert_let (.bindLet "_tmp_1" (.i 32) (.int 2)) c6St1 =
      .ok (Control.seq [], c6St2) := rfl
  have hL3 : convert_let (.bindLet "s_0" (.i 32) (.add "_tmp_0" "_tmp_1")) c6St2 =
      .ok (Control.seq [], c6St3) := rfl
  have hL4 : convert_let (.bindLet "_tmp_2" (.i 32) (.int 0)) c6St3 =
      .ok (Control.seq [], c6St4) := rfl
  have hNil : convert_lets [] c6St4 = .ok ([], c6St4) := rfl
  have hLs : convert_lets
      [.bindLet "_tmp_0" (.i 32) (.int 1), .bindLet "_tmp_1" (.i 32) (.int 2),
       .bindLet "s_0" (.i 32) (.add "_tmp_0" "_tmp_1"),
       .bindLet "_tmp_2" (.i 32) (.int 0)] c6StPre = .ok ([], c6St4) := by
    exact convert_lets_cons hL1 (convert_lets_cons hL2
      (convert_lets_cons hL3 (convert_lets_cons hL4 hNil)))
  have hAS : convert_base_expr (.arraySet "out" "_tmp_2" "s_0") none c6St4 =
      .ok (.groupName "_group_1", c6StAS) := rfl
  have hExpr : convert_expr c6Main.body none c6StPre =
      .ok (Control.seq [.groupName "_group_1"], c6StAS) := by
    exact convert_expr_mk hLs hAS
  have hPush : push_control_filtered (Control.seq [.groupName "_group_1"]) c6StAS =
      .ok ((), c6StFinal) := rfl
  have hFd : convert_fundef c6Main c6StExt = .ok ((), c6StFinal) := by
    exact convert_fundef_main hExpr hPush
  have hExt : convert_external_decl ⟨"out", .array (.i 32) 1⟩ Converter.init =
      .ok ((), c6StExt) := rfl
  have hConv : convert exAnfC6 Converter.init = .ok ((), c6StFinal) := by
    exact convert_ext_cons hExt (convert_fd_cons hFd rfl)
  unfold convertProgram
  rw [hConv]

/-- C6 (amended): the generator's `fresh_name` and the normalizer's
`fresh_temp` draw from the same `_tmp_N` namespace: at equal counter values
they produce the identical name. -/
theorem c6_same_fresh_names (st : NormalizeState) (c : Converter)
    (h : st.temp_counter = c.fresh_idx) :
    fresh_name c = .ok (st.fresh_temp.1, { c with fresh_idx := c.fresh_idx + 1 }) := by
  rw [fresh_name_eq]
  unfold NormalizeState.fresh_temp tmpName
  rw [h]

/-- C6 (witness): the amended statement at the initial states of both
counters. -/
theorem c6_witness :
    NormalizeState.new.temp_counter = Converter.init.fresh_idx ∧
    fresh_name Converter.init = .ok (NormalizeState.new.fresh_temp.1,
      { Converter.init with fresh_idx := Converter.init.fresh_idx + 1 }) :=
  ⟨rfl, c6_same_fresh_names NormalizeState.new Converter.init rfl⟩

end HLS

namespace HLS

/-- The `main`-signature check of `convert_fundef`: a `main` with parameters
or a return type makes `convert_fundef` fail, for every converter state. -/
theorem convert_fundef_bad_main (params : List (String × Ty)) (ret : Option Ty)
    (body : AExpr) (c : Converter) (hbad : ¬(params = [] ∧ ret = none)) :
    convert_fundef ⟨"main", params, ret, body⟩ c =
      .error (.err "Main function must have no parameters and no return type") := by
  have hcond : ("main" == "main" && !(params.isEmpty && ret.isNone)) = true := by
    cases hp : params with
    | cons a l => simp
    | nil =>
      cases hr : ret with
      | some t => simp
      | none => exact absurd ⟨hp, hr⟩ hbad
  have h1 : insert_fun_type_env "main" (params, ret) c =
      .ok ((), { c with fun_type_env := ("main", (params, ret)) :: c.fun_type_env }) := rfl
  have h2 : set_current_func "main"
        { c with fun_type_env := ("main", (params, ret)) :: c.fun_type_env } =
      .ok ((),
        { c with
            fun_type_env := ("main", (params, ret)) :: c.fun_type_env,
            current_func := some "main" }) := rfl
  simp only [convert_fundef, bind_eq]
  rw [Conv.bind_step h1, Conv.bind_step h2, if_pos hcond]
  rfl

/-- C8: a program whose `main` has a non-empty parameter list or a return
type never converts successfully, from any converter state. -/
theorem c8_bad_main_never_succeeds (prog : List ATopLevel) (fd : FunDefA)
    (hmem : ATopLevel.funDef fd ∈ prog) (hname : fd.name = "main")
    (hbad : ¬(fd.params = [] ∧ fd.return_type = none)) :
    ∀ (c : Converter) (r : Unit × Converter), convert prog c ≠ .ok r := by
  induction prog with
  | nil => cases hmem
  | cons t rest ih =>
    intro c r h
    rcases List.mem_cons.1 hmem with heq | hmem2
    · subst heq
      simp only [convert, bind_eq] at h
      rw [Conv.bind_ok] at h
      obtain ⟨a, c1, hfd, _⟩ := h
      obtain ⟨nm, ps, rt, bd⟩ := fd
      simp only at hname
      subst hname
      rw [convert_fundef_bad_main ps rt bd c hbad] at hfd
      cases hfd
    · cases t with
      | externalDecl d =>
        simp only [convert, bind_eq] at h
        rw [Conv.bind_ok] at h
        obtain ⟨a, c1, _, hrest⟩ := h
        exact ih hmem2 c1 r hrest
      | funDef g =>
        simp only [convert, bind_eq] at h
        rw [Conv.bind_ok] at h
        obtain ⟨a, c1, _, hrest⟩ := h
        exact ih hmem2 c1 r hrest

/-- C8 (witness): the check at a concrete one-function program whose `main`
takes a parameter, from the initial converter. -/
theorem c8_witness :
    ATopLevel.funDef ⟨"main", [("a", .i 32)], none, .mk [] (.int 0)⟩ ∈ exProgBadMain ∧
    ∀ (r : Unit × Converter), convert exProgBadMain Converter.init ≠ .ok r :=
  ⟨List.mem_singleton.2 rfl,
   c8_bad_main_never_succeeds exProgBadMain ⟨"main", [("a", .i 32)], none, .mk [] (.int 0)⟩
     (List.mem_singleton.2 rfl) rfl (by simp) Converter.init⟩

/-- C10: the adder cell of an `Add` lowering, and the multiplier cell and the
result register of a `Mul` lowering, are always created at width 32, and an
integer literal is bound as a 32-bit immediate — whatever the converter state
(and hence whatever the declared operand types). -/
theorem c10_arith_width_32 :
    (∀ (c c' : Converter) (v1 v2 d : String) (ctl : Control),
      convert_base_expr (.add v1 v2) (some d) c = .ok (ctl, c') →
      ∃ comp', get_current_func c' = .ok (comp', c') ∧
        (⟨tmpName c.fresh_idx, false, false, .stdAdd 32⟩ : Cell) ∈ comp'.cells) ∧
    (∀ (c c' : Converter) (v1 v2 d : String) (ctl : Control),
      convert_base_expr (.mul v1 v2) (some d) c = .ok (ctl, c') →
      ∃ comp', get_current_func c' = .ok (comp', c') ∧
        (⟨d, false, false, .stdReg 32⟩ : Cell) ∈ comp'.cells ∧
        ∃ mc ∈ comp'.cells, mc.circuit = .stdMul 32) ∧
    (∀ (c c' : Converter) (n : Int) (d : String) (ctl : Control),
      convert_base_expr (.int n) (some d) c = .ok (ctl, c') →
      lookupA c'.env d = some (.int n 32)) := by
  refine ⟨?_, ?_, ?_⟩
  · intro c c' v1 v2 d ctl h
    obtain ⟨s1, s2, comp, _, _, _, _, ⟨comp', hget, hcells, _, _⟩, _, _, _, _⟩ :=
      convert_add_some h
    refine ⟨comp', hget, ?_⟩
    rw [hcells]
    simp
  · intro c c' v1 v2 d ctl h
    obtain ⟨s1, s2, comp, _, _, _, _, ⟨comp', hget, hreg, hmul, _⟩, _⟩ :=
      convert_mul_some h
    exact ⟨comp', hget, hreg, hmul⟩
  · intro c c' n d ctl h
    exact (convert_int_some h).2.2

/-- C10 (witness): the three parts at concrete lowerings of `x + y`,
`x * y` and the literal `7` from `exConvAdd`. -/
theorem c10_witness :
    (∃ comp', get_current_func exConvAddAfter = .ok (comp', exConvAddAfter) ∧
      (⟨tmpName exConvAdd.fresh_idx, false, false, .stdAdd 32⟩ : Cell) ∈ comp'.cells) ∧
    (∃ comp', get_current_func exConvMulAfter = .ok (comp', exConvMulAfter) ∧
      (⟨"d", false, false, .stdReg 32⟩ : Cell) ∈ comp'.cells ∧
      ∃ mc ∈ comp'.cells, mc.circuit = .stdMul 32) ∧
    lookupA exConvIntAfter.env "d" = some (.int 7 32) :=
  ⟨c10_arith_width_32.1 exConvAdd exConvAddAfter "x" "y" "d" (Control.seq []) rfl,
   c10_arith_width_32.2.1 exConvAdd exConvMulAfter "x" "y" "d"
     (Control.groupName "_group_0") rfl,
   c10_arith_width_32.2.2 exConvAdd exConvIntAfter 7 "d" (Control.seq []) rfl⟩

/-- C5 (counterexample): `exConvAdd`'s current component already holds a
width-32 adder `a0`, yet lowering `x + y` appends a second, freshly named
adder cell instead of reusing it. -/
theorem c5_counterexample :
    (⟨"a0", false, false, .stdAdd 32⟩ : Cell) ∈ exConvAdd.program.main.cells ∧
    convert_base_expr (.add "x" "y") (some "d") exConvAdd =
      .ok (Control.seq [], exConvAddAfter) ∧
    exConvAddAfter.program.main.cells =
      [⟨"a0", false, false, .stdAdd 32⟩, ⟨"_tmp_0", false, false, .stdAdd 32⟩] :=
  ⟨by decide, rfl, rfl⟩

/-- C5 (amended): even when the current component already holds a width-32
adder — so the per-component cache `get_add_cell` would return it and leave
the component unchanged — the `Add` lowering ignores the cache and appends a
brand-new adder cell. -/
theorem c5_add_never_reuses (c c' : Converter) (v1 v2 d : String) (ctl : Control)
    (comp : Component) (cl : Cell)
    (hget : get_current_func c = .ok (comp, c)) (hm : cl ∈ comp.cells)
    (hw : cl.circuit = .stdAdd 32)
    (h : convert_base_expr (.add v1 v2) (some d) c = .ok (ctl, c')) :
    ∃ comp', get_current_func c' = .ok (comp', c') ∧
      comp'.cells = comp.cells ++ [⟨tmpName c.fresh_idx, false, false, .stdAdd 32⟩] ∧
      (comp.get_add_cell 32).2 = comp := by
  obtain ⟨s1, s2, comp0, _, _, hget0, _, ⟨comp', hget', hcells, _, _⟩, _, _, _, _⟩ :=
    convert_add_some h
  have hco : comp0 = comp := get_ok_unique hget0 hget
  subst hco
  exact ⟨comp', hget', hcells, get_add_cell_reuse hm hw⟩

/-- C5 (witness): the amended statement at the concrete converter
`exConvAdd`, whose component already holds the adder `a0`. -/
theorem c5_witness :
    get_current_func exConvAdd = .ok (compWithAdder, exConvAdd) ∧
    (⟨"a0", false, false, .stdAdd 32⟩ : Cell) ∈ compWithAdder.cells ∧
    convert_base_expr (.add "x" "y") (some "d") exConvAdd =
      .ok (Control.seq [], exConvAddAfter) ∧
    ∃ comp', get_current_func exConvAddAfter = .ok (comp', exConvAddAfter) ∧
      comp'.cells = compWithAdder.cells ++
        [⟨tmpName exConvAdd.fresh_idx, false, false, .stdAdd 32⟩] ∧
      (compWithAdder.get_add_cell 32).2 = compWithAdder :=
  ⟨rfl, by decide, rfl,
   c5_add_never_reuses exConvAdd exConvAddAfter "x" "y" "d" (Control.seq [])
     compWithAdder ⟨"a0", false, false, .stdAdd 32⟩ rfl (by decide) rfl rfl⟩

end HLS
namespace HLS

/-- A successful `fresh_name` step preserves everything `Pres` tracks. -/
theorem fresh_name_pres {ks : String → Prop} {c : Converter} {n : String} {c' : Converter}
    (h : fresh_name c = .ok (n, c')) : Pres ks c c' := by
  rw [fresh_name_eq] at h
  injection h with h
  injection h with h1 h2
  exact h2 ▸ pres_fresh c

/-- A successful `new_group` step preserves everything `Pres` tracks. -/
theorem new_group_pres {ks : String → Prop} {c : Converter} {g : Group} {c' : Converter}
    (h : new_group c = .ok (g, c')) : Pres ks c c' := by
  rw [new_group_eq] at h
  injection h with h
  injection h with h1 h2
  exact h2 ▸ pres_fresh c

/-- Inserting a key the frame allows preserves `Pres`. -/
theorem insert_env_pres {ks : String → Prop} {k : String} {v : Src} {c : Converter}
    {u : Unit} {c' : Converter} (hk : ks k) (h : insert_env k v c = .ok (u, c')) :
    Pres ks c c' := by
  rw [insert_env_eq] at h
  injection h with h
  injection h with h1 h2
  exact h2 ▸ pres_insert_env c v hk

/-- A type-environment insertion preserves everything `Pres` tracks. -/
theorem insert_type_env_pres {ks : String → Prop} {k : String} {ty : Ty} {c : Converter}
    {u : Unit} {c' : Converter} (h : insert_type_env k ty c = .ok (u, c')) :
    Pres ks c c' := by
  rw [insert_type_env_eq] at h
  injection h with h
  injection h with h1 h2
  exact h2 ▸ pres_insert_type_env c k ty

/-- A `Conv.pure` step leaves the state unchanged. -/
theorem conv_pure_pres {ks : String → Prop} {α : Type} {a b : α} {c c' : Converter}
    (h : Conv.pure a c = .ok (b, c')) : Pres ks c c' :=
  Pres.of_eq (Conv.pure_ok.1 h).2

/-- The argument-source loop of the `Call` arm only reads the state. -/
theorem srcs_of_vars_state : ∀ {vs : List String} {c : Converter} {ss : List Src}
    {c' : Converter}, srcs_of_vars vs c = .ok (ss, c') → c' = c := by
  intro vs
  induction vs with
  | nil =>
    intro c ss c' h
    exact (Conv.pure_ok.1 h).2
  | cons v rest ih =>
    intro c ss c' h
    simp only [srcs_of_vars, bind_eq] at h
    rw [Conv.bind_ok] at h
    obtain ⟨s, c1, hf, h⟩ := h
    obtain ⟨_, hc1⟩ := find_src_ok hf
    rw [hc1] at h
    rw [Conv.bind_ok] at h
    obtain ⟨ss2, c2, hrest, h⟩ := h
    have h2 : c2 = c := ih hrest
    rw [h2] at h
    exact (Conv.pure_ok.1 h).2

/-- The array-port loop of the `Map` arm only reads the state. -/
theorem ports_of_vars_state : ∀ {vs : List String} {c : Converter} {ps : List Port}
    {c' : Converter}, ports_of_vars vs c = .ok (ps, c') → c' = c := by
  intro vs
  induction vs with
  | nil =>
    intro c ps c' h
    exact (Conv.pure_ok.1 h).2
  | cons v rest ih =>
    intro c ps c' h
    simp only [ports_of_vars, bind_eq] at h
    rw [Conv.bind_ok] at h
    obtain ⟨s, c1, hf, h⟩ := h
    obtain ⟨_, hc1⟩ := find_src_ok hf
    rw [hc1] at h
    cases s with
    | port p =>
      dsimp only at h
      rw [Conv.bind_ok] at h
      obtain ⟨ps2, c2, hrest, h⟩ := h
      have h2 : c2 = c := ih hrest
      rw [h2] at h
      exact (Conv.pure_ok.1 h).2
    | int n w =>
      simp [Conv.fail] at h

/-- The `Call` arm's parameter-wiring loop only reads the state. -/
theorem mk_call_arg_wires_state {funName : String} :
    ∀ {ps : List (String × Ty)} {ss : List Src} {c : Converter} {ws : List Wire}
      {c' : Converter}, mk_call_arg_wires funName ps ss c = .ok (ws, c') → c' = c := by
  intro ps
  induction ps with
  | nil =>
    intro ss c ws c' h
    exact (Conv.pure_ok.1 h).2
  | cons p rest ih =>
    intro ss c ws c' h
    cases ss with
    | nil => simp [mk_call_arg_wires, Conv.fail] at h
    | cons s stl =>
      obtain ⟨pname, pty⟩ := p
      simp only [mk_call_arg_wires, bind_eq] at h
      rw [Conv.bind_ok] at h
      obtain ⟨ws2, c1, hrest, h⟩ := h
      have h1 : c1 = c := ih hrest
      subst h1
      exact (Conv.pure_ok.1 h).2

/-- The `Map` arm's pre-closure type-insertion loop preserves everything
`Pres` tracks. -/
theorem insert_arg_types_pres {ks : String → Prop} :
    ∀ {args : List String} {w : Nat} {c : Converter} {u : Unit} {c' : Converter},
      insert_arg_types args w c = .ok (u, c') → Pres ks c c' := by
  intro args
  induction args with
  | nil =>
    intro w c u c' h
    exact conv_pure_pres h
  | cons a rest ih =>
    intro w c u c' h
    simp only [insert_arg_types, bind_eq] at h
    rw [Conv.bind_ok] at h
    obtain ⟨u1, c1, hins, h⟩ := h
    exact (insert_type_env_pres hins).trans (ih h)

/-- The `Map` arm's argument-register loop preserves `Pres` when the frame
covers the lambda parameters and the generator temporaries. -/
theorem mk_arg_regs_pres {ks : String → Prop} :
    ∀ {args : List String} {w : Nat} {c : Converter} {cs : List Cell} {c' : Converter},
      (∀ a ∈ args, ks a) → (∀ x, isTmpName x → ks x) →
      mk_arg_regs args w c = .ok (cs, c') → Pres ks c c' := by
  intro args
  induction args with
  | nil =>
    intro w c cs c' _ _ h
    exact conv_pure_pres h
  | cons a rest ih =>
    intro w c cs c' hargs htmp h
    simp only [mk_arg_regs, bind_eq] at h
    rw [Conv.bind_ok] at h
    obtain ⟨name, c1, hfresh, h⟩ := h
    have hn : name = tmpName c.fresh_idx := by
      rw [fresh_name_eq] at hfresh
      injection hfresh with hfresh
      exact (congrArg Prod.fst hfresh).symm
    rw [Conv.bind_ok] at h
    obtain ⟨u1, c2, hpush, h⟩ := h
    rw [Conv.bind_ok] at h
    obtain ⟨u2, c3, hins, h⟩ := h
    rw [Conv.bind_ok] at h
    obtain ⟨cs2, c4, hrest, h⟩ := h
    refine ((fresh_name_pres hfresh).trans ((push_cell_pres hpush).trans
      (((insert_env_pres (hargs a (by simp)) hins).trans
        ((ih (fun x hx => hargs x (by simp [hx])) htmp hrest).trans
          (conv_pure_pres h))))))

/-- The `Map` arm's load-argument-group loop preserves everything `Pres`
tracks. -/
theorem mk_init_args_groups_pres {ks : String → Prop} {crName : String} :
    ∀ {rs : List Cell} {ps : List Port} {c : Converter} {gs : List String}
      {c' : Converter}, mk_init_args_groups crName ps rs c = .ok (gs, c') →
      Pres ks c c' := by
  intro rs
  induction rs with
  | nil =>
    intro ps c gs c' h
    cases ps with
    | nil => exact conv_pure_pres h
    | cons p ptl => exact conv_pure_pres h
  | cons r rtl ih =>
    intro ps c gs c' h
    cases ps with
    | nil => simp [mk_init_args_groups, Conv.fail] at h
    | cons p ptl =>
      simp only [mk_init_args_groups, bind_eq] at h
      rw [Conv.bind_ok] at h
      obtain ⟨g, c1, hng, h⟩ := h
      rw [Conv.bind_ok] at h
      obtain ⟨u1, c2, hpg, h⟩ := h
      rw [Conv.bind_ok] at h
      obtain ⟨rest, c3, hrest, h⟩ := h
      exact (new_group_pres hng).trans ((push_group_pres hpg).trans
        ((ih hrest).trans (conv_pure_pres h)))

end HLS
namespace HLS

/-- `read_type_env` only reads the state. -/
theorem read_type_env_ok {k : String} {c : Converter} {t : Option Ty} {c' : Converter}
    (h : read_type_env k c = .ok (t, c')) : c' = c ∧ t = lookupA c.type_env k := by
  rw [read_type_env_eq] at h
  injection h with h
  injection h with h1 h2
  exact ⟨h2.symm, h1.symm⟩

/-- `read_fun_type_env` only reads the state. -/
theorem read_fun_type_env_ok {k : String} {c : Converter}
    {t : Option (List (String × Ty) × Option Ty)} {c' : Converter}
    (h : read_fun_type_env k c = .ok (t, c')) :
    c' = c ∧ t = lookupA c.fun_type_env k := by
  rw [read_fun_type_env_eq] at h
  injection h with h
  injection h with h1 h2
  exact ⟨h2.symm, h1.symm⟩

/-- The fresh name returned by a successful `fresh_name` step. -/
theorem fresh_name_ok {c : Converter} {n : String} {c' : Converter}
    (h : fresh_name c = .ok (n, c')) :
    n = tmpName c.fresh_idx ∧ c' = { c with fresh_idx := c.fresh_idx + 1 } := by
  rw [fresh_name_eq] at h
  injection h with h
  injection h with h1 h2
  exact ⟨h1.symm, h2.symm⟩

/-- The group name returned by a successful `new_group` step. -/
theorem new_group_ok {c : Converter} {g : Group} {c' : Converter}
    (h : new_group c = .ok (g, c')) :
    g = ⟨grpName c.fresh_idx, none, []⟩ ∧
    c' = { c with fresh_idx := c.fresh_idx + 1 } := by
  rw [new_group_eq] at h
  injection h with h
  injection h with h1 h2
  exact ⟨h1.symm, h2.symm⟩

set_option maxHeartbeats 3200000

set_option maxRecDepth 8000

mutual

/-- A successful lowering of a base expression preserves the current-function
marker, all environment bindings outside its writable keys, and the groups
and cells already in the current component. -/
theorem convert_base_expr_pres (e : ABase) (dst : Option String) (c c' : Converter)
    (ctl : Control) (h : convert_base_expr e dst c = .ok (ctl, c')) :
    Pres (wkeysB e dst) c c' := by
  cases e with
  | int n =>
    cases dst with
    | none =>
      simp only [convert_base_expr, bind_eq] at h
      rw [Conv.bind_ok] at h
      obtain ⟨u, c1, hp, h⟩ := h
      exact (conv_pure_pres hp).trans (conv_pure_pres h)
    | some d =>
      simp only [convert_base_expr, bind_eq] at h
      rw [Conv.bind_ok] at h
      obtain ⟨u, c1, hins, h⟩ := h
      exact (insert_env_pres (Or.inr (Or.inl ⟨d, rfl, rfl⟩)) hins).trans (conv_pure_pres h)
  | bool b =>
    cases dst with
    | none =>
      simp only [convert_base_expr, bind_eq] at h
      rw [Conv.bind_ok] at h
      obtain ⟨u, c1, hp, h⟩ := h
      exact (conv_pure_pres hp).trans (conv_pure_pres h)
    | some d =>
      simp only [convert_base_expr, bind_eq] at h
      rw [Conv.bind_ok] at h
      obtain ⟨u, c1, hins, h⟩ := h
      exact (insert_env_pres (Or.inr (Or.inl ⟨d, rfl, rfl⟩)) hins).trans (conv_pure_pres h)
  | var v =>
    cases dst with
    | none =>
      simp only [convert_base_expr, bind_eq] at h
      rw [Conv.bind_ok] at h
      obtain ⟨src, c1, hf, h⟩ := h
      obtain ⟨_, hc1⟩ := find_src_ok hf
      rw [hc1] at h
      rw [Conv.bind_ok] at h
      obtain ⟨u, c2, hp, h⟩ := h
      exact (conv_pure_pres hp).trans (conv_pure_pres h)
    | some d =>
      simp only [convert_base_expr, bind_eq] at h
      rw [Conv.bind_ok] at h
      obtain ⟨src, c1, hf, h⟩ := h
      obtain ⟨_, hc1⟩ := find_src_ok hf
      rw [hc1] at h
      rw [Conv.bind_ok] at h
      obtain ⟨u, c2, hins, h⟩ := h
      exact (insert_env_pres (Or.inr (Or.inl ⟨d, rfl, rfl⟩)) hins).trans (conv_pure_pres h)
  | add v1 v2 =>
    simp only [convert_base_expr, bind_eq] at h
    rw [Conv.bind_ok] at h
    obtain ⟨s1, c1, hf1, h⟩ := h
    obtain ⟨_, hc1⟩ := find_src_ok hf1
    rw [hc1] at h
    rw [Conv.bind_ok] at h
    obtain ⟨s2, c2, hf2, h⟩ := h
    obtain ⟨_, hc2⟩ := find_src_ok hf2
    rw [hc2] at h
    cases dst with
    | none =>
      (try dsimp only at h)
      exact conv_pure_pres h
    | some d =>
      (try dsimp only at h)
      rw [Conv.bind_ok] at h
      obtain ⟨name, c3, hfr, h⟩ := h
      rw [Conv.bind_ok] at h
      obtain ⟨u1, c4, hpc, h⟩ := h
      rw [Conv.bind_ok] at h
      obtain ⟨u2, c5, hw1, h⟩ := h
      rw [Conv.bind_ok] at h
      obtain ⟨u3, c6, hw2, h⟩ := h
      rw [Conv.bind_ok] at h
      obtain ⟨u4, c7, hins, h⟩ := h
      exact (fresh_name_pres hfr).trans ((push_cell_pres hpc).trans
        ((push_static_wire_pres hw1).trans ((push_static_wire_pres hw2).trans
          ((insert_env_pres (Or.inr (Or.inl ⟨d, rfl, rfl⟩)) hins).trans
            (conv_pure_pres h)))))
  | mul v1 v2 =>
    simp only [convert_base_expr, bind_eq] at h
    rw [Conv.bind_ok] at h
    obtain ⟨s1, c1, hf1, h⟩ := h
    obtain ⟨_, hc1⟩ := find_src_ok hf1
    rw [hc1] at h
    rw [Conv.bind_ok] at h
    obtain ⟨s2, c2, hf2, h⟩ := h
    obtain ⟨_, hc2⟩ := find_src_ok hf2
    rw [hc2] at h
    cases dst with
    | none =>
      (try dsimp only at h)
      exact conv_pure_pres h
    | some d =>
      (try dsimp only at h)
      rw [Conv.bind_ok] at h
      obtain ⟨mc, c3, hmc, h⟩ := h
      rw [Conv.bind_ok] at h
      obtain ⟨u1, c4, hins, h⟩ := h
      rw [Conv.bind_ok] at h
      obtain ⟨u2, c5, hpc, h⟩ := h
      rw [Conv.bind_ok] at h
      obtain ⟨g, c6, hng, h⟩ := h
      rw [Conv.bind_ok] at h
      obtain ⟨u3, c7, hpg, h⟩ := h
      obtain ⟨_, _, _, _, _, hmcp⟩ := get_mult_cell_current_ok hmc
      refine (hmcp.mono (fun x hx => absurd hx id)).trans ?_
      exact ((insert_env_pres (Or.inr (Or.inl ⟨d, rfl, rfl⟩)) hins).trans
        ((push_cell_pres hpc).trans ((new_group_pres hng).trans
          ((push_group_pres hpg).trans (conv_pure_pres h)))))
  | newArray ty n =>
    simp only [convert_base_expr] at h
    simp [Conv.fail] at h
  | map vars args body =>
    cases vars with
    | nil =>
      simp only [convert_base_expr] at h
      simp [bind_eq, Conv.bind, Conv.fail] at h
    | cons v vtl =>
      simp only [convert_base_expr, bind_eq] at h
      rw [Conv.bind_ok] at h
      obtain ⟨v0, c1, hv0, h⟩ := h
      obtain ⟨_, hc1⟩ := Conv.pure_ok.1 hv0
      rw [hc1] at h
      rw [Conv.bind_ok] at h
      obtain ⟨t, c2, hrt, h⟩ := h
      obtain ⟨hc2, _⟩ := read_type_env_ok hrt
      rw [hc2] at h
      cases t with
      | none => simp [bind_eq, Conv.bind, Conv.fail] at h
      | some ty =>
        cases ty with
        | i w => simp [bind_eq, Conv.bind, Conv.fail] at h
        | array elt len =>
          cases elt with
          | array a b => simp [bind_eq, Conv.bind, Conv.fail] at h
          | i w =>
            (try dsimp only at h)
            rw [Conv.bind_ok] at h
            obtain ⟨wn, c3, hwn, h⟩ := h
            obtain ⟨_, hc3⟩ := Conv.pure_ok.1 hwn
            rw [hc3] at h
            rw [Conv.bind_ok] at h
            obtain ⟨ports, c4, hports, h⟩ := h
            rw [ports_of_vars_state hports] at h
            rw [Conv.bind_ok] at h
            obtain ⟨u1, c5, hiat, h⟩ := h
            rw [Conv.bind_ok] at h
            obtain ⟨ac, c6, hac, h⟩ := h
            rw [Conv.bind_ok] at h
            obtain ⟨nvName, c7, hfr1, h⟩ := h
            rw [Conv.bind_ok] at h
            obtain ⟨u2, c8, hpc1, h⟩ := h
            rw [Conv.bind_ok] at h
            obtain ⟨crName, c9, hfr2, h⟩ := h
            rw [Conv.bind_ok] at h
            obtain ⟨u3, c10, hpc2, h⟩ := h
            rw [Conv.bind_ok] at h
            obtain ⟨arg_regs, c11, hmar, h⟩ := h
            rw [Conv.bind_ok] at h
            obtain ⟨ltName, c12, hfr3, h⟩ := h
            rw [Conv.bind_ok] at h
            obtain ⟨u4, c13, hpc3, h⟩ := h
            cases dst with
            | none =>
              (try dsimp only at h)
              rw [Conv.bind_ok] at h
              obtain ⟨u5, c14, hdst, h⟩ := h
              rw [Conv.bind_ok] at h
              obtain ⟨g1, c15, hng1, h⟩ := h
              rw [Conv.bind_ok] at h
              obtain ⟨u6, c16, hpg1, h⟩ := h
              rw [Conv.bind_ok] at h
              obtain ⟨gcg, c17, hng2, h⟩ := h
              rw [Conv.bind_ok] at h
              obtain ⟨u7, c18, hpg2, h⟩ := h
              rw [Conv.bind_ok] at h
              obtain ⟨initArgGroups, c19, hmig, h⟩ := h
              rw [Conv.bind_ok] at h
              obtain ⟨result_var, c20, hfr4, h⟩ := h
              rw [Conv.bind_ok] at h
              obtain ⟨body_control, c21, hbody, h⟩ := h
              rw [Conv.bind_ok] at h
              obtain ⟨result, c22, hmrv, h⟩ := h
              obtain ⟨_, hc22⟩ := match_result_var_ok hmrv
              rw [hc22] at h
              rw [Conv.bind_ok] at h
              obtain ⟨gr, c23, hng3, h⟩ := h
              rw [Conv.bind_ok] at h
              obtain ⟨u8, c24, hpg3, h⟩ := h
              rw [Conv.bind_ok] at h
              obtain ⟨gi, c25, hng4, h⟩ := h
              rw [Conv.bind_ok] at h
              obtain ⟨u9, c26, hpg4, h⟩ := h
              have hrv : isTmpName result_var := ⟨c19.fresh_idx, (fresh_name_ok hfr4).1⟩
              have hbp : Pres (wkeysB (.map (v :: vtl) args body) none) c20 c21 := by
                refine (convert_expr_pres body (some result_var) c20 c21 body_control hbody).mono ?_
                intro x hx
                rcases hx with he | ⟨dd, hdd, hxd⟩ | htmp
                · exact Or.inl (by simp [envKeysB, he])
                · injection hdd with hdd
                  rw [hxd, ← hdd]
                  exact Or.inr (Or.inr hrv)
                · exact Or.inr (Or.inr htmp)
              have hdstp : Pres (wkeysB (.map (v :: vtl) args body) none) c13 c14 :=
                conv_pure_pres hdst
              refine (insert_arg_types_pres hiat).trans ?_
              obtain ⟨_, _, _, _, _, hacp⟩ := get_add_cell_current_ok hac
              refine (hacp.mono (fun x hx => absurd hx id)).trans ?_
              refine (fresh_name_pres hfr1).trans ?_
              refine (push_cell_pres hpc1).trans ?_
              refine (fresh_name_pres hfr2).trans ?_
              refine (push_cell_pres hpc2).trans ?_
              refine (mk_arg_regs_pres (fun a ha => Or.inl (by simp [envKeysB, ha]))
                (fun x hx => Or.inr (Or.inr hx)) hmar).trans ?_
              refine (fresh_name_pres hfr3).trans ?_
              refine (push_cell_pres hpc3).trans ?_
              refine hdstp.trans ?_
              refine (new_group_pres hng1).trans ?_
              refine (push_group_pres hpg1).trans ?_
              refine (new_group_pres hng2).trans ?_
              refine (push_group_pres hpg2).trans ?_
              refine (mk_init_args_groups_pres hmig).trans ?_
              refine (fresh_name_pres hfr4).trans ?_
              refine hbp.trans ?_
              refine (new_group_pres hng3).trans ?_
              refine (push_group_pres hpg3).trans ?_
              refine (new_group_pres hng4).trans ?_
              refine (push_group_pres hpg4).trans ?_
              exact conv_pure_pres h
            | some d =>
              (try dsimp only at h)
              rw [Conv.bind_ok] at h
              obtain ⟨u5, c14, hdst, h⟩ := h
              rw [Conv.bind_ok] at h
              obtain ⟨g1, c15, hng1, h⟩ := h
              rw [Conv.bind_ok] at h
              obtain ⟨u6, c16, hpg1, h⟩ := h
              rw [Conv.bind_ok] at h
              obtain ⟨gcg, c17, hng2, h⟩ := h
              rw [Conv.bind_ok] at h
              obtain ⟨u7, c18, hpg2, h⟩ := h
              rw [Conv.bind_ok] at h
              obtain ⟨initArgGroups, c19, hmig, h⟩ := h
              rw [Conv.bind_ok] at h
              obtain ⟨result_var, c20, hfr4, h⟩ := h
              rw [Conv.bind_ok] at h
              obtain ⟨body_control, c21, hbody, h⟩ := h
              rw [Conv.bind_ok] at h
              obtain ⟨result, c22, hmrv, h⟩ := h
              obtain ⟨_, hc22⟩ := match_result_var_ok hmrv
              rw [hc22] at h
              rw [Conv.bind_ok] at h
              obtain ⟨gr, c23, hng3, h⟩ := h
              rw [Conv.bind_ok] at h
              obtain ⟨u8, c24, hpg3, h⟩ := h
              rw [Conv.bind_ok] at h
              obtain ⟨gi, c25, hng4, h⟩ := h
              rw [Conv.bind_ok] at h
              obtain ⟨u9, c26, hpg4, h⟩ := h
              have hrv : isTmpName result_var := ⟨c19.fresh_idx, (fresh_name_ok hfr4).1⟩
              have hbp : Pres (wkeysB (.map (v :: vtl) args body) (some d)) c20 c21 := by
                refine (convert_expr_pres body (some result_var) c20 c21 body_control hbody).mono ?_
                intro x hx
                rcases hx with he | ⟨dd, hdd, hxd⟩ | htmp
                · exact Or.inl (by simp [envKeysB, he])
                · injection hdd with hdd
                  rw [hxd, ← hdd]
                  exact Or.inr (Or.inr hrv)
                · exact Or.inr (Or.inr htmp)
              have hdstp : Pres (wkeysB (.map (v :: vtl) args body) (some d)) c13 c14 :=
                insert_env_pres (Or.inr (Or.inl ⟨d, rfl, rfl⟩)) hdst
              refine (insert_arg_types_pres hiat).trans ?_
              obtain ⟨_, _, _, _, _, hacp⟩ := get_add_cell_current_ok hac
              refine (hacp.mono (fun x hx => absurd hx id)).trans ?_
              refine (fresh_name_pres hfr1).trans ?_
              refine (push_cell_pres hpc1).trans ?_
              refine (fresh_name_pres hfr2).trans ?_
              refine (push_cell_pres hpc2).trans ?_
              refine (mk_arg_regs_pres (fun a ha => Or.inl (by simp [envKeysB, ha]))
                (fun x hx => Or.inr (Or.inr hx)) hmar).trans ?_
              refine (fresh_name_pres hfr3).trans ?_
              refine (push_cell_pres hpc3).trans ?_
              refine hdstp.trans ?_
              refine (new_group_pres hng1).trans ?_
              refine (push_group_pres hpg1).trans ?_
              refine (new_group_pres hng2).trans ?_
              refine (push_group_pres hpg2).trans ?_
              refine (mk_init_args_groups_pres hmig).trans ?_
              refine (fresh_name_pres hfr4).trans ?_
              refine hbp.trans ?_
              refine (new_group_pres hng3).trans ?_
              refine (push_group_pres hpg3).trans ?_
              refine (new_group_pres hng4).trans ?_
              refine (push_group_pres hpg4).trans ?_
              exact conv_pure_pres h
  | reduce array iv acm arg body =>
    simp only [convert_base_expr, bind_eq] at h
    rw [Conv.bind_ok] at h
    obtain ⟨t, c1, hrt, h⟩ := h
    obtain ⟨hc1, _⟩ := read_type_env_ok hrt
    rw [hc1] at h
    cases t with
    | none => simp [bind_eq, Conv.bind, Conv.fail] at h
    | some ty =>
      cases ty with
      | i w => simp [bind_eq, Conv.bind, Conv.fail] at h
      | array elt len =>
        cases elt with
        | array a b => simp [bind_eq, Conv.bind, Conv.fail] at h
        | i w =>
          (try dsimp only at h)
          rw [Conv.bind_ok] at h
          obtain ⟨wn, c2, hwn, h⟩ := h
          obtain ⟨_, hc2⟩ := Conv.pure_ok.1 hwn
          rw [hc2] at h
          rw [Conv.bind_ok] at h
          obtain ⟨s, c3, hfa, h⟩ := h
          obtain ⟨_, hc3⟩ := find_src_ok hfa
          rw [hc3] at h
          cases s with
          | int nv wv => simp [bind_eq, Conv.bind, Conv.fail] at h
          | port p =>
            (try dsimp only at h)
            rw [Conv.bind_ok] at h
            obtain ⟨arrayPort, c4, hap, h⟩ := h
            obtain ⟨_, hc4⟩ := Conv.pure_ok.1 hap
            rw [hc4] at h
            rw [Conv.bind_ok] at h
            obtain ⟨init_src, c5, hfi, h⟩ := h
            obtain ⟨_, hc5⟩ := find_src_ok hfi
            rw [hc5] at h
            rw [Conv.bind_ok] at h
            obtain ⟨u1, c6, hit1, h⟩ := h
            rw [Conv.bind_ok] at h
            obtain ⟨u2, c7, hit2, h⟩ := h
            rw [Conv.bind_ok] at h
            obtain ⟨ac, c8, hac, h⟩ := h
            rw [Conv.bind_ok] at h
            obtain ⟨acmName, c9, hfr1, h⟩ := h
            rw [Conv.bind_ok] at h
            obtain ⟨u3, c10, hia, h⟩ := h
            cases dst with
            | none =>
              (try dsimp only at h)
              rw [Conv.bind_ok] at h
              obtain ⟨u4, c11, hdst, h⟩ := h
              rw [Conv.bind_ok] at h
              obtain ⟨crName, c12, hfr2, h⟩ := h
              rw [Conv.bind_ok] at h
              obtain ⟨argName, c13, hfr3, h⟩ := h
              rw [Conv.bind_ok] at h
              obtain ⟨u5, c14, hia2, h⟩ := h
              rw [Conv.bind_ok] at h
              obtain ⟨ltName, c15, hfr4, h⟩ := h
              rw [Conv.bind_ok] at h
              obtain ⟨g1, c16, hng1, h⟩ := h
              rw [Conv.bind_ok] at h
              obtain ⟨g2, c17, hng2, h⟩ := h
              rw [Conv.bind_ok] at h
              obtain ⟨u6, c18, hpg1, h⟩ := h
              rw [Conv.bind_ok] at h
              obtain ⟨u7, c19, hpg2, h⟩ := h
              rw [Conv.bind_ok] at h
              obtain ⟨gcg, c20, hng3, h⟩ := h
              rw [Conv.bind_ok] at h
              obtain ⟨u8, c21, hpg3, h⟩ := h
              rw [Conv.bind_ok] at h
              obtain ⟨grg, c22, hng4, h⟩ := h
              rw [Conv.bind_ok] at h
              obtain ⟨result_var, c23, hfr5, h⟩ := h
              rw [Conv.bind_ok] at h
              obtain ⟨u9, c24, hit3, h⟩ := h
              rw [Conv.bind_ok] at h
              obtain ⟨body_group, c25, hbody, h⟩ := h
              rw [Conv.bind_ok] at h
              obtain ⟨result, c26, hmrv, h⟩ := h
              obtain ⟨_, hc26⟩ := match_result_var_ok hmrv
              rw [hc26] at h
              rw [Conv.bind_ok] at h
              obtain ⟨gres, c27, hng5, h⟩ := h
              rw [Conv.bind_ok] at h
              obtain ⟨ginc, c28, hng6, h⟩ := h
              rw [Conv.bind_ok] at h
              obtain ⟨u10, c29, hpg4, h⟩ := h
              rw [Conv.bind_ok] at h
              obtain ⟨u11, c30, hpg5, h⟩ := h
              rw [Conv.bind_ok] at h
              obtain ⟨u12, c31, hpg6, h⟩ := h
              rw [Conv.bind_ok] at h
              obtain ⟨u13, c32, hpcl1, h⟩ := h
              rw [Conv.bind_ok] at h
              obtain ⟨u14, c33, hpcl2, h⟩ := h
              rw [Conv.bind_ok] at h
              obtain ⟨u15, c34, hpcl3, h⟩ := h
              rw [Conv.bind_ok] at h
              obtain ⟨u16, c35, hpcl4, h⟩ := h
              have hrv : isTmpName result_var := ⟨c22.fresh_idx, (fresh_name_ok hfr5).1⟩
              have hbp : Pres (wkeysB (.reduce array iv acm arg body) none) c24 c25 := by
                refine (convert_expr_pres body (some result_var) c24 c25 body_group hbody).mono ?_
                intro x hx
                rcases hx with he | ⟨dd, hdd, hxd⟩ | htmp
                · exact Or.inl (by simp [envKeysB, he])
                · injection hdd with hdd
                  rw [hxd, ← hdd]
                  exact Or.inr (Or.inr hrv)
                · exact Or.inr (Or.inr htmp)
              have hdstp : Pres (wkeysB (.reduce array iv acm arg body) none) c10 c11 :=
                conv_pure_pres hdst
              refine (insert_type_env_pres hit1).trans ?_
              refine (insert_type_env_pres hit2).trans ?_
              obtain ⟨_, _, _, _, _, hacp⟩ := get_add_cell_current_ok hac
              refine (hacp.mono (fun x hx => absurd hx id)).trans ?_
              refine (fresh_name_pres hfr1).trans ?_
              refine (insert_env_pres (Or.inl (by simp [envKeysB])) hia).trans ?_
              refine hdstp.trans ?_
              refine (fresh_name_pres hfr2).trans ?_
              refine (fresh_name_pres hfr3).trans ?_
              refine (insert_env_pres (Or.inl (by simp [envKeysB])) hia2).trans ?_
              refine (fresh_name_pres hfr4).trans ?_
              refine (new_group_pres hng1).trans ?_
              refine (new_group_pres hng2).trans ?_
              refine (push_group_pres hpg1).trans ?_
              refine (push_group_pres hpg2).trans ?_
              refine (new_group_pres hng3).trans ?_
              refine (push_group_pres hpg3).trans ?_
              refine (new_group_pres hng4).trans ?_
              refine (fresh_name_pres hfr5).trans ?_
              refine (insert_type_env_pres hit3).trans ?_
              refine hbp.trans ?_
              refine (new_group_pres hng5).trans ?_
              refine (new_group_pres hng6).trans ?_
              refine (push_group_pres hpg4).trans ?_
              refine (push_group_pres hpg5).trans ?_
              refine (push_group_pres hpg6).trans ?_
              refine (push_cell_pres hpcl1).trans ?_
              refine (push_cell_pres hpcl2).trans ?_
              refine (push_cell_pres hpcl3).trans ?_
              refine (push_cell_pres hpcl4).trans ?_
              exact conv_pure_pres h
            | some d =>
              (try dsimp only at h)
              rw [Conv.bind_ok] at h
              obtain ⟨u4, c11, hdst, h⟩ := h
              rw [Conv.bind_ok] at h
              obtain ⟨crName, c12, hfr2, h⟩ := h
              rw [Conv.bind_ok] at h
              obtain ⟨argName, c13, hfr3, h⟩ := h
              rw [Conv.bind_ok] at h
              obtain ⟨u5, c14, hia2, h⟩ := h
              rw [Conv.bind_ok] at h
              obtain ⟨ltName, c15, hfr4, h⟩ := h
              rw [Conv.bind_ok] at h
              obtain ⟨g1, c16, hng1, h⟩ := h
              rw [Conv.bind_ok] at h
              obtain ⟨g2, c17, hng2, h⟩ := h
              rw [Conv.bind_ok] at h
              obtain ⟨u6, c18, hpg1, h⟩ := h
              rw [Conv.bind_ok] at h
              obtain ⟨u7, c19, hpg2, h⟩ := h
              rw [Conv.bind_ok] at h
              obtain ⟨gcg, c20, hng3, h⟩ := h
              rw [Conv.bind_ok] at h
              obtain ⟨u8, c21, hpg3, h⟩ := h
              rw [Conv.bind_ok] at h
              obtain ⟨grg, c22, hng4, h⟩ := h
              rw [Conv.bind_ok] at h
              obtain ⟨result_var, c23, hfr5, h⟩ := h
              rw [Conv.bind_ok] at h
              obtain ⟨u9, c24, hit3, h⟩ := h
              rw [Conv.bind_ok] at h
              obtain ⟨body_group, c25, hbody, h⟩ := h
              rw [Conv.bind_ok] at h
              obtain ⟨result, c26, hmrv, h⟩ := h
              obtain ⟨_, hc26⟩ := match_result_var_ok hmrv
              rw [hc26] at h
              rw [Conv.bind_ok] at h
              obtain ⟨gres, c27, hng5, h⟩ := h
              rw [Conv.bind_ok] at h
              obtain ⟨ginc, c28, hng6, h⟩ := h
              rw [Conv.bind_ok] at h
              obtain ⟨u10, c29, hpg4, h⟩ := h
              rw [Conv.bind_ok] at h
              obtain ⟨u11, c30, hpg5, h⟩ := h
              rw [Conv.bind_ok] at h
              obtain ⟨u12, c31, hpg6, h⟩ := h
              rw [Conv.bind_ok] at h
              obtain ⟨u13, c32, hpcl1, h⟩ := h
              rw [Conv.bind_ok] at h
              obtain ⟨u14, c33, hpcl2, h⟩ := h
              rw [Conv.bind_ok] at h
              obtain ⟨u15, c34, hpcl3, h⟩ := h
              rw [Conv.bind_ok] at h
              obtain ⟨u16, c35, hpcl4, h⟩ := h
              have hrv : isTmpName result_var := ⟨c22.fresh_idx, (fresh_name_ok hfr5).1⟩
              have hbp : Pres (wkeysB (.reduce array iv acm arg body) (some d)) c24 c25 := by
                refine (convert_expr_pres body (some result_var) c24 c25 body_group hbody).mono ?_
                intro x hx
                rcases hx with he | ⟨dd, hdd, hxd⟩ | htmp
                · exact Or.inl (by simp [envKeysB, he])
                · injection hdd with hdd
                  rw [hxd, ← hdd]
                  exact Or.inr (Or.inr hrv)
                · exact Or.inr (Or.inr htmp)
              have hdstp : Pres (wkeysB (.reduce array iv acm arg body) (some d)) c10 c11 :=
                insert_env_pres (Or.inr (Or.inl ⟨d, rfl, rfl⟩)) hdst
              refine (insert_type_env_pres hit1).trans ?_
              refine (insert_type_env_pres hit2).trans ?_
              obtain ⟨_, _, _, _, _, hacp⟩ := get_add_cell_current_ok hac
              refine (hacp.mono (fun x hx => absurd hx id)).trans ?_
              refine (fresh_name_pres hfr1).trans ?_
              refine (insert_env_pres (Or.inl (by simp [envKeysB])) hia).trans ?_
              refine hdstp.trans ?_
              refine (fresh_name_pres hfr2).trans ?_
              refine (fresh_name_pres hfr3).trans ?_
              refine (insert_env_pres (Or.inl (by simp [envKeysB])) hia2).trans ?_
              refine (fresh_name_pres hfr4).trans ?_
              refine (new_group_pres hng1).trans ?_
              refine (new_group_pres hng2).trans ?_
              refine (push_group_pres hpg1).trans ?_
              refine (push_group_pres hpg2).trans ?_
              refine (new_group_pres hng3).trans ?_
              refine (push_group_pres hpg3).trans ?_
              refine (new_group_pres hng4).trans ?_
              refine (fresh_name_pres hfr5).trans ?_
              refine (insert_type_env_pres hit3).trans ?_
              refine hbp.trans ?_
              refine (new_group_pres hng5).trans ?_
              refine (new_group_pres hng6).trans ?_
              refine (push_group_pres hpg4).trans ?_
              refine (push_group_pres hpg5).trans ?_
              refine (push_group_pres hpg6).trans ?_
              refine (push_cell_pres hpcl1).trans ?_
              refine (push_cell_pres hpcl2).trans ?_
              refine (push_cell_pres hpcl3).trans ?_
              refine (push_cell_pres hpcl4).trans ?_
              exact conv_pure_pres h
  | call fname args =>
    simp only [convert_base_expr, bind_eq] at h
    rw [Conv.bind_ok] at h
    obtain ⟨argSrcs, c1, hsv, h⟩ := h
    rw [srcs_of_vars_state hsv] at h
    rw [Conv.bind_ok] at h
    obtain ⟨ft, c2, hft, h⟩ := h
    obtain ⟨hc2, _⟩ := read_fun_type_env_ok hft
    rw [hc2] at h
    cases ft with
    | none => simp [bind_eq, Conv.bind, Conv.fail] at h
    | some sg =>
      (try dsimp only at h)
      rw [Conv.bind_ok] at h
      obtain ⟨sig, c3, hsig, h⟩ := h
      obtain ⟨_, hc3⟩ := Conv.pure_ok.1 hsig
      rw [hc3] at h
      by_cases hcond : (sig.1.any (fun p => p.2.isArrayTy) ||
          (match sig.2 with | some ty => ty.isArrayTy | none => false)) = true
      · rw [if_pos hcond] at h
        simp [Conv.fail] at h
      · rw [if_neg hcond] at h
        rw [Conv.bind_ok] at h
        obtain ⟨funName, c4, hfr, h⟩ := h
        rw [Conv.bind_ok] at h
        obtain ⟨u1, c5, hpc, h⟩ := h
        rw [Conv.bind_ok] at h
        obtain ⟨g, c6, hng, h⟩ := h
        rw [Conv.bind_ok] at h
        obtain ⟨argWires, c7, hmw, h⟩ := h
        rw [mk_call_arg_wires_state hmw] at h
        cases dst with
        | none =>
          (try dsimp only at h)
          rw [Conv.bind_ok] at h
          obtain ⟨u2, c8, hdst, h⟩ := h
          rw [Conv.bind_ok] at h
          obtain ⟨u3, c9, hpg, h⟩ := h
          have hdstp : Pres (wkeysB (.call fname args) none) c6 c8 :=
            conv_pure_pres hdst
          exact (fresh_name_pres hfr).trans ((push_cell_pres hpc).trans
            ((new_group_pres hng).trans (hdstp.trans
              ((push_group_pres hpg).trans (conv_pure_pres h)))))
        | some d =>
          (try dsimp only at h)
          rw [Conv.bind_ok] at h
          obtain ⟨u2, c8, hdst, h⟩ := h
          rw [Conv.bind_ok] at h
          obtain ⟨u3, c9, hpg, h⟩ := h
          have hdstp : Pres (wkeysB (.call fname args) (some d)) c6 c8 :=
            insert_env_pres (Or.inr (Or.inl ⟨d, rfl, rfl⟩)) hdst
          exact (fresh_name_pres hfr).trans ((push_cell_pres hpc).trans
            ((new_group_pres hng).trans (hdstp.trans
              ((push_group_pres hpg).trans (conv_pure_pres h)))))
  | arraySet array idx val =>
    simp only [convert_base_expr, bind_eq] at h
    rw [Conv.bind_ok] at h
    obtain ⟨s, c1, hfa, h⟩ := h
    obtain ⟨_, hc1⟩ := find_src_ok hfa
    rw [hc1] at h
    cases s with
    | int nv wv => simp [bind_eq, Conv.bind, Conv.fail] at h
    | port p =>
      (try dsimp only at h)
      rw [Conv.bind_ok] at h
      obtain ⟨arrayPort, c2, hap, h⟩ := h
      obtain ⟨_, hc2⟩ := Conv.pure_ok.1 hap
      rw [hc2] at h
      rw [Conv.bind_ok] at h
      obtain ⟨index, c3, hfi, h⟩ := h
      obtain ⟨_, hc3⟩ := find_src_ok hfi
      rw [hc3] at h
      rw [Conv.bind_ok] at h
      obtain ⟨value, c4, hfv, h⟩ := h
      obtain ⟨_, hc4⟩ := find_src_ok hfv
      rw [hc4] at h
      rw [Conv.bind_ok] at h
      obtain ⟨g, c5, hng, h⟩ := h
      rw [Conv.bind_ok] at h
      obtain ⟨u1, c6, hpg, h⟩ := h
      cases dst with
      | none =>
        (try dsimp only at h)
        rw [Conv.bind_ok] at h
        obtain ⟨u2, c7, hdst, h⟩ := h
        have hdstp : Pres (wkeysB (.arraySet array idx val) none) c6 c7 :=
          conv_pure_pres hdst
        exact (new_group_pres hng).trans ((push_group_pres hpg).trans
          (hdstp.trans (conv_pure_pres h)))
      | some d =>
        (try dsimp only at h)
        rw [Conv.bind_ok] at h
        obtain ⟨u2, c7, hdst, h⟩ := h
        have hdstp : Pres (wkeysB (.arraySet array idx val) (some d)) c6 c7 :=
          insert_env_pres (Or.inr (Or.inl ⟨d, rfl, rfl⟩)) hdst
        exact (new_group_pres hng).trans ((push_group_pres hpg).trans
          (hdstp.trans (conv_pure_pres h)))
termination_by sizeOf e

/-- A successful lowering of a let binding preserves everything `Pres` tracks
outside its writable keys. -/
theorem convert_let_pres (l : ALet) (c c' : Converter) (ctl : Control)
    (h : convert_let l c = .ok (ctl, c')) : Pres (wkeysLet l) c c' := by
  cases l with
  | bindLet name ty value =>
    simp only [convert_let, bind_eq] at h
    rw [Conv.bind_ok] at h
    obtain ⟨u, c1, hins, h⟩ := h
    refine (insert_type_env_pres hins).trans ?_
    refine (convert_base_expr_pres value (some name) c1 c' ctl h).mono ?_
    intro x hx
    rcases hx with he | ⟨dd, hdd, hxd⟩ | htmp
    · exact Or.inl (by simp [envKeysLet, he])
    · injection hdd with hdd
      rw [hxd, ← hdd]
      exact Or.inl (by simp [envKeysLet])
    · exact Or.inr htmp
  | noBindLet value =>
    simp only [convert_let] at h
    refine (convert_base_expr_pres value none c c' ctl h).mono ?_
    intro x hx
    rcases hx with he | ⟨dd, hdd, hxd⟩ | htmp
    · exact Or.inl (by simp [envKeysLet, he])
    · cases hdd
    · exact Or.inr htmp
termination_by sizeOf l

/-- A successful lowering of a list of let bindings preserves everything
`Pres` tracks outside its writable keys. -/
theorem convert_lets_pres (ls : List ALet) (c c' : Converter) (ctls : List Control)
    (h : convert_lets ls c = .ok (ctls, c')) : Pres (wkeysLets ls) c c' := by
  cases ls with
  | nil =>
    simp only [convert_lets] at h
    exact conv_pure_pres h
  | cons l rest =>
    simp only [convert_lets, bind_eq] at h
    rw [Conv.bind_ok] at h
    obtain ⟨ctl2, c1, hl, h⟩ := h
    rw [Conv.bind_ok] at h
    obtain ⟨others, c2, hrest, h⟩ := h
    refine ((convert_let_pres l c c1 ctl2 hl).mono ?_).trans
      (((convert_lets_pres rest c1 c2 others hrest).mono ?_).trans (conv_pure_pres h))
    · intro x hx
      rcases hx with he | htmp
      · exact Or.inl (by simp [envKeysLets, he])
      · exact Or.inr htmp
    · intro x hx
      rcases hx with he | htmp
      · refine Or.inl ?_
        simp only [envKeysLets, List.mem_append]
        exact Or.inr he
      · exact Or.inr htmp
termination_by sizeOf ls

/-- A successful lowering of an ANF expression preserves everything `Pres`
tracks outside its writable keys. -/
theorem convert_expr_pres (e : AExpr) (out : Option String) (c c' : Converter)
    (ctl : Control) (h : convert_expr e out c = .ok (ctl, c')) :
    Pres (wkeysE e out) c c' := by
  cases e with
  | mk lets body =>
    simp only [convert_expr, bind_eq] at h
    rw [Conv.bind_ok] at h
    obtain ⟨seq1, c1, hls, h⟩ := h
    rw [Conv.bind_ok] at h
    obtain ⟨bctl, c2, hb, h⟩ := h
    refine ((convert_lets_pres lets c c1 seq1 hls).mono ?_).trans
      (((convert_base_expr_pres body out c1 c2 bctl hb).mono ?_).trans (conv_pure_pres h))
    · intro x hx
      rcases hx with he | htmp
      · exact Or.inl (by simp [envKeysE, he])
      · exact Or.inr (Or.inr htmp)
    · intro x hx
      rcases hx with he | hd | htmp
      · refine Or.inl ?_
        simp only [envKeysE, List.mem_append]
        exact Or.inr he
      · exact Or.inr (Or.inl hd)
      · exact Or.inr (Or.inr htmp)
termination_by sizeOf e

end

end HLS
namespace HLS

/-- The state after a successful `insert_env` step. -/
theorem insert_env_state {k : String} {v : Src} {c : Converter} {u : Unit} {c' : Converter}
    (h : insert_env k v c = .ok (u, c')) : c' = { c with env := (k, v) :: c.env } := by
  rw [insert_env_eq] at h
  injection h with h
  injection h with h1 h2
  exact h2.symm

/-- The state after a successful `insert_type_env` step. -/
theorem insert_type_env_state {k : String} {ty : Ty} {c : Converter} {u : Unit}
    {c' : Converter} (h : insert_type_env k ty c = .ok (u, c')) :
    c' = { c with type_env := (k, ty) :: c.type_env } := by
  rw [insert_type_env_eq] at h
  injection h with h
  injection h with h1 h2
  exact h2.symm

set_option maxHeartbeats 3200000

/-- C4 (amended): lowering a `Reduce` with a destination emits a `Par` that
initializes the counter and the accumulator in parallel, then a `While` whose
body is the load group, the lambda body control (when non-empty), the store
group and the increment group; and PROVIDED the destination is not of the
generator's `_tmp_N` form, is not rebound by the lambda body and differs from
the element parameter, it ends bound to the accumulator register's output
port.  Without those provisos the final binding can be shadowed (see the
counterexample): the original claim's unconditional destination-binding
statement is false. -/
theorem c4_reduce_par_while (c c₂ : Converter) (array iv acm arg d : String)
    (body : AExpr) (ctl : Control)
    (hd1 : d ∉ envKeysE body) (hd2 : ¬ isTmpName d) (hd3 : d ≠ arg)
    (h : convert_base_expr (.reduce array iv acm arg body) (some d) c = .ok (ctl, c₂)) :
    ReduceShape c iv d ctl c₂ := by
  simp only [convert_base_expr, bind_eq] at h
  rw [Conv.bind_ok] at h
  obtain ⟨t, c1, hrt, h⟩ := h
  obtain ⟨hc1, _⟩ := read_type_env_ok hrt
  rw [hc1] at h
  cases t with
  | none => simp [bind_eq, Conv.bind, Conv.fail] at h
  | some ty =>
    cases ty with
    | i w => simp [bind_eq, Conv.bind, Conv.fail] at h
    | array elt len =>
      cases elt with
      | array a b => simp [bind_eq, Conv.bind, Conv.fail] at h
      | i w =>
        (try dsimp only at h)
        rw [Conv.bind_ok] at h
        obtain ⟨wn, c2, hwn, h⟩ := h
        obtain ⟨hwneq, hc2⟩ := Conv.pure_ok.1 hwn
        rw [hc2] at h
        rw [Conv.bind_ok] at h
        obtain ⟨s, c3, hfa, h⟩ := h
        obtain ⟨hla, hc3⟩ := find_src_ok hfa
        rw [hc3] at h
        cases s with
        | int nv wv => simp [bind_eq, Conv.bind, Conv.fail] at h
        | port p =>
          (try dsimp only at h)
          rw [Conv.bind_ok] at h
          obtain ⟨arrayPort, c4, hap, h⟩ := h
          obtain ⟨hapq, hc4⟩ := Conv.pure_ok.1 hap
          rw [hc4] at h
          rw [Conv.bind_ok] at h
          obtain ⟨siv, c5, hfi, h⟩ := h
          obtain ⟨hliv, hc5⟩ := find_src_ok hfi
          rw [hc5] at h
          rw [Conv.bind_ok] at h
          obtain ⟨u1, c6, hit1, h⟩ := h
          rw [Conv.bind_ok] at h
          obtain ⟨u2, c7, hit2, h⟩ := h
          rw [Conv.bind_ok] at h
          obtain ⟨add_cell, c8, hac, h⟩ := h
          rw [Conv.bind_ok] at h
          obtain ⟨acmName, c9, hfr1, h⟩ := h
          rw [Conv.bind_ok] at h
          obtain ⟨u3, c10, hia, h⟩ := h
          (try dsimp only at h)
          rw [Conv.bind_ok] at h
          obtain ⟨u4, c11, hdst, h⟩ := h
          rw [Conv.bind_ok] at h
          obtain ⟨crName, c12, hfr2, h⟩ := h
          rw [Conv.bind_ok] at h
          obtain ⟨argName, c13, hfr3, h⟩ := h
          rw [Conv.bind_ok] at h
          obtain ⟨u5, c14, hia2, h⟩ := h
          rw [Conv.bind_ok] at h
          obtain ⟨ltName, c15, hfr4, h⟩ := h
          rw [Conv.bind_ok] at h
          obtain ⟨g1, c16, hng1, h⟩ := h
          rw [Conv.bind_ok] at h
          obtain ⟨g2, c17, hng2, h⟩ := h
          rw [Conv.bind_ok] at h
          obtain ⟨u6, c18, hpg1, h⟩ := h
          rw [Conv.bind_ok] at h
          obtain ⟨u7, c19, hpg2, h⟩ := h
          rw [Conv.bind_ok] at h
          obtain ⟨gcg, c20, hng3, h⟩ := h
          rw [Conv.bind_ok] at h
          obtain ⟨u8, c21, hpg3, h⟩ := h
          rw [Conv.bind_ok] at h
          obtain ⟨grg, c22, hng4, h⟩ := h
          rw [Conv.bind_ok] at h
          obtain ⟨result_var, c23, hfr5, h⟩ := h
          rw [Conv.bind_ok] at h
          obtain ⟨u9, c24, hit3, h⟩ := h
          rw [Conv.bind_ok] at h
          obtain ⟨body_group, c25, hbody, h⟩ := h
          rw [Conv.bind_ok] at h
          obtain ⟨result, c26, hmrv, h⟩ := h
          obtain ⟨_, hc26⟩ := match_result_var_ok hmrv
          rw [hc26] at h
          rw [Conv.bind_ok] at h
          obtain ⟨gres, c27, hng5, h⟩ := h
          rw [Conv.bind_ok] at h
          obtain ⟨ginc, c28, hng6, h⟩ := h
          rw [Conv.bind_ok] at h
          obtain ⟨u10, c29, hpg4, h⟩ := h
          rw [Conv.bind_ok] at h
          obtain ⟨u11, c30, hpg5, h⟩ := h
          rw [Conv.bind_ok] at h
          obtain ⟨u12, c31, hpg6, h⟩ := h
          rw [Conv.bind_ok] at h
          obtain ⟨u13, c32, hpcl1, h⟩ := h
          rw [Conv.bind_ok] at h
          obtain ⟨u14, c33, hpcl2, h⟩ := h
          rw [Conv.bind_ok] at h
          obtain ⟨u15, c34, hpcl3, h⟩ := h
          rw [Conv.bind_ok] at h
          obtain ⟨u16, c35, hpcl4, h⟩ := h
          rw [Conv.pure_ok] at h
          obtain ⟨hctl, hc2fin⟩ := h
          -- state equalities for the deterministic steps
          have hc6 := insert_type_env_state hit1
          have hc7 := insert_type_env_state hit2
          obtain ⟨compT, hgetT, hcellT, hc8, hget8, hpres8⟩ := get_add_cell_current_ok hac
          obtain ⟨hnacm, hc9⟩ := fresh_name_ok hfr1
          have hc10 := insert_env_state hia
          have hc11 := insert_env_state hdst
          obtain ⟨hncr, hc12⟩ := fresh_name_ok hfr2
          obtain ⟨hnarg, hc13⟩ := fresh_name_ok hfr3
          have hc14 := insert_env_state hia2
          obtain ⟨hnlt, hc15⟩ := fresh_name_ok hfr4
          obtain ⟨hg1, hc16⟩ := new_group_ok hng1
          obtain ⟨hg2, hc17⟩ := new_group_ok hng2
          obtain ⟨hgc, hc20⟩ := new_group_ok hng3
          obtain ⟨hgr, hc22⟩ := new_group_ok hng4
          obtain ⟨hnrv, hc23⟩ := fresh_name_ok hfr5
          obtain ⟨hgres, hc27⟩ := new_group_ok hng5
          obtain ⟨hginc, hc28⟩ := new_group_ok hng6
          -- fresh-index bookkeeping
          have hi6 : c6.fresh_idx = c.fresh_idx := by rw [hc6]
          have hi7 : c7.fresh_idx = c.fresh_idx := by rw [hc7, hi6]
          have hi8 : c8.fresh_idx = c.fresh_idx := by rw [hc8, replaceCurrent_fresh, hi7]
          have hi9 : c9.fresh_idx = c.fresh_idx + 1 := by rw [hc9, hi8]
          have hi10 : c10.fresh_idx = c.fresh_idx + 1 := by rw [hc10, hi9]
          have hi11 : c11.fresh_idx = c.fresh_idx + 1 := by rw [hc11, hi10]
          have hi12 : c12.fresh_idx = c.fresh_idx + 2 := by rw [hc12, hi11]
          have hi13 : c13.fresh_idx = c.fresh_idx + 3 := by rw [hc13, hi12]
          have hi14 : c14.fresh_idx = c.fresh_idx + 3 := by rw [hc14, hi13]
          have hi15 : c15.fresh_idx = c.fresh_idx + 4 := by rw [hc15, hi14]
          have hi16 : c16.fresh_idx = c.fresh_idx + 5 := by rw [hc16, hi15]
          have hi17 : c17.fresh_idx = c.fresh_idx + 6 := by rw [hc17, hi16]
          obtain ⟨compA, hgetA, hc18, hget18⟩ := push_group_ok hpg1
          obtain ⟨compB, hgetB, hc19, hget19⟩ := push_group_ok hpg2
          have hi18 : c18.fresh_idx = c.fresh_idx + 6 := by rw [hc18, replaceCurrent_fresh, hi17]
          have hi19 : c19.fresh_idx = c.fresh_idx + 6 := by rw [hc19, replaceCurrent_fresh, hi18]
          have hi20 : c20.fresh_idx = c.fresh_idx + 7 := by rw [hc20, hi19]
          obtain ⟨compC, hgetC, hc21, hget21⟩ := push_group_ok hpg3
          have hi21 : c21.fresh_idx = c.fresh_idx + 7 := by rw [hc21, replaceCurrent_fresh, hi20]
          have hi22 : c22.fresh_idx = c.fresh_idx + 8 := by rw [hc22, hi21]
          have hi23 : c23.fresh_idx = c.fresh_idx + 9 := by rw [hc23, hi22]
          -- resolved names
          have hnacm2 : acmName = tmpName c.fresh_idx := by rw [hnacm, hi8]
          have hncr2 : crName = tmpName (c.fresh_idx + 1) := by rw [hncr, hi11]
          have hnarg2 : argName = tmpName (c.fresh_idx + 2) := by rw [hnarg, hi12]
          have hnlt2 : ltName = tmpName (c.fresh_idx + 3) := by rw [hnlt, hi14]
          have hg1n : g1 = ⟨grpName (c.fresh_idx + 4), none, []⟩ := by rw [hg1, hi15]
          have hg2n : g2 = ⟨grpName (c.fresh_idx + 5), none, []⟩ := by rw [hg2, hi16]
          have hgcn : gcg = ⟨grpName (c.fresh_idx + 6), none, []⟩ := by rw [hgc, hi19]
          have hgrn : grg = ⟨grpName (c.fresh_idx + 7), none, []⟩ := by rw [hgr, hi21]
          have hgresn : gres = ⟨grpName c25.fresh_idx, none, []⟩ := hgres
          have hgincn : ginc = ⟨grpName (c25.fresh_idx + 1), none, []⟩ := by
            rw [hginc, hc27]
          -- suffix preservation from after the two init pushes to the end
          have hrv : isTmpName result_var := ⟨c22.fresh_idx, hnrv⟩
          have hbp : Pres (fun x => x = arg ∨ x ∈ envKeysE body ∨ isTmpName x) c24 c25 := by
            refine (convert_expr_pres body (some result_var) c24 c25 body_group hbody).mono ?_
            intro x hx
            rcases hx with he | ⟨dd, hdd, hxd⟩ | htmp
            · exact Or.inr (Or.inl he)
            · injection hdd with hdd
              rw [hxd, ← hdd]
              exact Or.inr (Or.inr hrv)
            · exact Or.inr (Or.inr htmp)
          have presS : Pres (fun x => x = arg ∨ x ∈ envKeysE body ∨ isTmpName x) c19 c₂ := by
            refine (new_group_pres hng3).trans ((push_group_pres hpg3).trans
              ((new_group_pres hng4).trans ((fresh_name_pres hfr5).trans
                ((insert_type_env_pres hit3).trans (hbp.trans
                  ((new_group_pres hng5).trans
                    ((new_group_pres hng6).trans ((push_group_pres hpg4).trans
                      ((push_group_pres hpg5).trans ((push_group_pres hpg6).trans
                        ((push_cell_pres hpcl1).trans ((push_cell_pres hpcl2).trans
                          ((push_cell_pres hpcl3).trans ((push_cell_pres hpcl4).trans
                            (Pres.of_eq hc2fin)))))))))))))))
          have presD : Pres (fun x => x = arg ∨ x ∈ envKeysE body ∨ isTmpName x) c11 c₂ :=
            (fresh_name_pres hfr2).trans ((fresh_name_pres hfr3).trans
              ((insert_env_pres (Or.inl rfl) hia2).trans ((fresh_name_pres hfr4).trans
                ((new_group_pres hng1).trans ((new_group_pres hng2).trans
                  ((push_group_pres hpg1).trans ((push_group_pres hpg2).trans presS)))))))
          have hcompB := get_ok_unique hgetB hget18
          subst hcompB
          obtain ⟨comp₂, hget₂, hgm, _⟩ := presS.comp _ hget19
          have hndk : ¬ (d = arg ∨ d ∈ envKeysE body ∨ isTmpName d) := by
            intro hk
            rcases hk with hk | hk | hk
            · exact hd3 hk
            · exact hd1 hk
            · exact hd2 hk
          have henvd : lookupA c₂.env d = some (.port ⟨tmpName c.fresh_idx, "out"⟩) := by
            rw [presD.envp d hndk, hc11]
            dsimp only
            rw [lookupA_cons, if_pos rfl, hnacm2]
          refine ⟨body_group, c25.fresh_idx, comp₂, siv, hliv, ?_, hget₂, ?_, ?_, henvd⟩
          · rw [hctl, hg1n, hg2n, hnlt2, hgcn, hgrn, hgresn, hgincn]
          · refine hgm _ ?_
            simp only [replaceCurrent_state]
            simp [hg1n, hncr2]
          · refine hgm _ ?_
            simp [hg1n, hg2n, hnacm2]


/-- The concrete `exReduce` lowering, stepped through literal intermediate
states. -/
theorem exReduce_conv :
    convert_base_expr exReduce (some "d") exConvReduce =
      .ok (exReduceCtl, exConvReduceAfter) := by
  simp only [exReduce, convert_base_expr, bind_eq]
  refine Conv.bind_ok.mpr ⟨_, _, rfl, ?_⟩
  refine Conv.bind_ok.mpr ⟨_, _, rfl, ?_⟩
  refine Conv.bind_ok.mpr ⟨_, _, rfl, ?_⟩
  refine Conv.bind_ok.mpr ⟨_, _, rfl, ?_⟩
  refine Conv.bind_ok.mpr ⟨_, _, rfl, ?_⟩
  refine Conv.bind_ok.mpr ⟨_, _, rfl, ?_⟩
  refine Conv.bind_ok.mpr ⟨_, _, rfl, ?_⟩
  refine Conv.bind_ok.mpr ⟨_, exRedSt3, rfl, ?_⟩
  refine Conv.bind_ok.mpr ⟨_, _, rfl, ?_⟩
  refine Conv.bind_ok.mpr ⟨_, _, rfl, ?_⟩
  refine Conv.bind_ok.mpr ⟨_, _, rfl, ?_⟩
  refine Conv.bind_ok.mpr ⟨_, _, rfl, ?_⟩
  refine Conv.bind_ok.mpr ⟨_, _, rfl, ?_⟩
  refine Conv.bind_ok.mpr ⟨_, exRedSt9, rfl, ?_⟩
  refine Conv.bind_ok.mpr ⟨_, _, rfl, ?_⟩
  refine Conv.bind_ok.mpr ⟨_, _, rfl, ?_⟩
  refine Conv.bind_ok.mpr ⟨_, _, rfl, ?_⟩
  refine Conv.bind_ok.mpr ⟨_, _, rfl, ?_⟩
  refine Conv.bind_ok.mpr ⟨_, _, rfl, ?_⟩
  refine Conv.bind_ok.mpr ⟨_, _, rfl, ?_⟩
  refine Conv.bind_ok.mpr ⟨_, exRedSt16, rfl, ?_⟩
  refine Conv.bind_ok.mpr ⟨_, _, rfl, ?_⟩
  refine Conv.bind_ok.mpr ⟨_, _, rfl, ?_⟩
  refine Conv.bind_ok.mpr ⟨_, _, rfl, ?_⟩
  refine Conv.bind_ok.mpr ⟨_, exRedSt20, rfl, ?_⟩
  refine Conv.bind_ok.mpr ⟨_, _, rfl, ?_⟩
  refine Conv.bind_ok.mpr ⟨_, _, rfl, ?_⟩
  refine Conv.bind_ok.mpr ⟨_, _, rfl, ?_⟩
  refine Conv.bind_ok.mpr ⟨_, _, rfl, ?_⟩
  refine Conv.bind_ok.mpr ⟨_, _, rfl, ?_⟩
  refine Conv.bind_ok.mpr ⟨_, exRedSt25, rfl, ?_⟩
  refine Conv.bind_ok.mpr ⟨_, _, rfl, ?_⟩
  refine Conv.bind_ok.mpr ⟨_, _, rfl, ?_⟩
  refine Conv.bind_ok.mpr ⟨_, _, rfl, ?_⟩
  refine Conv.bind_ok.mpr ⟨_, _, rfl, ?_⟩
  exact rfl

/-- The destination used in the concrete `Reduce` witness is not a generator
temporary. -/
theorem d_not_tmp : ¬ isTmpName "d" := by
  rintro ⟨k, hk⟩
  have h2 := congrArg String.data hk
  rw [String.data_append] at h2
  have h3 : ("d").data = ['d'] := rfl
  have h4 : ("_tmp_").data = ['_', 't', 'm', 'p', '_'] := rfl
  rw [h3, h4] at h2
  simp at h2

/-- C4 (witness): the `Par`-then-`While` shape at a concrete `Reduce`
lowering from `exConvReduce`. -/
theorem c4_witness :
    "d" ∉ envKeysE (AExpr.mk [] (.var "acc")) ∧ ¬ isTmpName "d" ∧ "d" ≠ "x" ∧
    ReduceShape exConvReduce "z" "d" exReduceCtl exConvReduceAfter :=
  ⟨by decide, d_not_tmp, by decide,
   c4_reduce_par_while exConvReduce exConvReduceAfter "arr" "z" "acc" "x" "d"
     (AExpr.mk [] (.var "acc")) exReduceCtl (by decide) d_not_tmp (by decide)
     exReduce_conv⟩

/-- The concrete clashing `Reduce` lowering (destination `_tmp_0`, body
rebinding `_tmp_0`), stepped through literal intermediate states. -/
theorem exReduceClash_conv :
    convert_base_expr exReduceClash (some "_tmp_0") exConvReduce =
      .ok (exReduceCtl, exConvReduceClash) := by
  simp only [exReduceClash, convert_base_expr, bind_eq]
  refine Conv.bind_ok.mpr ⟨_, _, rfl, ?_⟩
  refine Conv.bind_ok.mpr ⟨_, _, rfl, ?_⟩
  refine Conv.bind_ok.mpr ⟨_, _, rfl, ?_⟩
  refine Conv.bind_ok.mpr ⟨_, _, rfl, ?_⟩
  refine Conv.bind_ok.mpr ⟨_, _, rfl, ?_⟩
  refine Conv.bind_ok.mpr ⟨_, _, rfl, ?_⟩
  refine Conv.bind_ok.mpr ⟨_, _, rfl, ?_⟩
  refine Conv.bind_ok.mpr ⟨_, exRedSt3, rfl, ?_⟩
  refine Conv.bind_ok.mpr ⟨_, _, rfl, ?_⟩
  refine Conv.bind_ok.mpr ⟨_, _, rfl, ?_⟩
  refine Conv.bind_ok.mpr ⟨_, _, rfl, ?_⟩
  refine Conv.bind_ok.mpr ⟨_, _, rfl, ?_⟩
  refine Conv.bind_ok.mpr ⟨_, _, rfl, ?_⟩
  refine Conv.bind_ok.mpr ⟨_, exClashSt9, rfl, ?_⟩
  refine Conv.bind_ok.mpr ⟨_, _, rfl, ?_⟩
  refine Conv.bind_ok.mpr ⟨_, _, rfl, ?_⟩
  refine Conv.bind_ok.mpr ⟨_, _, rfl, ?_⟩
  refine Conv.bind_ok.mpr ⟨_, _, rfl, ?_⟩
  refine Conv.bind_ok.mpr ⟨_, _, rfl, ?_⟩
  refine Conv.bind_ok.mpr ⟨_, _, rfl, ?_⟩
  refine Conv.bind_ok.mpr ⟨_, exClashSt16, rfl, ?_⟩
  refine Conv.bind_ok.mpr ⟨_, _, rfl, ?_⟩
  refine Conv.bind_ok.mpr ⟨_, _, rfl, ?_⟩
  refine Conv.bind_ok.mpr ⟨_, _, rfl, ?_⟩
  refine Conv.bind_ok.mpr ⟨_, exClashSt20, rfl, ?_⟩
  refine Conv.bind_ok.mpr ⟨_, _, rfl, ?_⟩
  refine Conv.bind_ok.mpr ⟨_, _, rfl, ?_⟩
  refine Conv.bind_ok.mpr ⟨_, _, rfl, ?_⟩
  refine Conv.bind_ok.mpr ⟨_, _, rfl, ?_⟩
  refine Conv.bind_ok.mpr ⟨_, _, rfl, ?_⟩
  refine Conv.bind_ok.mpr ⟨_, exClashSt25, rfl, ?_⟩
  refine Conv.bind_ok.mpr ⟨_, _, rfl, ?_⟩
  refine Conv.bind_ok.mpr ⟨_, _, rfl, ?_⟩
  refine Conv.bind_ok.mpr ⟨_, _, rfl, ?_⟩
  refine Conv.bind_ok.mpr ⟨_, _, rfl, ?_⟩
  exact rfl

/-- C4 (counterexample): lowering a `Reduce` to the destination `_tmp_0` — a
name of the generator's own `_tmp_N` form, exactly what a function-result or
materialized `Reduce` receives from `fresh_name` — whose lambda body rebinds
`_tmp_0` succeeds, yet leaves the destination bound to the immediate `1`, the
body's value, because the body's `let _tmp_0` binding shadows the earlier
binding to the accumulator register's `out` port: the claimed shape fails on
this input. -/
theorem c4_counterexample :
    convert_base_expr exReduceClash (some "_tmp_0") exConvReduce =
      .ok (exReduceCtl, exConvReduceClash) ∧
    isTmpName "_tmp_0" ∧
    lookupA exConvReduceClash.env "_tmp_0" = some (.int 1 32) ∧
    ¬ ReduceShape exConvReduce "z" "_tmp_0" exReduceCtl exConvReduceClash := by
  refine ⟨exReduceClash_conv, ⟨0, rfl⟩, rfl, ?_⟩
  rintro ⟨bctl, j, comp, siv, -, -, -, -, -, henv⟩
  have h0 : lookupA exConvReduceClash.env "_tmp_0" = some (Src.int 1 32) := rfl
  rw [h0] at henv
  exact Src.noConfusion (Option.some.inj henv)

end HLS
namespace HLS

/-- `Nat.toDigitsCore` with enough fuel computes `digitsRec`. -/
theorem toDigitsCore_eq : ∀ (f n : Nat) (acc : List Char), n < f →
    Nat.toDigitsCore 10 f n acc = digitsRec n ++ acc := by
  intro f
  induction f with
  | zero =>
    intro n acc h
    exact absurd h (Nat.not_lt_zero n)
  | succ f ih =>
    intro n acc h
    rw [Nat.toDigitsCore]
    by_cases h10 : n / 10 = 0
    · rw [if_pos h10, digitsRec, dif_pos h10]
      rfl
    · rw [if_neg h10, digitsRec, dif_neg h10]
      have hn0 : 0 < n := by
        rcases Nat.eq_zero_or_pos n with rfl | hp
        · exact absurd rfl h10
        · exact hp
      have hlt : n / 10 < f := lt_of_lt_of_le (Nat.div_lt_self hn0 (by omega)) (by omega)
      rw [ih (n / 10) _ hlt, List.append_assoc]
      rfl

/-- Decimal digit characters round-trip through `digitVal`. -/
theorem digitVal_digitChar : ∀ d, d < 10 → digitVal (Nat.digitChar d) = d := by decide

/-- `undigits` is a left inverse of `digitsRec`. -/
theorem undigits_digitsRec : ∀ n, undigits (digitsRec n) = n := by
  intro n
  induction n using Nat.strong_induction_on with
  | _ n ih =>
    rw [digitsRec]
    by_cases h10 : n / 10 = 0
    · rw [dif_pos h10]
      have hlt : n % 10 < 10 := Nat.mod_lt _ (by omega)
      have : undigits [Nat.digitChar (n % 10)] = digitVal (Nat.digitChar (n % 10)) := by
        simp [undigits]
      rw [this, digitVal_digitChar _ hlt]
      omega
    · rw [dif_neg h10]
      have hn0 : 0 < n := by
        rcases Nat.eq_zero_or_pos n with rfl | hp
        · exact absurd rfl h10
        · exact hp
      have hrec := ih (n / 10) (Nat.div_lt_self hn0 (by omega))
      have hlt : n % 10 < 10 := Nat.mod_lt _ (by omega)
      unfold undigits at hrec ⊢
      rw [List.foldl_append]
      rw [hrec]
      simp [digitVal_digitChar _ hlt]
      omega

/-- `Nat.repr` prints `digitsRec`. -/
theorem repr_eq_digitsRec (n : Nat) : Nat.repr n = (digitsRec n).asString := by
  unfold Nat.repr Nat.toDigits
  rw [toDigitsCore_eq _ _ _ (Nat.lt_succ_self n), List.append_nil]

/-- `Nat.repr` is injective. -/
theorem repr_inj {m n : Nat} (h : Nat.repr m = Nat.repr n) : m = n := by
  rw [repr_eq_digitsRec, repr_eq_digitsRec] at h
  have h2 : digitsRec m = digitsRec n := congrArg String.data h
  calc m = undigits (digitsRec m) := (undigits_digitsRec m).symm
    _ = undigits (digitsRec n) := by rw [h2]
    _ = n := undigits_digitsRec n

/-- Decimal digit strings never contain an underscore. -/
theorem digitsRec_no_underscore : ∀ n, ('_' : Char) ∉ digitsRec n := by
  intro n
  induction n using Nat.strong_induction_on with
  | _ n ih =>
    have hd : Nat.digitChar (n % 10) ≠ '_' := by
      have hlt : n % 10 < 10 := Nat.mod_lt _ (by omega)
      revert hlt
      generalize n % 10 = d
      revert d
      decide
    rw [digitsRec]
    by_cases h10 : n / 10 = 0
    · rw [dif_pos h10]
      intro hmem
      rcases List.mem_singleton.1 hmem with hmem
      exact hd hmem.symm
    · rw [dif_neg h10]
      intro hmem
      have hn0 : 0 < n := by
        rcases Nat.eq_zero_or_pos n with rfl | hp
        · exact absurd rfl h10
        · exact hp
      rcases List.mem_append.1 hmem with hmem | hmem
      · exact ih (n / 10) (Nat.div_lt_self hn0 (by omega)) hmem
      · exact hd (List.mem_singleton.1 hmem).symm

/-- `Nat.repr` never contains an underscore. -/
theorem repr_no_underscore (n : Nat) : ('_' : Char) ∉ (Nat.repr n).data := by
  rw [repr_eq_digitsRec]
  exact digitsRec_no_underscore n

/-- Splitting a character list at a separator absent from both prefixes is
unambiguous. -/
theorem sep_prefix_eq {sep : Char} : ∀ (p1 p2 q1 q2 : List Char),
    sep ∉ p1 → sep ∉ p2 → p1 ++ sep :: q1 = p2 ++ sep :: q2 → p1 = p2 ∧ q1 = q2 := by
  intro p1
  induction p1 with
  | nil =>
    intro p2 q1 q2 h1 h2 h
    cases p2 with
    | nil =>
      refine ⟨rfl, ?_⟩
      injection h
    | cons c p2t =>
      injection h with hc htl
      exact absurd (hc ▸ List.mem_cons_self c p2t) h2
  | cons c1 p1t ih =>
    intro p2 q1 q2 h1 h2 h
    cases p2 with
    | nil =>
      injection h with hc htl
      exact absurd (hc.symm ▸ List.mem_cons_self c1 p1t) h1
    | cons c2 p2t =>
      injection h with hc htl
      have h1t : sep ∉ p1t := fun hm => h1 (List.mem_cons_of_mem _ hm)
      have h2t : sep ∉ p2t := fun hm => h2 (List.mem_cons_of_mem _ hm)
      obtain ⟨hp, hq⟩ := ih p2t q1 q2 h1t h2t htl
      exact ⟨by rw [hc, hp], hq⟩

/-- Splitting a character list at a separator absent from both suffixes is
unambiguous. -/
theorem sep_suffix_eq {sep : Char} (l1 l2 r1 r2 : List Char)
    (h1 : sep ∉ r1) (h2 : sep ∉ r2) (h : l1 ++ sep :: r1 = l2 ++ sep :: r2) :
    r1 = r2 := by
  have hrev := congrArg List.reverse h
  rw [List.reverse_append, List.reverse_append, List.reverse_cons, List.reverse_cons] at hrev
  rw [List.append_assoc, List.append_assoc] at hrev
  have h1r : sep ∉ r1.reverse := fun hm => h1 (List.mem_reverse.1 hm)
  have h2r : sep ∉ r2.reverse := fun hm => h2 (List.mem_reverse.1 hm)
  obtain ⟨hp, _⟩ := sep_prefix_eq r1.reverse r2.reverse l1.reverse l2.reverse h1r h2r
    (by simpa using hrev)
  have := congrArg List.reverse hp
  simpa using this

/-- Two alpha-fresh names are equal only if their counters are equal. -/
theorem encode_counter_eq {o1 o2 : String} {c1 c2 : Nat}
    (h : o1 ++ "_" ++ Nat.repr c1 = o2 ++ "_" ++ Nat.repr c2) : c1 = c2 := by
  apply repr_inj
  have hd := congrArg String.data h
  simp only [String.data_append] at hd
  rw [List.append_assoc, List.append_assoc] at hd
  have hsplit := sep_suffix_eq o1.data o2.data (Nat.repr c1).data (Nat.repr c2).data
    (repr_no_underscore c1) (repr_no_underscore c2) (by simpa using hd)
  exact String.ext hsplit

/-- An alpha-fresh name is never `main`. -/
theorem encode_ne_main (o : String) (c : Nat) : o ++ "_" ++ Nat.repr c ≠ "main" := by
  intro h
  have hd := congrArg String.data h
  simp only [String.data_append] at hd
  have hmem : ('_' : Char) ∈ o.data ++ ['_'] ++ (Nat.repr c).data := by simp
  rw [hd] at hmem
  simp at hmem

end HLS
namespace HLS

/-- A fresh-counter name is never `main`. -/
theorem goodName_ne_main {lo hi : Nat} {n : String} (h : GoodName lo hi n) :
    n ≠ "main" := by
  obtain ⟨o, c, _, _, rfl⟩ := h
  exact encode_ne_main o c

/-- Widening the counter range of `GoodName`. -/
theorem goodName_mono {lo hi lo2 hi2 : Nat} {n : String} (h : GoodName lo hi n)
    (h1 : lo2 ≤ lo) (h2 : hi ≤ hi2) : GoodName lo2 hi2 n := by
  obtain ⟨o, c, hc1, hc2, he⟩ := h
  exact ⟨o, c, le_trans h1 hc1, lt_of_lt_of_le hc2 h2, he⟩

/-- Fresh-counter names from disjoint counter ranges are distinct. -/
theorem goodName_not_both {lo mid hi : Nat} {n : String}
    (ha : GoodName lo mid n) (hb : GoodName mid hi n) : False := by
  obtain ⟨o1, c1, _, hc1, he1⟩ := ha
  obtain ⟨o2, c2, hc2, _, he2⟩ := hb
  have := encode_counter_eq (he1.symm.trans he2)
  omega

/-- Widening the counter range and the `main` budget of `BoundOk`. -/
theorem boundok_mono {lo hi k lo2 hi2 k2 : Nat} {l : List String}
    (h : BoundOk lo hi k l) (h1 : lo2 ≤ lo) (h2 : hi ≤ hi2) (hk : k ≤ k2) :
    BoundOk lo2 hi2 k2 l := by
  obtain ⟨hn, hc, hg⟩ := h
  refine ⟨hn, le_trans hc hk, fun n hn2 => ?_⟩
  rcases hg n hn2 with hm | hgx
  · exact Or.inl hm
  · exact Or.inr (goodName_mono hgx h1 h2)

/-- The empty name list is well-bounded. -/
theorem boundok_nil (lo hi k : Nat) : BoundOk lo hi k [] :=
  ⟨List.nodup_nil, by simp, by simp⟩

/-- Concatenating well-bounded segments over consecutive counter ranges. -/
theorem boundok_append {lo mid hi k1 k2 : Nat} {l1 l2 : List String}
    (h1 : BoundOk lo mid k1 l1) (h2 : BoundOk mid hi k2 l2)
    (hlm : lo ≤ mid) (hmh : mid ≤ hi) (hk : k1 + k2 ≤ 1) :
    BoundOk lo hi (k1 + k2) (l1 ++ l2) := by
  obtain ⟨hn1, hc1, hg1⟩ := h1
  obtain ⟨hn2, hc2, hg2⟩ := h2
  refine ⟨?_, ?_, ?_⟩
  · rw [List.nodup_append]
    refine ⟨hn1, hn2, ?_⟩
    intro x hx1 hx2
    rcases hg1 x hx1 with hm1 | hgx
    · subst hm1
      rcases hg2 "main" hx2 with hm | hgy
      · have hp1 : 0 < l1.count "main" := List.count_pos_iff.2 hx1
        have hp2 : 0 < l2.count "main" := List.count_pos_iff.2 hx2
        omega
      · exact goodName_ne_main hgy rfl
    · rcases hg2 x hx2 with hm2 | hgy
      · subst hm2
        exact goodName_ne_main hgx rfl
      · exact goodName_not_both hgx hgy
  · rw [List.count_append]
    omega
  · intro n hn
    rcases List.mem_append.1 hn with hx | hx
    · rcases hg1 n hx with hm | hgx
      · exact Or.inl hm
      · exact Or.inr (goodName_mono hgx le_rfl hmh)
    · rcases hg2 n hx with hm | hgx
      · exact Or.inl hm
      · exact Or.inr (goodName_mono hgx hlm le_rfl)

/-- A single fresh name is well-bounded with no `main` budget. -/
theorem boundok_single {lo hi : Nat} (o : String) {c : Nat} (h1 : lo ≤ c)
    (h2 : c < hi) : BoundOk lo hi 0 [o ++ "_" ++ Nat.repr c] := by
  refine ⟨List.nodup_singleton _, ?_, ?_⟩
  · have : (o ++ "_" ++ Nat.repr c) ≠ "main" := encode_ne_main o c
    simp [List.count_singleton, this]
  · intro n hn
    rcases List.mem_singleton.1 hn with rfl
    exact Or.inr ⟨o, c, h1, h2, rfl⟩

/-- Prepending the unrenamed `main` to a `main`-free well-bounded segment. -/
theorem boundok_cons_main {lo hi : Nat} {l : List String}
    (h : BoundOk lo hi 0 l) : BoundOk lo hi 1 ("main" :: l) := by
  obtain ⟨hn, hc, hg⟩ := h
  have hmem : "main" ∉ l := by
    intro hm
    have := List.count_pos_iff.2 hm
    omega
  refine ⟨List.nodup_cons.2 ⟨hmem, hn⟩, ?_, ?_⟩
  · rw [List.count_cons]
    simp
    omega
  · intro n hn2
    rcases List.mem_cons.1 hn2 with rfl | hx
    · exact Or.inl rfl
    · exact hg n hx

/-- `AlphaContext.bindName` produces exactly the encoded fresh name and bumps
the counter. -/
theorem bindName_eq (ctx : AlphaContext) (o : String) :
    (ctx.bindName o).1 = o ++ "_" ++ Nat.repr ctx.counter ∧
    (ctx.bindName o).2.counter = ctx.counter + 1 := ⟨rfl, rfl⟩

/-- The lambda-parameter loop of the `Map` arm: counter evolution and bound
names. -/
theorem bind_all_bound : ∀ (ps : List String) (ctx : AlphaContext),
    (bind_all ps ctx).2.counter = ctx.counter + ps.length ∧
    BoundOk ctx.counter (ctx.counter + ps.length) 0 (bind_all ps ctx).1 := by
  intro ps
  induction ps with
  | nil =>
    intro ctx
    exact ⟨rfl, boundok_nil _ _ _⟩
  | cons p rest ih =>
    intro ctx
    obtain ⟨hcnt, hbd⟩ := ih (ctx.bindName p).2
    have hc1 : (ctx.bindName p).2.counter = ctx.counter + 1 := rfl
    constructor
    · show (bind_all rest (ctx.bindName p).2).2.counter = _
      rw [hcnt, hc1]
      simp [List.length]
      omega
    · show BoundOk _ _ 0 ((ctx.bindName p).1 :: (bind_all rest (ctx.bindName p).2).1)
      have hsingle : BoundOk ctx.counter (ctx.counter + 1) 0 [(ctx.bindName p).1] :=
        boundok_single p le_rfl (by omega)
      have happ := boundok_append hsingle
        (boundok_mono hbd (le_of_eq hc1.symm) (le_of_eq (by rw [hc1])) le_rfl)
        (by omega) (by omega) (by omega)
      have : ctx.counter + 1 + rest.length = ctx.counter + (p :: rest).length := by
        simp [List.length]
        omega
      rw [← this]
      exact happ

/-- The parameter loop of `alpha_convert_fundef`: counter evolution and bound
names. -/
theorem bind_params_bound : ∀ (ps : List (String × Ty)) (ctx : AlphaContext),
    (bind_params ps ctx).2.counter = ctx.counter + ps.length ∧
    BoundOk ctx.counter (ctx.counter + ps.length) 0
      ((bind_params ps ctx).1.map Prod.fst) := by
  intro ps
  induction ps with
  | nil =>
    intro ctx
    exact ⟨rfl, boundok_nil _ _ _⟩
  | cons p rest ih =>
    intro ctx
    obtain ⟨pn, pt⟩ := p
    obtain ⟨hcnt, hbd⟩ := ih (ctx.bindName pn).2
    have hc1 : (ctx.bindName pn).2.counter = ctx.counter + 1 := rfl
    constructor
    · show (bind_params rest (ctx.bindName pn).2).2.counter = _
      rw [hcnt, hc1]
      simp [List.length]
      omega
    · show BoundOk _ _ 0 ((ctx.bindName pn).1 ::
        ((bind_params rest (ctx.bindName pn).2).1.map Prod.fst))
      have hsingle : BoundOk ctx.counter (ctx.counter + 1) 0 [(ctx.bindName pn).1] :=
        boundok_single pn le_rfl (by omega)
      have happ := boundok_append hsingle
        (boundok_mono hbd (le_of_eq hc1.symm) (le_of_eq (by rw [hc1])) le_rfl)
        (by omega) (by omega) (by omega)
      have : ctx.counter + 1 + rest.length = ctx.counter + ((pn, pt) :: rest).length := by
        simp [List.length]
        omega
      rw [← this]
      exact happ

end HLS
namespace HLS

set_option maxHeartbeats 3200000

mutual

/-- Alpha conversion of an operand expression: the counter never decreases and
the produced binding-site names are distinct fresh names drawn from the
consumed counter range. -/
theorem alpha_base_bound (e : BaseExpr) : ∀ (ctx : AlphaContext),
    ctx.counter ≤ (alpha_convert_base_expr ctx e).2.counter ∧
    BoundOk ctx.counter (alpha_convert_base_expr ctx e).2.counter 0
      (boundB (alpha_convert_base_expr ctx e).1) := by
  cases e with
  | int n =>
    intro ctx
    exact ⟨le_rfl, boundok_nil _ _ _⟩
  | bool b =>
    intro ctx
    exact ⟨le_rfl, boundok_nil _ _ _⟩
  | var v =>
    intro ctx
    exact ⟨le_rfl, boundok_nil _ _ _⟩
  | newArray ty size =>
    intro ctx
    exact ⟨le_rfl, boundok_nil _ _ _⟩
  | add l r =>
    intro ctx
    have h1 := alpha_base_bound l ctx
    have h2 := alpha_base_bound r (alpha_convert_base_expr ctx l).2
    simp only [alpha_convert_base_expr]
    rcases hl : alpha_convert_base_expr ctx l with ⟨nl, ctx1⟩
    rw [hl] at h1 h2
    rcases hr : alpha_convert_base_expr ctx1 r with ⟨nr, ctx2⟩
    rw [hr] at h2
    dsimp only at h1 h2 ⊢
    simp only [boundB]
    exact ⟨le_trans h1.1 h2.1,
      boundok_append h1.2 h2.2 h1.1 h2.1 (by omega)⟩
  | mul l r =>
    intro ctx
    have h1 := alpha_base_bound l ctx
    have h2 := alpha_base_bound r (alpha_convert_base_expr ctx l).2
    simp only [alpha_convert_base_expr]
    rcases hl : alpha_convert_base_expr ctx l with ⟨nl, ctx1⟩
    rw [hl] at h1 h2
    rcases hr : alpha_convert_base_expr ctx1 r with ⟨nr, ctx2⟩
    rw [hr] at h2
    dsimp only at h1 h2 ⊢
    simp only [boundB]
    exact ⟨le_trans h1.1 h2.1,
      boundok_append h1.2 h2.2 h1.1 h2.1 (by omega)⟩
  | map arrays params body =>
    intro ctx
    have h1 := alpha_list_bound arrays ctx
    simp only [alpha_convert_base_expr]
    rcases hl : alpha_convert_list ctx arrays with ⟨narrays, ctx1⟩
    rw [hl] at h1
    have h2 := bind_all_bound params ctx1
    rcases hp : bind_all params ctx1 with ⟨nparams, ctx2⟩
    rw [hp] at h2
    have h3 := alpha_expr_bound body ctx2
    rcases hb : alpha_convert_expr ctx2 body with ⟨nbody, ctx3⟩
    rw [hb] at h3
    dsimp only at h1 h2 h3 ⊢
    simp only [boundB]
    have hc2 : ctx2.counter = ctx1.counter + params.length := h2.1
    have hple : ctx1.counter ≤ ctx2.counter := by omega
    refine ⟨le_trans h1.1 (le_trans hple h3.1), ?_⟩
    have hparams : BoundOk ctx1.counter ctx2.counter 0 nparams := by
      rw [hc2]
      exact h2.2
    have happ1 := boundok_append h1.2 hparams h1.1 hple (by omega)
    exact boundok_append happ1 h3.2 (le_trans h1.1 hple) h3.1 (by omega)
  | reduce array init p1 p2 body =>
    intro ctx
    have h1 := alpha_base_bound array ctx
    simp only [alpha_convert_base_expr]
    rcases ha : alpha_convert_base_expr ctx array with ⟨na, ctx1⟩
    rw [ha] at h1
    have h2 := alpha_base_bound init ctx1
    rcases hi : alpha_convert_base_expr ctx1 init with ⟨ni, ctx2⟩
    rw [hi] at h2
    have h3 := alpha_expr_bound body ((ctx2.bindName p1).2.bindName p2).2
    rcases hb : alpha_convert_expr ((ctx2.bindName p1).2.bindName p2).2 body
      with ⟨nbody, ctx5⟩
    rw [hb] at h3
    dsimp only at h1 h2 h3 ⊢
    simp only [boundB]
    have hcp1 : ((ctx2.bindName p1).2).counter = ctx2.counter + 1 := rfl
    have hcp2 : (((ctx2.bindName p1).2.bindName p2).2).counter = ctx2.counter + 2 := by
      show ((ctx2.bindName p1).2).counter + 1 = ctx2.counter + 2
      omega
    have hb1 : BoundOk ctx2.counter (ctx2.counter + 1) 0 [((ctx2.bindName p1)).1] :=
      boundok_single p1 le_rfl (by omega)
    have hb2 : BoundOk (ctx2.counter + 1) (ctx2.counter + 2) 0
        [(((ctx2.bindName p1).2).bindName p2).1] := by
      exact @boundok_single (ctx2.counter + 1) (ctx2.counter + 2) p2
        (((ctx2.bindName p1).2).counter) (by omega) (by omega)
    have hpair : BoundOk ctx2.counter (ctx2.counter + 2) 0
        ([((ctx2.bindName p1)).1] ++ [(((ctx2.bindName p1).2).bindName p2).1]) :=
      boundok_append hb1 hb2 (by omega) (by omega) (by omega)
    have h3' : BoundOk (ctx2.counter + 2) ctx5.counter 0 (boundE nbody) := by
      rw [← hcp2]
      exact h3.2
    have h3le : ctx2.counter + 2 ≤ ctx5.counter := by
      rw [← hcp2]
      exact h3.1
    have happ1 := boundok_append h1.2 h2.2 h1.1 h2.1 (by omega)
    have happ2 := boundok_append happ1 hpair (le_trans h1.1 h2.1) (by omega) (by omega)
    have happ3 := boundok_append happ2 h3' (le_trans (le_trans h1.1 h2.1) (by omega))
      h3le (by omega)
    exact ⟨le_trans h1.1 (le_trans h2.1 (le_trans (by omega) h3le)), happ3⟩
  | call name args =>
    intro ctx
    have h1 := alpha_list_bound args ctx
    simp only [alpha_convert_base_expr]
    rcases hl : alpha_convert_list ctx args with ⟨nargs, ctx1⟩
    rw [hl] at h1
    dsimp only at h1 ⊢
    simp only [boundB]
    exact h1
  | arraySet name index value =>
    intro ctx
    have h1 := alpha_base_bound index ctx
    simp only [alpha_convert_base_expr]
    rcases hl : alpha_convert_base_expr ctx index with ⟨ni, ctx1⟩
    rw [hl] at h1
    have h2 := alpha_base_bound value ctx1
    rcases hr : alpha_convert_base_expr ctx1 value with ⟨nv, ctx2⟩
    rw [hr] at h2
    dsimp only at h1 h2 ⊢
    simp only [boundB]
    exact ⟨le_trans h1.1 h2.1,
      boundok_append h1.2 h2.2 h1.1 h2.1 (by omega)⟩
termination_by sizeOf e

/-- Alpha conversion of an operand list: counter monotone, bound names
well-formed. -/
theorem alpha_list_bound (es : List BaseExpr) : ∀ (ctx : AlphaContext),
    ctx.counter ≤ (alpha_convert_list ctx es).2.counter ∧
    BoundOk ctx.counter (alpha_convert_list ctx es).2.counter 0
      (boundBList (alpha_convert_list ctx es).1) := by
  cases es with
  | nil =>
    intro ctx
    exact ⟨le_rfl, boundok_nil _ _ _⟩
  | cons e rest =>
    intro ctx
    have h1 := alpha_base_bound e ctx
    simp only [alpha_convert_list]
    rcases hl : alpha_convert_base_expr ctx e with ⟨ne2, ctx1⟩
    rw [hl] at h1
    have h2 := alpha_list_bound rest ctx1
    rcases hr : alpha_convert_list ctx1 rest with ⟨nrest, ctx2⟩
    rw [hr] at h2
    dsimp only at h1 h2 ⊢
    simp only [boundBList]
    exact ⟨le_trans h1.1 h2.1,
      boundok_append h1.2 h2.2 h1.1 h2.1 (by omega)⟩
termination_by sizeOf es

/-- Alpha conversion of a let binding: counter monotone, bound names
well-formed. -/
theorem alpha_let_bound (l : LetB) : ∀ (ctx : AlphaContext),
    ctx.counter ≤ (alpha_convert_let ctx l).2.counter ∧
    BoundOk ctx.counter (alpha_convert_let ctx l).2.counter 0
      (boundLet (alpha_convert_let ctx l).1) := by
  cases l with
  | bindLet name ty value =>
    intro ctx
    have h1 := alpha_base_bound value ctx
    simp only [alpha_convert_let]
    rcases hl : alpha_convert_base_expr ctx value with ⟨nv, ctx1⟩
    rw [hl] at h1
    dsimp only at h1 ⊢
    simp only [boundLet]
    have hsingle : BoundOk ctx1.counter (ctx1.counter + 1) 0 [(ctx1.bindName name).1] :=
      boundok_single name le_rfl (by omega)
    have hcnt : ((ctx1.bindName name).2).counter = ctx1.counter + 1 := rfl
    constructor
    · rw [hcnt]
      omega
    · rw [hcnt]
      exact boundok_append h1.2 hsingle h1.1 (by omega) (by omega)
  | noBindLet value =>
    intro ctx
    have h1 := alpha_base_bound value ctx
    simp only [alpha_convert_let]
    rcases hl : alpha_convert_base_expr ctx value with ⟨nv, ctx1⟩
    rw [hl] at h1
    dsimp only at h1 ⊢
    simp only [boundLet]
    exact h1
termination_by sizeOf l

/-- Alpha conversion of a list of lets: counter monotone, bound names
well-formed. -/
theorem alpha_lets_bound (ls : List LetB) : ∀ (ctx : AlphaContext),
    ctx.counter ≤ (alpha_convert_lets ctx ls).2.counter ∧
    BoundOk ctx.counter (alpha_convert_lets ctx ls).2.counter 0
      (boundLets (alpha_convert_lets ctx ls).1) := by
  cases ls with
  | nil =>
    intro ctx
    exact ⟨le_rfl, boundok_nil _ _ _⟩
  | cons l rest =>
    intro ctx
    have h1 := alpha_let_bound l ctx
    simp only [alpha_convert_lets]
    rcases hl : alpha_convert_let ctx l with ⟨nl, ctx1⟩
    rw [hl] at h1
    have h2 := alpha_lets_bound rest ctx1
    rcases hr : alpha_convert_lets ctx1 rest with ⟨nrest, ctx2⟩
    rw [hr] at h2
    dsimp only at h1 h2 ⊢
    simp only [boundLets]
    exact ⟨le_trans h1.1 h2.1,
      boundok_append h1.2 h2.2 h1.1 h2.1 (by omega)⟩
termination_by sizeOf ls

/-- Alpha conversion of an expression: counter monotone, bound names
well-formed. -/
theorem alpha_expr_bound (e : Expr) : ∀ (ctx : AlphaContext),
    ctx.counter ≤ (alpha_convert_expr ctx e).2.counter ∧
    BoundOk ctx.counter (alpha_convert_expr ctx e).2.counter 0
      (boundE (alpha_convert_expr ctx e).1) := by
  cases e with
  | mk lets body =>
    intro ctx
    have h1 := alpha_lets_bound lets ctx
    simp only [alpha_convert_expr]
    rcases hl : alpha_convert_lets ctx lets with ⟨nlets, ctx1⟩
    rw [hl] at h1
    have h2 := alpha_base_bound body ctx1
    rcases hr : alpha_convert_base_expr ctx1 body with ⟨nbody, ctx2⟩
    rw [hr] at h2
    dsimp only at h1 h2 ⊢
    simp only [boundE]
    exact ⟨le_trans h1.1 h2.1,
      boundok_append h1.2 h2.2 h1.1 h2.1 (by omega)⟩
termination_by sizeOf e

end

end HLS
namespace HLS

/-- Alpha conversion of a function definition: counter monotone, and all its
binding sites (name, parameters, body binders) are distinct, with `main` as
the only possibly-unrenamed name. -/
theorem alpha_fundef_bound (fd : FunDefS) (ctx : AlphaContext) :
    ctx.counter ≤ (alpha_convert_fundef ctx fd).2.counter ∧
    BoundOk ctx.counter (alpha_convert_fundef ctx fd).2.counter
      (if fd.name = "main" then 1 else 0)
      (boundFunDef (alpha_convert_fundef ctx fd).1) := by
  by_cases hmain : fd.name = "main"
  · simp only [alpha_convert_fundef, if_pos hmain]
    have h1 := bind_params_bound fd.params ctx
    rcases hp : bind_params fd.params ctx with ⟨nparams, ctx2⟩
    rw [hp] at h1
    have h2 := alpha_expr_bound fd.body ctx2
    rcases hb : alpha_convert_expr ctx2 fd.body with ⟨nbody, ctx3⟩
    rw [hb] at h2
    dsimp only at h1 h2 ⊢
    simp only [boundFunDef]
    have hc2 : ctx2.counter = ctx.counter + fd.params.length := h1.1
    have hple : ctx.counter ≤ ctx2.counter := by omega
    refine ⟨le_trans hple h2.1, ?_⟩
    have hparams : BoundOk ctx.counter ctx2.counter 0 (nparams.map Prod.fst) := by
      rw [hc2]
      exact h1.2
    have happ := boundok_append hparams h2.2 hple h2.1 (by omega)
    rw [hmain]
    exact boundok_cons_main happ
  · simp only [alpha_convert_fundef, if_neg hmain]
    have h1 := bind_params_bound fd.params (ctx.bindName fd.name).2
    rcases hp : bind_params fd.params (ctx.bindName fd.name).2 with ⟨nparams, ctx2⟩
    rw [hp] at h1
    have h2 := alpha_expr_bound fd.body ctx2
    rcases hb : alpha_convert_expr ctx2 fd.body with ⟨nbody, ctx3⟩
    rw [hb] at h2
    dsimp only at h1 h2 ⊢
    simp only [boundFunDef]
    have hc1 : ((ctx.bindName fd.name).2).counter = ctx.counter + 1 := rfl
    have hc2 : ctx2.counter = ctx.counter + 1 + fd.params.length := by
      rw [h1.1, hc1]
    have hple : ctx.counter + 1 ≤ ctx2.counter := by omega
    refine ⟨by omega, ?_⟩
    have hname : BoundOk ctx.counter (ctx.counter + 1) 0 [(ctx.bindName fd.name).1] :=
      boundok_single fd.name le_rfl (by omega)
    have hparams : BoundOk (ctx.counter + 1) ctx2.counter 0 (nparams.map Prod.fst) := by
      have := boundok_mono h1.2 (le_of_eq hc1.symm) (le_of_eq (by rw [hc1, ← hc2])) le_rfl
      exact this
    have happ1 := boundok_append hparams h2.2 hple h2.1 (by omega)
    have happ2 := boundok_append hname happ1 (by omega) (le_trans hple h2.1) (by omega)
    exact happ2

/-- Alpha conversion of a top-level item: counter monotone, binding sites
distinct with at most one `main`. -/
theorem alpha_top_bound (t : TopLevelS) (ctx : AlphaContext) :
    ctx.counter ≤ (alpha_convert_top ctx t).2.counter ∧
    BoundOk ctx.counter (alpha_convert_top ctx t).2.counter (mainCount [t])
      (boundTop (alpha_convert_top ctx t).1) := by
  cases t with
  | externalDecl dd =>
    exact ⟨le_rfl, boundok_nil _ _ _⟩
  | funDef fd =>
    have h1 := alpha_fundef_bound fd ctx
    simp only [alpha_convert_top]
    rcases hf : alpha_convert_fundef ctx fd with ⟨nfd, ctx1⟩
    rw [hf] at h1
    dsimp only at h1 ⊢
    simp only [boundTop]
    refine ⟨h1.1, ?_⟩
    have : mainCount [TopLevelS.funDef fd] = if fd.name = "main" then 1 else 0 := by
      simp [mainCount]
    rw [this]
    exact h1.2

/-- Alpha conversion of a whole item list of a program with at most one
`main`: all binding sites are distinct fresh names except the unrenamed
`main`(s), whose count is bounded by the source count. -/
theorem alpha_items_bound : ∀ (p : List TopLevelS) (ctx : AlphaContext),
    mainCount p ≤ 1 →
    ctx.counter ≤ (alpha_convert_items ctx p).2.counter ∧
    BoundOk ctx.counter (alpha_convert_items ctx p).2.counter (mainCount p)
      (boundProgram (alpha_convert_items ctx p).1) := by
  intro p
  induction p with
  | nil =>
    intro ctx hm
    exact ⟨le_rfl, boundok_nil _ _ _⟩
  | cons item rest ih =>
    intro ctx hm
    have hrest_le : mainCount rest ≤ mainCount (item :: rest) := by
      cases item <;> simp [mainCount] <;> omega
    have hitem : mainCount [item] + mainCount rest = mainCount (item :: rest) := by
      cases item <;> simp [mainCount]
    have h1 := alpha_top_bound item ctx
    simp only [alpha_convert_items]
    rcases ht : alpha_convert_top ctx item with ⟨ni, ctx1⟩
    rw [ht] at h1
    have h2 := ih ctx1 (le_trans hrest_le hm)
    rcases hr : alpha_convert_items ctx1 rest with ⟨nrest, ctx2⟩
    rw [hr] at h2
    dsimp only at h1 h2 ⊢
    simp only [boundProgram]
    refine ⟨le_trans h1.1 h2.1, ?_⟩
    have happ := boundok_append h1.2 h2.2 h1.1 h2.1 (by omega)
    exact boundok_mono happ le_rfl le_rfl (le_of_eq hitem)

/-- C7 (amended): for a program containing at most one `main` definition,
alpha conversion yields globally distinct binding-site names. -/
theorem c7_alpha_unique_binders (p : List TopLevelS) (h : mainCount p ≤ 1) :
    (boundProgram (alpha_convert_program p)).Nodup := by
  unfold alpha_convert_program
  exact (alpha_items_bound p (seed_externals p ⟨[], 0⟩) h).2.1

/-- C7 (counterexample): a program with two `main` definitions alpha-converts
to a program with a repeated binding-site name — both definitions keep the
name `main`. -/
theorem c7_counterexample :
    mainCount exProgTwoMains = 2 ∧
    boundProgram (alpha_convert_program exProgTwoMains) = ["main", "main"] ∧
    ¬ (boundProgram (alpha_convert_program exProgTwoMains)).Nodup :=
  ⟨rfl, rfl, by decide⟩

/-- C7 (witness): the amended statement at a single-`main` program exercising
function names, parameters, let binders and both lambda-parameter classes. -/
theorem c7_witness :
    mainCount exProgOneMain ≤ 1 ∧
    (boundProgram (alpha_convert_program exProgOneMain)).Nodup :=
  ⟨by decide, c7_alpha_unique_binders exProgOneMain (by decide)⟩

end HLS
